import Mathlib

/-!
# PDCP receive entity (`lib/pdcp/pdcp_entity_rx.cpp`)

A shallow embedding of `pdcp_entity_rx`: the header codec, the RCVD_COUNT
computation, the security glue, the reception buffer (`std::map` keyed by
COUNT), the consecutive drain, the t-Reordering expiry handler and
`handle_pdu`.  The DRB configuration request of the F1AP DU procedures
(`lib/f1ap/du/procedures/f1ap_du_ue_context_common.cpp`) follows the PDCP
definitions in its own namespace.

Conventions.
* `uint32_t` values are natural numbers; every operation that can leave the
  32-bit range is followed by `% 2 ^ 32`.
* Octets are natural numbers; the header codec masks them exactly as the source
  does.
* `std::map<uint32_t, byte_buffer>` is an association list kept in strictly
  ascending key order; `begin()` is the head, `erase(it++)` drops the head.
* Calls on the upper-layer notifiers are recorded in the entity: `upper_dn`
  lists the SDUs passed to `on_new_sdu` in call order, each tagged with the
  COUNT it was stored under, and `upper_cn` counts `on_integrity_failure`
  calls.  Logging is not modelled.
-/

namespace srsgnb

/-! ## Configuration types -/

/-- Octet sequence (`byte_buffer`, `byte_buffer_slice_chain`). -/
abbrev byte_buffer := List Nat

/-- Four-octet MAC-I (`sec_mac`). -/
abbrev sec_mac := List Nat

/-- Configured PDCP sequence-number width. -/
inductive pdcp_sn_size where
  | size12bits
  | size18bits
deriving DecidableEq

/-- Radio-bearer type of the entity. -/
inductive pdcp_rb_type where
  | srb
  | drb
deriving DecidableEq

/-- Duration of t-Reordering: a number of milliseconds (`ms 0` is `ms0`) or
`infinity`. -/
inductive pdcp_t_reordering where
  | ms (duration : Nat)
  | infinity
deriving DecidableEq

/-- Integrity algorithm identifier. -/
inductive integrity_algorithm where
  | nia0
  | nia1
  | nia2
  | nia3
deriving DecidableEq

/-- Ciphering algorithm identifier. -/
inductive ciphering_algorithm where
  | nea0
  | nea1
  | nea2
  | nea3
deriving DecidableEq

/-- Direction input of the security algorithms. -/
inductive security_direction where
  | uplink
  | downlink
deriving DecidableEq

/-- Security configuration `sec_cfg`: selected algorithms and the four keys. -/
structure sec_128_as_config where
  k_128_rrc_int : List Nat
  k_128_up_int : List Nat
  k_128_rrc_enc : List Nat
  k_128_up_enc : List Nat
  integ_algo : integrity_algorithm
  cipher_algo : ciphering_algorithm
deriving DecidableEq

/-- The external security library (`srsgnb/security/integrity.h`,
`srsgnb/security/ciphering.h`), taken as a parameter: each function receives
key, COUNT, bearer, direction and message. -/
structure security_engine where
  security_nia1 : List Nat → Nat → Int → security_direction → byte_buffer → sec_mac
  security_nia2 : List Nat → Nat → Int → security_direction → byte_buffer → sec_mac
  security_nia3 : List Nat → Nat → Int → security_direction → byte_buffer → sec_mac
  security_nea1 : List Nat → Nat → Int → security_direction → byte_buffer → byte_buffer
  security_nea2 : List Nat → Nat → Int → security_direction → byte_buffer → byte_buffer
  security_nea3 : List Nat → Nat → Int → security_direction → byte_buffer → byte_buffer

/-- Construction-time configuration of the entity together with the members of
`pdcp_entity_tx_rx_base` that `handle_pdu` reads (`integrity_enabled`,
`ciphering_enabled`, `sec_cfg`, `lcid`, `direction`). -/
structure pdcp_rx_config where
  sn_size : pdcp_sn_size
  rb_type : pdcp_rb_type
  t_reordering : pdcp_t_reordering
  integrity_enabled : Bool
  ciphering_enabled : Bool
  sec_cfg : sec_128_as_config
  lcid : Nat
  direction : security_direction
deriving DecidableEq

/-- The sentinel `pdcp_t_reordering::ms0`. -/
def pdcp_t_reordering.ms0 : pdcp_t_reordering := .ms 0

/-- Bearer-type test `is_srb()`. -/
def is_srb (cfg : pdcp_rx_config) : Bool := cfg.rb_type == .srb

/-- Bearer-type test `is_drb()`. -/
def is_drb (cfg : pdcp_rx_config) : Bool := cfg.rb_type == .drb

/-! ## Members of the base class -/

/-- Modelled from the spec: `pdcp_entity_tx_rx_base` is not part of the
sources; the SN width is 12 or 18 bits. -/
def sn_bits : pdcp_sn_size → Nat
  | .size12bits => 12
  | .size18bits => 18

/-- Modelled from the spec: `hdr_len_bytes` of the missing base class, 2 octets
for 12-bit SN and 3 octets for 18-bit SN. -/
def hdr_len_bytes : pdcp_sn_size → Nat
  | .size12bits => 2
  | .size18bits => 3

/-- Modelled from the spec: `window_size` of the missing base class,
2^(SN_width - 1). -/
def window_size (s : pdcp_sn_size) : Nat := 2 ^ (sn_bits s - 1)

/-- Modelled from the spec: `SN(count)` of the missing base class, the low
SN_width bits of a COUNT. -/
def SN (s : pdcp_sn_size) (count : Nat) : Nat := count % 2 ^ sn_bits s

/-- Modelled from the spec: `HFN(count)` of the missing base class, the bits of
a COUNT above the SN. -/
def HFN (s : pdcp_sn_size) (count : Nat) : Nat := count / 2 ^ sn_bits s

/-- Modelled from the spec: `COUNT(hfn, sn)` of the missing base class, the
32-bit value with the HFN in the high 32 - SN_width bits and the SN in the low
SN_width bits. -/
def COUNT (s : pdcp_sn_size) (hfn sn : Nat) : Nat := (hfn * 2 ^ sn_bits s + sn) % 2 ^ 32

/-- Length of the MAC-I, `sec_mac_len`. -/
def sec_mac_len : Nat := 4

/-! ## Entity state -/

/-- Reception state variables `st` (all `uint32_t`). -/
structure pdcp_rx_state where
  rx_next : Nat
  rx_deliv : Nat
  rx_reord : Nat
deriving DecidableEq

/-- The mutable part of `pdcp_entity_rx` and the record of its calls on the
collaborators.  `upper_dn` holds the SDUs given to `on_new_sdu`, oldest first,
each with the map key it was stored under; `upper_cn` is the number of
`on_integrity_failure` calls; `timer_runs` is the number of
`reordering_timer.run()` calls. -/
structure pdcp_entity_rx where
  st : pdcp_rx_state
  reorder_queue : List (Nat × byte_buffer)
  reordering_timer_running : Bool
  upper_dn : List (Nat × byte_buffer)
  upper_cn : Nat
  timer_runs : Nat
deriving DecidableEq

/-- State after construction: all counters zero, empty buffer, timer not
running, nothing sent upward. -/
def pdcp_entity_rx.init : pdcp_entity_rx :=
  { st := { rx_next := 0, rx_deliv := 0, rx_reord := 0 }
    reorder_queue := []
    reordering_timer_running := false
    upper_dn := []
    upper_cn := 0
    timer_runs := 0 }

/-! ## Reception buffer (`std::map<uint32_t, byte_buffer>`) -/

/-- Key test `reorder_queue.find(k) != reorder_queue.end()`. -/
def map_contains (q : List (Nat × byte_buffer)) (k : Nat) : Bool :=
  q.any (fun kv => kv.1 == k)

/-- Assignment `reorder_queue[k] = v`: ordered insert, overwriting an equal
key. -/
def map_assign : List (Nat × byte_buffer) → Nat → byte_buffer → List (Nat × byte_buffer)
  | [], k, v => [(k, v)]
  | (k', v') :: rest, k, v =>
    if k < k' then (k, v) :: (k', v') :: rest
    else if k = k' then (k, v) :: rest
    else (k', v') :: map_assign rest k v

/-! ## Header codec (lines 334-382) -/

/-- Function `read_data_pdu_header`: the SN read from the first octets, `none`
when the PDU is not longer than the header. -/
def read_data_pdu_header (s : pdcp_sn_size) (buf : byte_buffer) : Option Nat :=
  if buf.length ≤ hdr_len_bytes s then none
  else
    match s, buf with
    | .size12bits, b0 :: b1 :: _ =>
      some (((b0 &&& 0x0f) <<< 8) ||| (b1 &&& 0xff))
    | .size18bits, b0 :: b1 :: b2 :: _ =>
      some ((((b0 &&& 0x03) <<< 16) ||| ((b1 &&& 0xff) <<< 8)) ||| (b2 &&& 0xff))
    | _, _ => none

/-- Function `discard_data_header`: `trim_head(hdr_len_bytes)`. -/
def discard_data_header (s : pdcp_sn_size) (buf : byte_buffer) : byte_buffer :=
  buf.drop (hdr_len_bytes s)

/-- Function `extract_mac`: copies the last four octets into `mac` and trims
them, unless the buffer is not longer than the MAC-I. -/
def extract_mac (buf : byte_buffer) (mac : sec_mac) : byte_buffer × sec_mac :=
  if buf.length ≤ sec_mac_len then (buf, mac)
  else (buf.take (buf.length - sec_mac_len), buf.drop (buf.length - sec_mac_len))

/-! ## Security helpers (lines 212-289) -/

/-- Octet-wise comparison of the first four octets of two MAC-Is. -/
def mac_equal (mac mac_exp : sec_mac) : Bool :=
  (List.range 4).all (fun i => mac.getD i 0 == mac_exp.getD i 0)

/-- Function `integrity_verify`. -/
def integrity_verify (cfg : pdcp_rx_config) (sec : security_engine) (buf : byte_buffer)
    (count : Nat) (mac : sec_mac) : Bool :=
  let k_int := if is_srb cfg then cfg.sec_cfg.k_128_rrc_int else cfg.sec_cfg.k_128_up_int
  let mac_exp : sec_mac :=
    match cfg.sec_cfg.integ_algo with
    | .nia0 => [0, 0, 0, 0]
    | .nia1 => sec.security_nia1 k_int count ((cfg.lcid : Int) - 1) cfg.direction buf
    | .nia2 => sec.security_nia2 k_int count ((cfg.lcid : Int) - 1) cfg.direction buf
    | .nia3 => sec.security_nia3 k_int count ((cfg.lcid : Int) - 1) cfg.direction buf
  if cfg.sec_cfg.integ_algo ≠ .nia0 then mac_equal mac mac_exp else true

/-- Function `cipher_decrypt`: the output buffer `ct` starts empty and is
assigned only by the non-null algorithms. -/
def cipher_decrypt (cfg : pdcp_rx_config) (sec : security_engine) (msg : byte_buffer)
    (count : Nat) : byte_buffer :=
  let k_enc := if is_srb cfg then cfg.sec_cfg.k_128_rrc_enc else cfg.sec_cfg.k_128_up_enc
  match cfg.sec_cfg.cipher_algo with
  | .nea0 => []
  | .nea1 => sec.security_nea1 k_enc count ((cfg.lcid : Int) - 1) cfg.direction msg
  | .nea2 => sec.security_nea2 k_enc count ((cfg.lcid : Int) - 1) cfg.direction msg
  | .nea3 => sec.security_nea3 k_enc count ((cfg.lcid : Int) - 1) cfg.direction msg

/-! ## RCVD_COUNT (lines 82-90) -/

/-- RCVD_HFN chosen by the window rule; the sums are `uint32_t`, the first
comparison is made on `int64_t`. -/
def rcvd_hfn (s : pdcp_sn_size) (rx_deliv rcvd_sn : Nat) : Nat :=
  if (rcvd_sn : Int) < (SN s rx_deliv : Int) - (window_size s : Int) then
    (HFN s rx_deliv + 1) % 2 ^ 32
  else if rcvd_sn ≥ (SN s rx_deliv + window_size s) % 2 ^ 32 then
    (HFN s rx_deliv + 2 ^ 32 - 1) % 2 ^ 32
  else
    HFN s rx_deliv

/-- RCVD_COUNT = [RCVD_HFN, RCVD_SN]. -/
def rcvd_count (s : pdcp_sn_size) (rx_deliv rcvd_sn : Nat) : Nat :=
  COUNT s (rcvd_hfn s rx_deliv rcvd_sn) rcvd_sn

/-! ## Delivery (lines 192-207, 294-320) -/

/-- Loop of `deliver_all_consecutive_counts` on the buffer `q`, the current
RX_DELIV and the SDUs delivered so far: while the first entry is keyed
RX_DELIV, deliver it, erase it and increment RX_DELIV. -/
def deliver_consecutive_loop :
    List (Nat × byte_buffer) → Nat → List (Nat × byte_buffer) →
      List (Nat × byte_buffer) × Nat × List (Nat × byte_buffer)
  | [], rx_deliv, out => ([], rx_deliv, out)
  | (k, sdu) :: rest, rx_deliv, out =>
    if k = rx_deliv then
      deliver_consecutive_loop rest ((rx_deliv + 1) % 2 ^ 32) (out ++ [(k, sdu)])
    else ((k, sdu) :: rest, rx_deliv, out)

/-- Function `deliver_all_consecutive_counts`. -/
def deliver_all_consecutive_counts (e : pdcp_entity_rx) : pdcp_entity_rx :=
  let r := deliver_consecutive_loop e.reorder_queue e.st.rx_deliv e.upper_dn
  { e with reorder_queue := r.1, st := { e.st with rx_deliv := r.2.1 }, upper_dn := r.2.2 }

/-- First loop of `handle_t_reordering_expire` on the buffer `q` and the SDUs
delivered so far: while the first entry is keyed below RX_REORD, deliver it and
erase it. -/
def deliver_below_loop (rx_reord : Nat) :
    List (Nat × byte_buffer) → List (Nat × byte_buffer) →
      List (Nat × byte_buffer) × List (Nat × byte_buffer)
  | [], out => ([], out)
  | (k, sdu) :: rest, out =>
    if k < rx_reord then deliver_below_loop rx_reord rest (out ++ [(k, sdu)])
    else ((k, sdu) :: rest, out)

/-- Function `handle_t_reordering_expire`. -/
def handle_t_reordering_expire (cfg : pdcp_rx_config) (e : pdcp_entity_rx) : pdcp_entity_rx :=
  let r := deliver_below_loop e.st.rx_reord e.reorder_queue e.upper_dn
  let e1 : pdcp_entity_rx := { e with reorder_queue := r.1, upper_dn := r.2 }
  let e2 : pdcp_entity_rx := { e1 with st := { e1.st with rx_deliv := e1.st.rx_reord } }
  let e3 := deliver_all_consecutive_counts e2
  if e3.st.rx_deliv < e3.st.rx_next then
    if cfg.t_reordering = pdcp_t_reordering.ms0 then e3
    else
      { e3 with
        st := { e3.st with rx_reord := e3.st.rx_next }
        reordering_timer_running := true
        timer_runs := e3.timer_runs + 1 }
  else e3

/-- Modelled from the spec: the timer service is not part of the sources; a
single-shot timer invokes its callback once per start unless stopped first, so
an expiry happens only while the timer runs, the timer is no longer running
when `reordering_callback` calls `handle_t_reordering_expire`, and an entity
whose timer is not running is left as it is. -/
def reordering_callback (cfg : pdcp_rx_config) (e : pdcp_entity_rx) : pdcp_entity_rx :=
  if e.reordering_timer_running then
    handle_t_reordering_expire cfg { e with reordering_timer_running := false }
  else e

/-! ## PDU reception (lines 41-190) -/

/-- Values `handle_pdu` derives from a PDU before the integrity check:
RCVD_SN, RCVD_COUNT, the deciphered PDU after MAC-I extraction (header still
attached) and the MAC-I. -/
structure rx_pdu_fields where
  rcvd_sn : Nat
  rcvd_count : Nat
  sdu : byte_buffer
  mac : sec_mac
deriving DecidableEq

/-- Lines 99-109 of `handle_pdu`: with ciphering enabled the part after the
header is replaced by the output of `cipher_decrypt` and the header is put
back in front; otherwise the PDU is copied. -/
def decipher_pdu (cfg : pdcp_rx_config) (sec : security_engine) (pdu : byte_buffer)
    (count : Nat) : byte_buffer :=
  if cfg.ciphering_enabled then
    pdu.take (hdr_len_bytes cfg.sn_size) ++
      cipher_decrypt cfg sec (pdu.drop (hdr_len_bytes cfg.sn_size)) count
  else pdu

/-- Lines 57-118 of `handle_pdu`: sanity check, header read, RCVD_COUNT,
deciphering and MAC-I extraction; `none` when the function returns at the
sanity check or at the header read. -/
def parse_pdu (cfg : pdcp_rx_config) (sec : security_engine) (rx_deliv : Nat)
    (pdu : byte_buffer) : Option rx_pdu_fields :=
  if pdu.length ≤ hdr_len_bytes cfg.sn_size then none
  else
    match read_data_pdu_header cfg.sn_size pdu with
    | none => none
    | some sn =>
      let count := rcvd_count cfg.sn_size rx_deliv sn
      let sdu := decipher_pdu cfg sec pdu count
      let r : byte_buffer × sec_mac :=
        if is_srb cfg || (is_drb cfg && cfg.integrity_enabled) then extract_mac sdu [0, 0, 0, 0]
        else (sdu, [0, 0, 0, 0])
      some { rcvd_sn := sn, rcvd_count := count, sdu := r.1, mac := r.2 }

/-- Lines 157-187 of `handle_pdu`: store the SDU, update RX_NEXT, drain if the
PDU is the one awaited, then handle the reordering timer. -/
def store_and_deliver (cfg : pdcp_rx_config) (e : pdcp_entity_rx) (count : Nat)
    (sdu : byte_buffer) : pdcp_entity_rx :=
  let e1 : pdcp_entity_rx := { e with reorder_queue := map_assign e.reorder_queue count sdu }
  let e2 : pdcp_entity_rx :=
    if count ≥ e1.st.rx_next then { e1 with st := { e1.st with rx_next := (count + 1) % 2 ^ 32 } }
    else e1
  let e3 := if count = e2.st.rx_deliv then deliver_all_consecutive_counts e2 else e2
  let e4 : pdcp_entity_rx :=
    if e3.reordering_timer_running && decide (e3.st.rx_deliv ≥ e3.st.rx_reord) then
      { e3 with reordering_timer_running := false }
    else e3
  if cfg.t_reordering ≠ pdcp_t_reordering.infinity then
    let e5 : pdcp_entity_rx := { e4 with st := { e4.st with rx_reord := e4.st.rx_next } }
    if cfg.t_reordering = pdcp_t_reordering.ms0 then handle_t_reordering_expire cfg e5
    else if !e5.reordering_timer_running && decide (e5.st.rx_deliv < e5.st.rx_next) then
      { e5 with reordering_timer_running := true, timer_runs := e5.timer_runs + 1 }
    else e5
  else e4

/-- Function `handle_pdu`. -/
def handle_pdu (cfg : pdcp_rx_config) (sec : security_engine) (e : pdcp_entity_rx)
    (pdu : byte_buffer) : pdcp_entity_rx :=
  match parse_pdu cfg sec e.st.rx_deliv pdu with
  | none => e
  | some f =>
    if cfg.integrity_enabled && !integrity_verify cfg sec f.sdu f.rcvd_count f.mac then
      { e with upper_cn := e.upper_cn + 1 }
    else
      let sdu := discard_data_header cfg.sn_size f.sdu
      if f.rcvd_count < e.st.rx_deliv then e
      else if map_contains e.reorder_queue f.rcvd_count then e
      else store_and_deliver cfg e f.rcvd_count sdu

/-! ## Runs -/

/-- What can happen to the entity: a PDU arrives from the lower layer, or the
timer service reports the expiry of t-Reordering. -/
inductive rx_event where
  | pdu (p : byte_buffer)
  | t_reordering_expiry
deriving DecidableEq

/-- One event applied to the entity. -/
def step (cfg : pdcp_rx_config) (sec : security_engine) (e : pdcp_entity_rx) :
    rx_event → pdcp_entity_rx
  | .pdu p => handle_pdu cfg sec e p
  | .t_reordering_expiry => reordering_callback cfg e

/-- A finite sequence of events applied in order. -/
def run (cfg : pdcp_rx_config) (sec : security_engine) (e : pdcp_entity_rx)
    (evs : List rx_event) : pdcp_entity_rx :=
  evs.foldl (step cfg sec) e

/-- The PDU is accepted in state `e`: it passes the sanity check, the integrity
check and both discard checks; the result is its RCVD_COUNT and the SDU that
is stored. -/
def accepted_pdu (cfg : pdcp_rx_config) (sec : security_engine) (e : pdcp_entity_rx)
    (pdu : byte_buffer) : Option (Nat × byte_buffer) :=
  match parse_pdu cfg sec e.st.rx_deliv pdu with
  | none => none
  | some f =>
    if cfg.integrity_enabled && !integrity_verify cfg sec f.sdu f.rcvd_count f.mac then none
    else if f.rcvd_count < e.st.rx_deliv then none
    else if map_contains e.reorder_queue f.rcvd_count then none
    else some (f.rcvd_count, discard_data_header cfg.sn_size f.sdu)

/-- The accepted PDUs of a run, in order of arrival. -/
def accepted_pdus (cfg : pdcp_rx_config) (sec : security_engine) :
    pdcp_entity_rx → List rx_event → List (Nat × byte_buffer)
  | _, [] => []
  | e, .pdu p :: evs =>
    (accepted_pdu cfg sec e p).toList ++ accepted_pdus cfg sec (handle_pdu cfg sec e p) evs
  | e, .t_reordering_expiry :: evs => accepted_pdus cfg sec (reordering_callback cfg e) evs

/-- No PDU of the run is accepted with RCVD_COUNT = 2^32 - 1, the value whose
successor does not fit the 32-bit counters. -/
def no_count_wrap (cfg : pdcp_rx_config) (sec : security_engine) :
    pdcp_entity_rx → List rx_event → Bool
  | _, [] => true
  | e, ev :: evs =>
    (match ev with
      | .pdu p => (accepted_pdu cfg sec e p).all (fun a => a.1 != 2 ^ 32 - 1)
      | .t_reordering_expiry => true) &&
    no_count_wrap cfg sec (step cfg sec e ev) evs

/-- COUNTs of the SDUs delivered upward, in delivery order. -/
def delivered_counts (e : pdcp_entity_rx) : List Nat := e.upper_dn.map Prod.fst

/-- Keys of the reception buffer, in map order. -/
def queue_keys (e : pdcp_entity_rx) : List Nat := e.reorder_queue.map Prod.fst

/-! ## Test fixtures -/

/-- A stand-in security library: every MAC-I is DE AD BE EF and every cipher
is the bitwise complement of each octet. -/
def test_engine : security_engine :=
  { security_nia1 := fun _ _ _ _ _ => [0xde, 0xad, 0xbe, 0xef]
    security_nia2 := fun _ _ _ _ _ => [0xde, 0xad, 0xbe, 0xef]
    security_nia3 := fun _ _ _ _ _ => [0xde, 0xad, 0xbe, 0xef]
    security_nea1 := fun _ _ _ _ msg => msg.map (fun b => 255 - b)
    security_nea2 := fun _ _ _ _ msg => msg.map (fun b => 255 - b)
    security_nea3 := fun _ _ _ _ msg => msg.map (fun b => 255 - b) }

/-- Security configuration with null algorithms and empty keys. -/
def null_sec_cfg : sec_128_as_config :=
  { k_128_rrc_int := [], k_128_up_int := [], k_128_rrc_enc := [], k_128_up_enc := []
    integ_algo := .nia0, cipher_algo := .nea0 }

/-- A bearer with 12-bit SN, logical channel 1 and uplink direction. -/
def bearer12 (rb : pdcp_rb_type) (t : pdcp_t_reordering) (integrity ciphering : Bool)
    (ia : integrity_algorithm) (ca : ciphering_algorithm) : pdcp_rx_config :=
  { sn_size := .size12bits, rb_type := rb, t_reordering := t
    integrity_enabled := integrity, ciphering_enabled := ciphering
    sec_cfg := { null_sec_cfg with integ_algo := ia, cipher_algo := ca }
    lcid := 1, direction := .uplink }

/-- A data bearer with 12-bit SN, security off, and the given t-Reordering. -/
def drb12 (t : pdcp_t_reordering) : pdcp_rx_config :=
  bearer12 .drb t false false .nia0 .nea0

/-- A 12-bit-SN data PDU with the given SN and one payload octet. -/
def pdu12 (sn : Nat) (payload : Nat) : byte_buffer := [0x80 + sn / 256, sn % 256, payload]

/-! ## Specification vocabulary -/

/-- The SDU stored for a PDU received with integrity and ciphering disabled: on
a signalling bearer the MAC-I is extracted first, then the header is
discarded. -/
def plain_sdu (cfg : pdcp_rx_config) (pdu : byte_buffer) : byte_buffer :=
  discard_data_header cfg.sn_size
    (if is_srb cfg then (extract_mac pdu [0, 0, 0, 0]).1 else pdu)

/-- The entity has delivered everything it received and awaits COUNT
`n mod 2^32`. -/
def in_sync (cfg : pdcp_rx_config) (n : Nat) (e : pdcp_entity_rx) : Prop :=
  e.st.rx_deliv = n % 2 ^ 32 ∧ e.st.rx_next = n % 2 ^ 32 ∧ e.reorder_queue = [] ∧
    e.reordering_timer_running = false ∧
    (cfg.t_reordering ≠ .infinity → e.st.rx_reord = n % 2 ^ 32)

/-- Everything the entity holds or has handed over: the buffered entries
followed by the delivered SDUs. -/
def held_sdus (e : pdcp_entity_rx) : List (Nat × byte_buffer) := e.reorder_queue ++ e.upper_dn

/-- Keys of an association list. -/
def keys_of (q : List (Nat × byte_buffer)) : List Nat := q.map Prod.fst

/-- The part of the invariant that does not depend on the configuration: the
buffer is in strictly ascending key order, its keys lie between RX_DELIV and
RX_NEXT, RX_DELIV does not exceed RX_NEXT, RX_NEXT fits 32 bits, and the
delivered COUNTs are strictly ascending and all below RX_DELIV. -/
structure rx_inv_core (e : pdcp_entity_rx) : Prop where
  sorted : (keys_of e.reorder_queue).Pairwise (· < ·)
  keys_bounds : ∀ k ∈ keys_of e.reorder_queue, e.st.rx_deliv ≤ k ∧ k < e.st.rx_next
  deliv_le : e.st.rx_deliv ≤ e.st.rx_next
  next_lt : e.st.rx_next < 2 ^ 32
  dn_sorted : (keys_of e.upper_dn).Pairwise (· < ·)
  dn_lt : ∀ c ∈ keys_of e.upper_dn, c < e.st.rx_deliv

/-- Invariant of the states reached without counter wrap: the core part, and
with a finite t-Reordering RX_REORD equals RX_NEXT, and the timer runs only with
a finite t-Reordering. -/
structure rx_inv (cfg : pdcp_rx_config) (e : pdcp_entity_rx) : Prop where
  core : rx_inv_core e
  reord : cfg.t_reordering ≠ .infinity → e.st.rx_reord = e.st.rx_next
  timer : cfg.t_reordering = .infinity → e.reordering_timer_running = false

/-- Representation invariant of the reception buffer together with the lower
bound on its keys: the association list is in strictly ascending key order and
no key is below RX_DELIV. -/
structure rx_keys_inv (e : pdcp_entity_rx) : Prop where
  sorted : (keys_of e.reorder_queue).Pairwise (· < ·)
  keys_ge : ∀ k ∈ keys_of e.reorder_queue, e.st.rx_deliv ≤ k

/-- Nothing is awaited: the buffer is empty, RX_DELIV has caught up with
RX_NEXT and the reordering timer is not running. -/
def rx_idle (e : pdcp_entity_rx) : Prop :=
  e.reorder_queue = [] ∧ e.st.rx_deliv = e.st.rx_next ∧ e.reordering_timer_running = false

/-- Lines 157-170 of `handle_pdu`, the first half of `store_and_deliver`: store
the SDU, update RX_NEXT and drain if the PDU is the one awaited. -/
def store_and_drain (e : pdcp_entity_rx) (count : Nat) (sdu : byte_buffer) : pdcp_entity_rx :=
  let e1 : pdcp_entity_rx := { e with reorder_queue := map_assign e.reorder_queue count sdu }
  let e2 : pdcp_entity_rx :=
    if count ≥ e1.st.rx_next then { e1 with st := { e1.st with rx_next := (count + 1) % 2 ^ 32 } }
    else e1
  if count = e2.st.rx_deliv then deliver_all_consecutive_counts e2 else e2

/-- Lines 172-187 of `handle_pdu`, the second half of `store_and_deliver`: the
handling of the reordering timer. -/
def handle_reordering_timer (cfg : pdcp_rx_config) (e3 : pdcp_entity_rx) : pdcp_entity_rx :=
  let e4 : pdcp_entity_rx :=
    if e3.reordering_timer_running && decide (e3.st.rx_deliv ≥ e3.st.rx_reord) then
      { e3 with reordering_timer_running := false }
    else e3
  if cfg.t_reordering ≠ pdcp_t_reordering.infinity then
    let e5 : pdcp_entity_rx := { e4 with st := { e4.st with rx_reord := e4.st.rx_next } }
    if cfg.t_reordering = pdcp_t_reordering.ms0 then handle_t_reordering_expire cfg e5
    else if !e5.reordering_timer_running && decide (e5.st.rx_deliv < e5.st.rx_next) then
      { e5 with reordering_timer_running := true, timer_runs := e5.timer_runs + 1 }
    else e5
  else e4

/-- The RCVD_HFN computation for SN `sn` at RX_DELIV `d` underflows: the
HFN(RX_DELIV) - 1 branch is taken with HFN(RX_DELIV) = 0. -/
def hfn_underflow (s : pdcp_sn_size) (d sn : Nat) : Bool :=
  decide (sn ≥ SN s d + window_size s) && decide (HFN s d = 0)

/-- The RCVD_HFN computation for SN `sn` at RX_DELIV `d` overflows: the
HFN(RX_DELIV) + 1 branch is taken with the largest HFN. -/
def hfn_overflow (s : pdcp_sn_size) (d sn : Nat) : Bool :=
  decide ((sn : Int) < (SN s d : Int) - (window_size s : Int)) &&
    decide (HFN s d + 1 ≥ 2 ^ (32 - sn_bits s))

/-- Along the run no RCVD_HFN computation under- or overflows and no RCVD_COUNT
is 2^32 - 1, for every PDU that gets as far as the RCVD_COUNT computation. -/
def no_hfn_wrap (cfg : pdcp_rx_config) (sec : security_engine) :
    pdcp_entity_rx → List rx_event → Bool
  | _, [] => true
  | e, ev :: evs =>
    (match ev with
      | .pdu p =>
        (parse_pdu cfg sec e.st.rx_deliv p).all (fun f =>
          !hfn_underflow cfg.sn_size e.st.rx_deliv f.rcvd_sn &&
          !hfn_overflow cfg.sn_size e.st.rx_deliv f.rcvd_sn &&
          f.rcvd_count != 2 ^ 32 - 1)
      | .t_reordering_expiry => true) &&
    no_hfn_wrap cfg sec (step cfg sec e ev) evs

/-- Every buffered COUNT is above RX_DELIV, and the highest COUNT received so
far, RX_NEXT - 1, is buffered whenever RX_DELIV < RX_NEXT. -/
def rx_tight_core (e : pdcp_entity_rx) : Prop :=
  (∀ k ∈ keys_of e.reorder_queue, e.st.rx_deliv < k) ∧
    (e.st.rx_deliv < e.st.rx_next → e.st.rx_next - 1 ∈ keys_of e.reorder_queue)

/-- Invariant of the states reached without counter wrap, in its tight form:
`rx_inv`, `rx_tight_core`, and with a finite non-zero t-Reordering the timer
runs exactly when RX_DELIV < RX_NEXT. -/
structure rx_tight (cfg : pdcp_rx_config) (e : pdcp_entity_rx) : Prop where
  inv : rx_inv cfg e
  tight : rx_tight_core e
  timer_iff : (∃ d, cfg.t_reordering = .ms d ∧ d ≠ 0) →
    (e.reordering_timer_running = true ↔ e.st.rx_deliv < e.st.rx_next)

/-- With an infinite t-Reordering deliveries are gap-free: no timer was ever
started, RX_REORD is 0, RX_DELIV is the number of SDUs delivered so far modulo
2^32, and the j-th delivered SDU has COUNT j modulo 2^32. -/
structure rx_gap_free (e : pdcp_entity_rx) : Prop where
  timer : e.reordering_timer_running = false
  runs : e.timer_runs = 0
  reord : e.st.rx_reord = 0
  deliv : e.st.rx_deliv = e.upper_dn.length % 2 ^ 32
  counts : keys_of e.upper_dn = (List.range e.upper_dn.length).map (fun j => j % 2 ^ 32)

end srsgnb

/-! # F1AP DRB configuration (`lib/f1ap/du/procedures/f1ap_du_ue_context_common.cpp`)

The ASN.1 types and the request types are declared outside the sources at
hand; the structures below carry the fields that
`fill_common_drb_config_request_fields` and `make_drb_config_request` read and
write.  Values produced by the conversion helpers
(`asn1_to_up_transport_layer_info`, `uint_to_five_qi`,
`pdcp_sn_size_from_f1ap_asn1`, the casts) are represented by the ASN.1 value
they are converted from. -/

namespace srsran.srs_du

/-- ASN.1 `gbr_qos_flow_info`: bit rates and the two optional maximum packet
loss rates with their presence flags. -/
structure asn1_gbr_qos_flow_info where
  max_flow_bit_rate_dl : Nat
  max_flow_bit_rate_ul : Nat
  guaranteed_flow_bit_rate_dl : Nat
  guaranteed_flow_bit_rate_ul : Nat
  max_packet_loss_rate_dl_present : Bool
  max_packet_loss_rate_dl : Nat
  max_packet_loss_rate_ul_present : Bool
  max_packet_loss_rate_ul : Nat
deriving DecidableEq

/-- The fields of an ASN.1 DRB item (`drbs_to_be_setup_item_s`,
`drbs_to_be_setup_mod_item_s`, `drbs_to_be_modified_item_s`) that the functions
read. -/
structure asn1_drb_item where
  drb_id : Nat
  ul_up_tnl_info_to_be_setup_list : List Nat
  five_qi : Nat
  prio_level : Nat
  sst : Nat
  sd_present : Bool
  sd : Nat
  gbr_qos_flow_info_present : Bool
  gbr_qos_flow_info : asn1_gbr_qos_flow_info
  rlc_mode : Nat
  ie_exts_present : Bool
  dl_pdcp_sn_len_present : Bool
  dl_pdcp_sn_len : Nat
deriving DecidableEq

/-- GBR information of the request (`gbr_qos_flow_information`); the two packet
loss rates are `std::optional`. -/
structure gbr_qos_flow_information where
  max_flow_dl_bitrate : Nat
  max_flow_ul_bitrate : Nat
  guaranteed_flow_dl_bitrate : Nat
  guaranteed_flow_ul_bitrate : Nat
  max_packet_loss_rate_dl : Option Nat
  max_packet_loss_rate_ul : Option Nat
deriving DecidableEq

/-- The request built for the DU (`f1ap_drb_config_request`); members that the
functions may leave untouched are optional. -/
structure f1ap_drb_config_request where
  drb_id : Nat
  uluptnl_info_list : List Nat
  five_qi : Nat
  arp_priority_level : Nat
  s_nssai_sst : Nat
  s_nssai_sd : Option Nat
  gbr_flow_info : Option gbr_qos_flow_information
  mode : Option Nat
  pdcp_sn_len : Option Nat
deriving DecidableEq

/-- A default-constructed `f1ap_drb_config_request`. -/
def f1ap_drb_config_request.default : f1ap_drb_config_request :=
  { drb_id := 0, uluptnl_info_list := [], five_qi := 0, arp_priority_level := 0
    s_nssai_sst := 0, s_nssai_sd := none, gbr_flow_info := none, mode := none
    pdcp_sn_len := none }

/-- Lines 36-47 of `fill_common_drb_config_request_fields`: the GBR information
emplaced in the request; both presence tests assign to
`max_packet_loss_rate_dl`. -/
def fill_gbr_flow_info (g : asn1_gbr_qos_flow_info) : gbr_qos_flow_information :=
  let gbr : gbr_qos_flow_information :=
    { max_flow_dl_bitrate := g.max_flow_bit_rate_dl
      max_flow_ul_bitrate := g.max_flow_bit_rate_ul
      guaranteed_flow_dl_bitrate := g.guaranteed_flow_bit_rate_dl
      guaranteed_flow_ul_bitrate := g.guaranteed_flow_bit_rate_ul
      max_packet_loss_rate_dl := none
      max_packet_loss_rate_ul := none }
  let gbr1 : gbr_qos_flow_information :=
    if g.max_packet_loss_rate_dl_present then
      { gbr with max_packet_loss_rate_dl := some g.max_packet_loss_rate_dl }
    else gbr
  if g.max_packet_loss_rate_ul_present then
    { gbr1 with max_packet_loss_rate_dl := some g.max_packet_loss_rate_ul }
  else gbr1

/-- Function `fill_common_drb_config_request_fields`. -/
def fill_common_drb_config_request_fields (drb_obj : f1ap_drb_config_request)
    (drb_item : asn1_drb_item) : f1ap_drb_config_request :=
  let o1 : f1ap_drb_config_request :=
    { drb_obj with
      drb_id := drb_item.drb_id
      uluptnl_info_list := drb_obj.uluptnl_info_list ++ drb_item.ul_up_tnl_info_to_be_setup_list
      five_qi := drb_item.five_qi
      arp_priority_level := drb_item.prio_level
      s_nssai_sst := drb_item.sst }
  let o2 : f1ap_drb_config_request :=
    if drb_item.sd_present then { o1 with s_nssai_sd := some drb_item.sd } else o1
  if drb_item.gbr_qos_flow_info_present then
    { o2 with gbr_flow_info := some (fill_gbr_flow_info drb_item.gbr_qos_flow_info) }
  else o2

/-- Function `make_drb_config_request` for `drbs_to_be_setup_item_s`. -/
def make_drb_config_request (drb_item : asn1_drb_item) : f1ap_drb_config_request :=
  let o := fill_common_drb_config_request_fields f1ap_drb_config_request.default drb_item
  let o1 : f1ap_drb_config_request := { o with mode := some drb_item.rlc_mode }
  if drb_item.ie_exts_present then { o1 with pdcp_sn_len := some drb_item.dl_pdcp_sn_len }
  else o1

/-- Function `make_drb_config_request` for `drbs_to_be_setup_mod_item_s`. -/
def make_drb_config_request_setup_mod (drb_item : asn1_drb_item) : f1ap_drb_config_request :=
  let o := fill_common_drb_config_request_fields f1ap_drb_config_request.default drb_item
  let o1 : f1ap_drb_config_request := { o with mode := some drb_item.rlc_mode }
  if drb_item.ie_exts_present && drb_item.dl_pdcp_sn_len_present then
    { o1 with pdcp_sn_len := some drb_item.dl_pdcp_sn_len }
  else o1

/-- Function `make_drb_config_request` for `drbs_to_be_modified_item_s`. -/
def make_drb_config_request_modified (drb_item : asn1_drb_item) : f1ap_drb_config_request :=
  let o := fill_common_drb_config_request_fields f1ap_drb_config_request.default drb_item
  if drb_item.ie_exts_present && drb_item.dl_pdcp_sn_len_present then
    { o with pdcp_sn_len := some drb_item.dl_pdcp_sn_len }
  else o

/-- A GBR DRB item whose GBR information carries the given optional downlink
and uplink maximum packet loss rates. -/
def gbr_item (dl ul : Option Nat) : asn1_drb_item :=
  { drb_id := 1, ul_up_tnl_info_to_be_setup_list := [], five_qi := 1, prio_level := 1
    sst := 1, sd_present := false, sd := 0, gbr_qos_flow_info_present := true
    gbr_qos_flow_info :=
      { max_flow_bit_rate_dl := 1000, max_flow_bit_rate_ul := 1000
        guaranteed_flow_bit_rate_dl := 500, guaranteed_flow_bit_rate_ul := 500
        max_packet_loss_rate_dl_present := dl.isSome, max_packet_loss_rate_dl := dl.getD 0
        max_packet_loss_rate_ul_present := ul.isSome, max_packet_loss_rate_ul := ul.getD 0 }
    rlc_mode := 0, ie_exts_present := false, dl_pdcp_sn_len_present := false
    dl_pdcp_sn_len := 0 }

end srsran.srs_du

namespace srsgnb

/-! ## Basic facts about the header codec and `parse_pdu` -/

theorem read_data_pdu_header_of_long (s : pdcp_sn_size) (buf : byte_buffer)
    (h : hdr_len_bytes s < buf.length) : ∃ sn, read_data_pdu_header s buf = some sn := by
  cases s with
  | size12bits =>
    match buf, h with
    | b0 :: b1 :: b2 :: rest, _ => simp [read_data_pdu_header, hdr_len_bytes]
  | size18bits =>
    match buf, h with
    | b0 :: b1 :: b2 :: b3 :: rest, _ => simp [read_data_pdu_header, hdr_len_bytes]

theorem read_data_pdu_header_of_short (s : pdcp_sn_size) (buf : byte_buffer)
    (h : buf.length ≤ hdr_len_bytes s) : read_data_pdu_header s buf = none := by
  simp [read_data_pdu_header, h]

theorem parse_pdu_of_short (cfg : pdcp_rx_config) (sec : security_engine) (rx_deliv : Nat)
    (pdu : byte_buffer) (h : pdu.length ≤ hdr_len_bytes cfg.sn_size) :
    parse_pdu cfg sec rx_deliv pdu = none := by
  simp [parse_pdu, h]

theorem parse_pdu_of_long (cfg : pdcp_rx_config) (sec : security_engine) (rx_deliv : Nat)
    (pdu : byte_buffer) (h : hdr_len_bytes cfg.sn_size < pdu.length) :
    ∃ f, parse_pdu cfg sec rx_deliv pdu = some f := by
  obtain ⟨sn, hsn⟩ := read_data_pdu_header_of_long cfg.sn_size pdu h
  have h' : ¬ pdu.length ≤ hdr_len_bytes cfg.sn_size := by omega
  simp only [parse_pdu, h', if_false, hsn]
  exact ⟨_, rfl⟩

theorem parse_pdu_count (cfg : pdcp_rx_config) (sec : security_engine) (rx_deliv : Nat)
    (pdu : byte_buffer) (f : rx_pdu_fields) (h : parse_pdu cfg sec rx_deliv pdu = some f) :
    read_data_pdu_header cfg.sn_size pdu = some f.rcvd_sn ∧
      f.rcvd_count = rcvd_count cfg.sn_size rx_deliv f.rcvd_sn := by
  unfold parse_pdu at h
  split at h
  · exact absurd h (by simp)
  · split at h
    · exact absurd h (by simp)
    · rename_i sn hsn
      simp only [Option.some.injEq] at h
      subst h
      exact ⟨hsn, rfl⟩

/-! ## Dropped PDUs -/

/-- C6: a PDU whose length does not exceed the header length (2 octets for
12-bit SN, 3 octets for 18-bit SN) leaves the entity exactly as it was: nothing
is delivered, no integrity failure is notified, counters, buffer and timer are
unchanged. -/
theorem handle_pdu_short_pdu_noop (cfg : pdcp_rx_config) (sec : security_engine)
    (e : pdcp_entity_rx) (pdu : byte_buffer)
    (hlen : pdu.length ≤ hdr_len_bytes cfg.sn_size) :
    handle_pdu cfg sec e pdu = e ∧
      hdr_len_bytes .size12bits = 2 ∧ hdr_len_bytes .size18bits = 3 := by
  refine ⟨?_, rfl, rfl⟩
  simp [handle_pdu, parse_pdu_of_short cfg sec e.st.rx_deliv pdu hlen]

/-- Witness of C6: a two-octet PDU on a 12-bit-SN bearer. -/
theorem handle_pdu_short_pdu_noop_witness :
    [0x80, 0x00].length ≤ hdr_len_bytes (drb12 (.ms 10)).sn_size ∧
      handle_pdu (drb12 (.ms 10)) test_engine .init [0x80, 0x00] = .init :=
  ⟨by decide, (handle_pdu_short_pdu_noop (drb12 (.ms 10)) test_engine .init [0x80, 0x00]
    (by decide)).1⟩

/-- C5: for a PDU longer than the header, when integrity is enabled and the
verification of the tag fails, `handle_pdu` only increments the number of
integrity-failure notifications by one: no SDU is delivered and RX_NEXT,
RX_DELIV, RX_REORD, the buffer and the timer are unchanged. -/
theorem handle_pdu_integrity_failure (cfg : pdcp_rx_config) (sec : security_engine)
    (e : pdcp_entity_rx) (pdu : byte_buffer)
    (hlen : hdr_len_bytes cfg.sn_size < pdu.length)
    (hen : cfg.integrity_enabled = true) :
    ∃ f, parse_pdu cfg sec e.st.rx_deliv pdu = some f ∧
      (integrity_verify cfg sec f.sdu f.rcvd_count f.mac = false →
        handle_pdu cfg sec e pdu = { e with upper_cn := e.upper_cn + 1 }) := by
  obtain ⟨f, hf⟩ := parse_pdu_of_long cfg sec e.st.rx_deliv pdu hlen
  refine ⟨f, hf, fun hv => ?_⟩
  simp [handle_pdu, hf, hen, hv]

/-- Witness of C5: a data bearer with integrity enabled, algorithm NIA2 whose
tag is DE AD BE EF, and a PDU carrying the tag 00 00 00 00. -/
theorem handle_pdu_integrity_failure_witness :
    handle_pdu (bearer12 .drb (.ms 10) true false .nia2 .nea0) test_engine .init
        [0x80, 0x00, 0xaa, 0, 0, 0, 0] =
      { pdcp_entity_rx.init with upper_cn := 1 } := by
  obtain ⟨f, hf, h⟩ := handle_pdu_integrity_failure
    (bearer12 .drb (.ms 10) true false .nia2 .nea0) test_engine .init
    [0x80, 0x00, 0xaa, 0, 0, 0, 0] (by decide) rfl
  have hp : parse_pdu (bearer12 .drb (.ms 10) true false .nia2 .nea0) test_engine
      pdcp_entity_rx.init.st.rx_deliv [0x80, 0x00, 0xaa, 0, 0, 0, 0] =
      some { rcvd_sn := 0, rcvd_count := 0, sdu := [0x80, 0x00, 0xaa], mac := [0, 0, 0, 0] } := by
    decide
  rw [hp] at hf
  cases hf
  exact h (by decide)

/-- C4: a PDU that passes the length check and the integrity check (or arrives
with integrity disabled) and whose RCVD_COUNT is below RX_DELIV or already a
key of the reception buffer leaves the entity exactly as it was: nothing is
delivered, nothing is notified, and RX_NEXT, RX_DELIV, RX_REORD, the buffer and
the timer are unchanged. -/
theorem handle_pdu_stale_or_duplicate_noop (cfg : pdcp_rx_config) (sec : security_engine)
    (e : pdcp_entity_rx) (pdu : byte_buffer)
    (hlen : hdr_len_bytes cfg.sn_size < pdu.length) :
    ∃ f, parse_pdu cfg sec e.st.rx_deliv pdu = some f ∧
      ((cfg.integrity_enabled = false ∨
          integrity_verify cfg sec f.sdu f.rcvd_count f.mac = true) →
        (f.rcvd_count < e.st.rx_deliv ∨ f.rcvd_count ∈ queue_keys e) →
        handle_pdu cfg sec e pdu = e) := by
  obtain ⟨f, hf⟩ := parse_pdu_of_long cfg sec e.st.rx_deliv pdu hlen
  refine ⟨f, hf, fun hint hdrop => ?_⟩
  have hi : (cfg.integrity_enabled && !integrity_verify cfg sec f.sdu f.rcvd_count f.mac)
      = false := by
    rcases hint with h | h <;> simp [h]
  simp only [handle_pdu, hf, hi]
  rcases hdrop with h | h
  · simp [h]
  · have hc : map_contains e.reorder_queue f.rcvd_count = true := by
      simp only [queue_keys, List.mem_map] at h
      obtain ⟨kv, hkv, hk⟩ := h
      simp only [map_contains, List.any_eq_true, beq_iff_eq]
      exact ⟨kv, hkv, hk⟩
    simp [hc]

/-- Witness of C4: SN = 0 submitted twice gives exactly one delivery; the
second PDU meets the entity with RX_DELIV = 1 and is dropped. -/
theorem handle_pdu_stale_or_duplicate_noop_witness :
    handle_pdu (drb12 (.ms 10)) test_engine
        (handle_pdu (drb12 (.ms 10)) test_engine .init (pdu12 0 7)) (pdu12 0 7) =
      handle_pdu (drb12 (.ms 10)) test_engine .init (pdu12 0 7) ∧
    (handle_pdu (drb12 (.ms 10)) test_engine
        (handle_pdu (drb12 (.ms 10)) test_engine .init (pdu12 0 7)) (pdu12 0 7)).upper_dn =
      [(0, [7])] := by
  have key : handle_pdu (drb12 (.ms 10)) test_engine
      (handle_pdu (drb12 (.ms 10)) test_engine .init (pdu12 0 7)) (pdu12 0 7) =
      handle_pdu (drb12 (.ms 10)) test_engine .init (pdu12 0 7) := by
    obtain ⟨f, hf, h⟩ := handle_pdu_stale_or_duplicate_noop (drb12 (.ms 10)) test_engine
      (handle_pdu (drb12 (.ms 10)) test_engine .init (pdu12 0 7)) (pdu12 0 7) (by decide)
    have hp : parse_pdu (drb12 (.ms 10)) test_engine
        (handle_pdu (drb12 (.ms 10)) test_engine .init (pdu12 0 7)).st.rx_deliv (pdu12 0 7) =
        some { rcvd_sn := 0, rcvd_count := 0, sdu := [0x80, 0, 7], mac := [0, 0, 0, 0] } := by
      decide
    rw [hp] at hf
    cases hf
    exact h (Or.inl rfl) (Or.inl (by decide))
  refine ⟨key, ?_⟩
  rw [key]
  decide

/-! ## Integrity and ciphering glue -/

theorem deliver_all_consecutive_counts_upper_cn (e : pdcp_entity_rx) :
    (deliver_all_consecutive_counts e).upper_cn = e.upper_cn := rfl

theorem handle_t_reordering_expire_upper_cn (cfg : pdcp_rx_config) (e : pdcp_entity_rx) :
    (handle_t_reordering_expire cfg e).upper_cn = e.upper_cn := by
  unfold handle_t_reordering_expire
  simp only
  split_ifs <;> rfl

theorem store_and_deliver_upper_cn (cfg : pdcp_rx_config) (e : pdcp_entity_rx) (count : Nat)
    (sdu : byte_buffer) : (store_and_deliver cfg e count sdu).upper_cn = e.upper_cn := by
  unfold store_and_deliver
  simp only
  split_ifs <;> simp [handle_t_reordering_expire_upper_cn, deliver_all_consecutive_counts_upper_cn]

theorem extract_mac_of_long (buf : byte_buffer) (mac : sec_mac) (h : sec_mac_len < buf.length) :
    extract_mac buf mac =
      (buf.take (buf.length - sec_mac_len), buf.drop (buf.length - sec_mac_len)) := by
  simp [extract_mac, Nat.not_le.2 h]

theorem extract_mac_of_short (buf : byte_buffer) (mac : sec_mac)
    (h : buf.length ≤ sec_mac_len) : extract_mac buf mac = (buf, mac) := by
  simp [extract_mac, h]

theorem parse_pdu_sdu_mac (cfg : pdcp_rx_config) (sec : security_engine) (rx_deliv : Nat)
    (pdu : byte_buffer) (f : rx_pdu_fields) (hf : parse_pdu cfg sec rx_deliv pdu = some f) :
    (f.sdu, f.mac) =
      if is_srb cfg || (is_drb cfg && cfg.integrity_enabled) then
        extract_mac (decipher_pdu cfg sec pdu f.rcvd_count) [0, 0, 0, 0]
      else (decipher_pdu cfg sec pdu f.rcvd_count, [0, 0, 0, 0]) := by
  unfold parse_pdu at hf
  split at hf
  · exact absurd hf (by simp)
  · split at hf
    · exact absurd hf (by simp)
    · simp only [Option.some.injEq] at hf
      subst hf
      rfl

/-- C7 (fails as stated): on a signalling bearer with integrity not enabled and
the non-null algorithm NIA1, a PDU whose trailing four octets 00 00 00 00
differ from the computed tag DE AD BE EF is not reported and not dropped: its
payload is delivered and no integrity failure is notified. -/
theorem srb_tag_not_verified_when_integrity_disabled :
    is_srb (bearer12 .srb (.ms 10) false false .nia1 .nea0) = true ∧
      integrity_verify (bearer12 .srb (.ms 10) false false .nia1 .nea0) test_engine
        [0x00, 0x00, 0xaa] 0 [0, 0, 0, 0] = false ∧
      handle_pdu (bearer12 .srb (.ms 10) false false .nia1 .nea0) test_engine .init
          [0x00, 0x00, 0xaa, 0, 0, 0, 0] =
        { pdcp_entity_rx.init with
          st := { rx_next := 1, rx_deliv := 1, rx_reord := 1 }
          upper_dn := [(0, [0xaa])]
          upper_cn := 0 } := by
  decide

/-- C7 (amended): tag extraction is applied to every PDU longer than the
header on a signalling bearer regardless of the integrity flag, and on a data
bearer only if integrity is enabled.  Where it applies and the deciphered PDU D
(header included) is longer than four octets, the final four octets of D are
removed from its tail and become the tag; where it applies and D has at most four octets, nothing is
removed and the tag stays 00 00 00 00; on a data bearer with integrity not
enabled nothing is removed.  On either bearer the tag is verified only if
integrity is enabled: with integrity enabled a PDU whose verification fails is
dropped and notified once, with integrity not enabled `handle_pdu` never
notifies an integrity failure.  Every PDU longer than the header reaches the
extraction step. -/
theorem integrity_verified_only_if_enabled (cfg : pdcp_rx_config) (sec : security_engine)
    (e : pdcp_entity_rx) (pdu : byte_buffer) :
    (cfg.integrity_enabled = false → (handle_pdu cfg sec e pdu).upper_cn = e.upper_cn) ∧
    (hdr_len_bytes cfg.sn_size < pdu.length →
      ∃ f, parse_pdu cfg sec e.st.rx_deliv pdu = some f) ∧
    (∀ f, parse_pdu cfg sec e.st.rx_deliv pdu = some f →
      (cfg.integrity_enabled = true →
        integrity_verify cfg sec f.sdu f.rcvd_count f.mac = false →
        handle_pdu cfg sec e pdu = { e with upper_cn := e.upper_cn + 1 }) ∧
      ((is_srb cfg = true ∨ (is_drb cfg = true ∧ cfg.integrity_enabled = true)) →
        (4 < (decipher_pdu cfg sec pdu f.rcvd_count).length →
          f.mac = (decipher_pdu cfg sec pdu f.rcvd_count).drop
            ((decipher_pdu cfg sec pdu f.rcvd_count).length - 4) ∧
          f.mac.length = 4 ∧
          f.sdu = (decipher_pdu cfg sec pdu f.rcvd_count).take
            ((decipher_pdu cfg sec pdu f.rcvd_count).length - 4) ∧
          decipher_pdu cfg sec pdu f.rcvd_count = f.sdu ++ f.mac) ∧
        ((decipher_pdu cfg sec pdu f.rcvd_count).length ≤ 4 →
          f.mac = [0, 0, 0, 0] ∧ f.sdu = decipher_pdu cfg sec pdu f.rcvd_count)) ∧
      (is_drb cfg = true → cfg.integrity_enabled = false →
        f.mac = [0, 0, 0, 0] ∧ f.sdu = decipher_pdu cfg sec pdu f.rcvd_count)) := by
  refine ⟨fun hdis => ?_, fun hlen => parse_pdu_of_long cfg sec e.st.rx_deliv pdu hlen,
    fun f hf => ⟨fun hen hv => ?_, fun hx => ⟨fun hl => ?_, fun hl => ?_⟩, fun h1 h2 => ?_⟩⟩
  · unfold handle_pdu
    split
    · rfl
    · simp only [hdis, Bool.false_and, Bool.false_eq_true, if_false]
      split_ifs <;> simp [store_and_deliver_upper_cn]
  · simp [handle_pdu, hf, hen, hv]
  · have hsm := parse_pdu_sdu_mac cfg sec e.st.rx_deliv pdu f hf
    have hcond : (is_srb cfg || (is_drb cfg && cfg.integrity_enabled)) = true := by
      rcases hx with h | ⟨h1, h2⟩ <;> simp [*]
    rw [if_pos hcond, extract_mac_of_long _ _ (by simp only [sec_mac_len]; omega)] at hsm
    simp only [Prod.mk.injEq, sec_mac_len] at hsm
    obtain ⟨hs, hm⟩ := hsm
    refine ⟨hm, ?_, hs, ?_⟩
    · rw [hm, List.length_drop]; omega
    · rw [hs, hm, List.take_append_drop]
  · have hsm := parse_pdu_sdu_mac cfg sec e.st.rx_deliv pdu f hf
    have hcond : (is_srb cfg || (is_drb cfg && cfg.integrity_enabled)) = true := by
      rcases hx with h | ⟨h1, h2⟩ <;> simp [*]
    rw [if_pos hcond, extract_mac_of_short _ _ (by simp only [sec_mac_len]; omega)] at hsm
    simp only [Prod.mk.injEq] at hsm
    exact ⟨hsm.2, hsm.1⟩
  · have hsm := parse_pdu_sdu_mac cfg sec e.st.rx_deliv pdu f hf
    have h3 : is_srb cfg = false := by
      simp only [is_drb, is_srb] at h1 ⊢
      cases hrt : cfg.rb_type <;> simp_all
    simp only [h1, h2, h3, Bool.and_false, Bool.or_false, Bool.false_eq_true, if_false,
      Prod.mk.injEq] at hsm
    exact ⟨hsm.2, hsm.1⟩

/-- Witness of C7 (amended): the signalling bearer with integrity not enabled
and the seven-octet PDU 00 00 AA 00 00 00 00 whose tag does not match: no
failure is notified, and the tag 00 00 00 00 is removed from the tail. -/
theorem integrity_verified_only_if_enabled_witness :
    (handle_pdu (bearer12 .srb (.ms 10) false false .nia1 .nea0) test_engine .init
        [0x00, 0x00, 0xaa, 0, 0, 0, 0]).upper_cn = 0 ∧
      (([0, 0, 0, 0] : sec_mac) =
          (decipher_pdu (bearer12 .srb (.ms 10) false false .nia1 .nea0) test_engine
            [0x00, 0x00, 0xaa, 0, 0, 0, 0] 0).drop
            ((decipher_pdu (bearer12 .srb (.ms 10) false false .nia1 .nea0) test_engine
              [0x00, 0x00, 0xaa, 0, 0, 0, 0] 0).length - 4) ∧
        ([0, 0, 0, 0] : sec_mac).length = 4 ∧
        ([0x00, 0x00, 0xaa] : byte_buffer) =
          (decipher_pdu (bearer12 .srb (.ms 10) false false .nia1 .nea0) test_engine
            [0x00, 0x00, 0xaa, 0, 0, 0, 0] 0).take
            ((decipher_pdu (bearer12 .srb (.ms 10) false false .nia1 .nea0) test_engine
              [0x00, 0x00, 0xaa, 0, 0, 0, 0] 0).length - 4) ∧
        decipher_pdu (bearer12 .srb (.ms 10) false false .nia1 .nea0) test_engine
            [0x00, 0x00, 0xaa, 0, 0, 0, 0] 0 = [0x00, 0x00, 0xaa] ++ [0, 0, 0, 0]) :=
  ⟨(integrity_verified_only_if_enabled (bearer12 .srb (.ms 10) false false .nia1 .nea0)
      test_engine .init [0x00, 0x00, 0xaa, 0, 0, 0, 0]).1 rfl,
   (((integrity_verified_only_if_enabled (bearer12 .srb (.ms 10) false false .nia1 .nea0)
      test_engine .init [0x00, 0x00, 0xaa, 0, 0, 0, 0]).2.2
      { rcvd_sn := 0, rcvd_count := 0, sdu := [0x00, 0x00, 0xaa], mac := [0, 0, 0, 0] }
      (by decide)).2.1 (Or.inl rfl)).1 (by decide)⟩

/-- C8 (the code departs from the claim): with ciphering enabled and the null
algorithm NEA0, `cipher_decrypt` returns the empty buffer instead of its input,
so the PDU 80 00 AA is delivered with an empty payload, while the same PDU with
ciphering disabled is delivered with payload AA. -/
theorem cipher_decrypt_nea0_returns_empty :
    cipher_decrypt (bearer12 .drb (.ms 10) false true .nia0 .nea0) test_engine [0xaa] 0 = [] ∧
      (handle_pdu (bearer12 .drb (.ms 10) false true .nia0 .nea0) test_engine .init
        [0x80, 0x00, 0xaa]).upper_dn = [(0, [])] ∧
      (handle_pdu (bearer12 .drb (.ms 10) false false .nia0 .nea0) test_engine .init
        [0x80, 0x00, 0xaa]).upper_dn = [(0, [0xaa])] := by
  decide

/-! ## Window rule -/

theorem rcvd_hfn_next_hfn (s : pdcp_sn_size) (rx_deliv sn : Nat)
    (hhfn : HFN s rx_deliv < 2 ^ (32 - sn_bits s) - 1)
    (hsn : (sn : Int) < (SN s rx_deliv : Int) - (window_size s : Int)) :
    rcvd_hfn s rx_deliv sn = HFN s rx_deliv + 1 ∧ rx_deliv < rcvd_count s rx_deliv sn := by
  have h1 : rcvd_hfn s rx_deliv sn = HFN s rx_deliv + 1 := by
    unfold rcvd_hfn
    rw [if_pos hsn]
    apply Nat.mod_eq_of_lt
    have : 2 ^ (32 - sn_bits s) ≤ 2 ^ 32 := Nat.pow_le_pow_right (by norm_num) (by omega)
    omega
  refine ⟨h1, ?_⟩
  rw [rcvd_count, h1]
  cases s
  · simp only [COUNT, HFN, SN, window_size, sn_bits] at *
    norm_num at *
    omega
  · simp only [COUNT, HFN, SN, window_size, sn_bits] at *
    norm_num at *
    omega

/-- C9: when the HFN of RX_DELIV is below the largest representable HFN and the
received SN is below SN(RX_DELIV) - window, the PDU gets RCVD_HFN =
HFN(RX_DELIV) + 1, its RCVD_COUNT is above RX_DELIV, and it therefore passes the
stale check `RCVD_COUNT < RX_DELIV` of `handle_pdu`. -/
theorem handle_pdu_next_hfn_not_stale (cfg : pdcp_rx_config) (sec : security_engine)
    (e : pdcp_entity_rx) (pdu : byte_buffer) (sn : Nat)
    (hhdr : read_data_pdu_header cfg.sn_size pdu = some sn)
    (hhfn : HFN cfg.sn_size e.st.rx_deliv < 2 ^ (32 - sn_bits cfg.sn_size) - 1)
    (hsn : (sn : Int) < (SN cfg.sn_size e.st.rx_deliv : Int) - (window_size cfg.sn_size : Int)) :
    window_size cfg.sn_size = 2 ^ (sn_bits cfg.sn_size - 1) ∧
    rcvd_hfn cfg.sn_size e.st.rx_deliv sn = HFN cfg.sn_size e.st.rx_deliv + 1 ∧
    ∃ f, parse_pdu cfg sec e.st.rx_deliv pdu = some f ∧
      f.rcvd_count = COUNT cfg.sn_size (HFN cfg.sn_size e.st.rx_deliv + 1) sn ∧
      e.st.rx_deliv < f.rcvd_count ∧ ¬ f.rcvd_count < e.st.rx_deliv := by
  have hlen : hdr_len_bytes cfg.sn_size < pdu.length := by
    by_contra hc
    rw [read_data_pdu_header_of_short cfg.sn_size pdu (by omega)] at hhdr
    exact absurd hhdr (by simp)
  obtain ⟨f, hf⟩ := parse_pdu_of_long cfg sec e.st.rx_deliv pdu hlen
  obtain ⟨h1, h2⟩ := parse_pdu_count cfg sec e.st.rx_deliv pdu f hf
  rw [hhdr] at h1
  simp only [Option.some.injEq] at h1
  rw [← h1] at h2
  obtain ⟨h3, h4⟩ := rcvd_hfn_next_hfn cfg.sn_size e.st.rx_deliv sn hhfn hsn
  refine ⟨rfl, h3, f, hf, ?_, ?_, ?_⟩
  · rw [h2, rcvd_count, h3]
  · rw [h2]; exact h4
  · rw [h2]; omega

/-- Witness of C9: 12-bit SN, window 2048, RX_DELIV = 4000, incoming SN = 10:
the PDU is counted as COUNT 4106 in the next HFN. -/
theorem handle_pdu_next_hfn_not_stale_witness :
    rcvd_hfn .size12bits 4000 10 = 1 ∧
    ∃ f, parse_pdu (drb12 (.ms 10)) test_engine 4000 (pdu12 10 7) = some f ∧
      f.rcvd_count = 4106 ∧ 4000 < f.rcvd_count ∧ ¬ f.rcvd_count < 4000 :=
  (handle_pdu_next_hfn_not_stale (drb12 (.ms 10)) test_engine
    { pdcp_entity_rx.init with st := { rx_next := 4000, rx_deliv := 4000, rx_reord := 4000 } }
    (pdu12 10 7) 10 (by decide) (by decide) (by decide)).2

/-! ## In-order reception -/

theorem read_data_pdu_header_size12bits (b0 b1 b2 : Nat) (rest : byte_buffer) :
    read_data_pdu_header .size12bits (b0 :: b1 :: b2 :: rest) =
      some (b0 % 16 * 256 + b1 % 256) := by
  have h0 : b0 &&& 0x0f = b0 % 16 := Nat.and_pow_two_sub_one_eq_mod b0 4
  have h1 : b1 &&& 0xff = b1 % 256 := Nat.and_pow_two_sub_one_eq_mod b1 8
  have h2 : b1 % 256 < 2 ^ 8 := Nat.mod_lt _ (by norm_num)
  have h3 := Nat.mul_add_lt_is_or h2 (b0 % 16)
  simp only [read_data_pdu_header, hdr_len_bytes, List.length_cons]
  rw [if_neg (by omega), h0, h1, Nat.shiftLeft_eq, ← Nat.mul_comm (2 ^ 8), ← h3]

theorem read_data_pdu_header_pdu12 (sn payload : Nat) (h : sn < 4096) :
    read_data_pdu_header .size12bits (pdu12 sn payload) = some sn := by
  rw [pdu12, read_data_pdu_header_size12bits]
  congr 1
  omega

theorem rcvd_count_in_sync (s : pdcp_sn_size) (d : Nat) (hd : d < 2 ^ 32) :
    rcvd_count s d (SN s d) = d := by
  cases s
  · simp only [rcvd_count, rcvd_hfn, COUNT, HFN, SN, window_size, sn_bits]
    norm_num at *
    split_ifs <;> omega
  · simp only [rcvd_count, rcvd_hfn, COUNT, HFN, SN, window_size, sn_bits]
    norm_num at *
    split_ifs <;> omega

theorem SN_mod (s : pdcp_sn_size) (n : Nat) : SN s (n % 2 ^ 32) = n % 2 ^ sn_bits s := by
  unfold SN
  apply Nat.mod_mod_of_dvd
  exact Nat.pow_dvd_pow 2 (by cases s <;> simp [sn_bits])

theorem parse_pdu_plain (cfg : pdcp_rx_config) (sec : security_engine) (rx_deliv sn : Nat)
    (pdu : byte_buffer) (hint : cfg.integrity_enabled = false)
    (hciph : cfg.ciphering_enabled = false)
    (hsn : read_data_pdu_header cfg.sn_size pdu = some sn) :
    ∃ f, parse_pdu cfg sec rx_deliv pdu = some f ∧
      f.rcvd_count = rcvd_count cfg.sn_size rx_deliv sn ∧
      discard_data_header cfg.sn_size f.sdu = plain_sdu cfg pdu := by
  have hlen : ¬ pdu.length ≤ hdr_len_bytes cfg.sn_size := by
    intro hc
    rw [read_data_pdu_header_of_short cfg.sn_size pdu hc] at hsn
    exact absurd hsn (by simp)
  simp only [parse_pdu, hlen, if_false, hsn, decipher_pdu, hciph, hint, Bool.and_false,
    Bool.or_false, plain_sdu, Bool.false_eq_true]
  refine ⟨_, rfl, rfl, ?_⟩
  cases is_srb cfg <;> simp

theorem store_and_deliver_in_sync (cfg : pdcp_rx_config) (e : pdcp_entity_rx) (n : Nat)
    (sdu : byte_buffer) (hs : in_sync cfg n e) :
    in_sync cfg (n + 1) (store_and_deliver cfg e (n % 2 ^ 32) sdu) ∧
      (store_and_deliver cfg e (n % 2 ^ 32) sdu).upper_dn = e.upper_dn ++ [(n % 2 ^ 32, sdu)] := by
  obtain ⟨⟨nx, dl, ro⟩, q, t, dn, cn, tr⟩ := e
  obtain ⟨h1, h2, h3, h4, h5⟩ := hs
  simp only at h1 h2 h3 h4 h5
  subst h1 h2 h3 h4
  have hm : (n % 2 ^ 32 + 1) % 2 ^ 32 = (n + 1) % 2 ^ 32 := by omega
  by_cases hinf : cfg.t_reordering = .infinity
  · simp [store_and_deliver, map_assign, deliver_all_consecutive_counts,
      deliver_consecutive_loop, hinf, in_sync, hm]
  · by_cases h0 : cfg.t_reordering = pdcp_t_reordering.ms0
    · simp [store_and_deliver, map_assign, deliver_all_consecutive_counts,
        deliver_consecutive_loop, handle_t_reordering_expire, deliver_below_loop, h0, in_sync, hm,
        pdcp_t_reordering.ms0]
    · simp [store_and_deliver, map_assign, deliver_all_consecutive_counts,
        deliver_consecutive_loop, hinf, h0, in_sync, hm]

theorem handle_pdu_in_sync (cfg : pdcp_rx_config) (sec : security_engine) (e : pdcp_entity_rx)
    (pdu : byte_buffer) (n : Nat) (hint : cfg.integrity_enabled = false)
    (hciph : cfg.ciphering_enabled = false) (hs : in_sync cfg n e)
    (hsn : read_data_pdu_header cfg.sn_size pdu = some (n % 2 ^ sn_bits cfg.sn_size)) :
    in_sync cfg (n + 1) (handle_pdu cfg sec e pdu) ∧
      (handle_pdu cfg sec e pdu).upper_dn = e.upper_dn ++ [(n % 2 ^ 32, plain_sdu cfg pdu)] := by
  obtain ⟨f, hf, hc, hp⟩ := parse_pdu_plain cfg sec e.st.rx_deliv _ pdu hint hciph hsn
  have hd : e.st.rx_deliv = n % 2 ^ 32 := hs.1
  have hq : e.reorder_queue = [] := hs.2.2.1
  have hcount : f.rcvd_count = n % 2 ^ 32 := by
    rw [hc, hd, ← SN_mod, rcvd_count_in_sync _ _ (Nat.mod_lt _ (by norm_num))]
  have hres : handle_pdu cfg sec e pdu = store_and_deliver cfg e (n % 2 ^ 32) (plain_sdu cfg pdu) := by
    simp only [handle_pdu, hf]
    simp [hint, hcount, hd, hq, map_contains, hp]
  rw [hres]
  exact store_and_deliver_in_sync cfg e n _ hs

theorem run_pdus_in_sync (cfg : pdcp_rx_config) (sec : security_engine)
    (hint : cfg.integrity_enabled = false) (hciph : cfg.ciphering_enabled = false) :
    ∀ (pdus : List byte_buffer) (n : Nat) (e : pdcp_entity_rx), in_sync cfg n e →
      (∀ i (h : i < pdus.length),
        read_data_pdu_header cfg.sn_size pdus[i] = some ((n + i) % 2 ^ sn_bits cfg.sn_size)) →
      in_sync cfg (n + pdus.length) (run cfg sec e (pdus.map .pdu)) ∧
        (run cfg sec e (pdus.map .pdu)).upper_dn =
          e.upper_dn ++ (pdus.enumFrom n).map (fun ip => (ip.1 % 2 ^ 32, plain_sdu cfg ip.2)) := by
  intro pdus
  induction pdus with
  | nil => intro n e hs _; simpa [run] using hs
  | cons p ps ih =>
    intro n e hs hsn
    have h0 := hsn 0 (by simp)
    simp only [List.getElem_cons_zero, Nat.add_zero] at h0
    obtain ⟨hs1, hd1⟩ := handle_pdu_in_sync cfg sec e p n hint hciph hs h0
    have hrest : ∀ i (h : i < ps.length),
        read_data_pdu_header cfg.sn_size ps[i] = some ((n + 1 + i) % 2 ^ sn_bits cfg.sn_size) := by
      intro i h
      have := hsn (i + 1) (by simp; omega)
      simp only [List.getElem_cons_succ] at this
      rw [this]
      congr 2
      omega
    obtain ⟨hs2, hd2⟩ := ih (n + 1) (handle_pdu cfg sec e p) hs1 hrest
    have hrun : run cfg sec e (List.map rx_event.pdu (p :: ps)) =
        run cfg sec (handle_pdu cfg sec e p) (List.map rx_event.pdu ps) := rfl
    rw [hrun]
    refine ⟨?_, ?_⟩
    · have : n + (p :: ps).length = n + 1 + ps.length := by simp; omega
      rw [this]; exact hs2
    · rw [hd2, hd1]
      simp

theorem in_sync_init (cfg : pdcp_rx_config) : in_sync cfg 0 pdcp_entity_rx.init := by
  simp [in_sync, pdcp_entity_rx.init]

/-- C10 (amended): with integrity and ciphering disabled, from the initial
state, submitting PDUs whose SNs are 0, 1, ..., n-1 modulo 2^SN_width in that
order delivers each SDU during its own `handle_pdu` call, in submission order,
the k-th one under COUNT k mod 2^32; afterwards RX_DELIV = RX_NEXT = n mod 2^32
(which is n as long as n < 2^32), the buffer is empty and the reordering timer
is not running. -/
theorem in_order_reception (cfg : pdcp_rx_config) (sec : security_engine)
    (pdus : List byte_buffer) (hint : cfg.integrity_enabled = false)
    (hciph : cfg.ciphering_enabled = false)
    (hsn : ∀ i (h : i < pdus.length),
      read_data_pdu_header cfg.sn_size pdus[i] = some (i % 2 ^ sn_bits cfg.sn_size)) :
    (run cfg sec .init (pdus.map .pdu)).st.rx_deliv = pdus.length % 2 ^ 32 ∧
    (run cfg sec .init (pdus.map .pdu)).st.rx_next = pdus.length % 2 ^ 32 ∧
    (pdus.length < 2 ^ 32 →
      (run cfg sec .init (pdus.map .pdu)).st.rx_deliv = pdus.length ∧
      (run cfg sec .init (pdus.map .pdu)).st.rx_next = pdus.length) ∧
    (run cfg sec .init (pdus.map .pdu)).reorder_queue = [] ∧
    (run cfg sec .init (pdus.map .pdu)).reordering_timer_running = false ∧
    (run cfg sec .init (pdus.map .pdu)).upper_dn =
      pdus.enum.map (fun ip => (ip.1 % 2 ^ 32, plain_sdu cfg ip.2)) ∧
    (∀ k (h : k < pdus.length),
      (run cfg sec .init ((pdus.take (k + 1)).map .pdu)).upper_dn =
        (run cfg sec .init ((pdus.take k).map .pdu)).upper_dn ++
          [(k % 2 ^ 32, plain_sdu cfg pdus[k])]) := by
  have hsn0 : ∀ i (h : i < pdus.length),
      read_data_pdu_header cfg.sn_size pdus[i] = some ((0 + i) % 2 ^ sn_bits cfg.sn_size) := by
    intro i h; rw [Nat.zero_add]; exact hsn i h
  obtain ⟨⟨h1, h2, h3, h4, _⟩, h6⟩ :=
    run_pdus_in_sync cfg sec hint hciph pdus 0 .init (in_sync_init cfg) hsn0
  rw [Nat.zero_add] at h1 h2
  refine ⟨h1, h2, fun hlt => ?_, h3, h4, ?_, ?_⟩
  · rw [h1, h2, Nat.mod_eq_of_lt hlt]; exact ⟨rfl, rfl⟩
  · rw [h6]; simp [pdcp_entity_rx.init, List.enum]
  · intro k hk
    have hpre : ∀ i (h : i < (pdus.take k).length),
        read_data_pdu_header cfg.sn_size (pdus.take k)[i] =
          some ((0 + i) % 2 ^ sn_bits cfg.sn_size) := by
      intro i h
      rw [List.getElem_take]
      exact hsn0 i (by simp at h; omega)
    obtain ⟨hsk, _⟩ :=
      run_pdus_in_sync cfg sec hint hciph (pdus.take k) 0 .init (in_sync_init cfg) hpre
    have hlen : (pdus.take k).length = k := by simp; omega
    rw [hlen, Nat.zero_add] at hsk
    have hstep := handle_pdu_in_sync cfg sec _ pdus[k] k hint hciph hsk (hsn k hk)
    rw [List.take_succ, List.getElem?_eq_getElem hk]
    simp only [Option.toList, List.map_append, List.map_cons, List.map_nil, run,
      List.foldl_append, List.foldl_cons, List.foldl_nil, step]
    exact hstep.2

/-- Witness of C10 (amended): SN width 12, SN = 0, 1, 2 gives three deliveries
in order and RX_DELIV = 3. -/
theorem in_order_reception_witness :
    (run (drb12 (.ms 10)) test_engine .init
      ([pdu12 0 10, pdu12 1 11, pdu12 2 12].map .pdu)).st.rx_deliv = 3 ∧
    (run (drb12 (.ms 10)) test_engine .init
      ([pdu12 0 10, pdu12 1 11, pdu12 2 12].map .pdu)).upper_dn =
        [(0, [10]), (1, [11]), (2, [12])] := by
  have h := in_order_reception (drb12 (.ms 10)) test_engine [pdu12 0 10, pdu12 1 11, pdu12 2 12]
    rfl rfl (by decide)
  refine ⟨(h.2.2.1 (by decide)).1, ?_⟩
  rw [h.2.2.2.2.2.1]
  decide

/-- C10 (fails as stated): after 2^32 PDUs received in order (SN = i mod 4096
for the i-th PDU) RX_DELIV and RX_NEXT are 0, not 2^32: the counters are 32-bit
values and wrap. -/
theorem in_order_reception_counters_wrap :
    ((List.range (2 ^ 32)).map (fun i => pdu12 (i % 4096) 0)).length = 2 ^ 32 ∧
    (run (drb12 .infinity) test_engine .init
      (((List.range (2 ^ 32)).map (fun i => pdu12 (i % 4096) 0)).map .pdu)).st.rx_deliv = 0 ∧
    (run (drb12 .infinity) test_engine .init
      (((List.range (2 ^ 32)).map (fun i => pdu12 (i % 4096) 0)).map .pdu)).st.rx_next = 0 := by
  have hsn : ∀ i (h : i < ((List.range (2 ^ 32)).map (fun i => pdu12 (i % 4096) 0)).length),
      read_data_pdu_header (drb12 .infinity).sn_size
          ((List.range (2 ^ 32)).map (fun i => pdu12 (i % 4096) 0))[i] =
        some ((0 + i) % 2 ^ sn_bits (drb12 .infinity).sn_size) := by
    intro i h
    rw [List.getElem_map, List.getElem_range, Nat.zero_add]
    exact read_data_pdu_header_pdu12 _ _ (Nat.mod_lt _ (by norm_num))
  have hlen : ((List.range (2 ^ 32)).map (fun i => pdu12 (i % 4096) 0)).length = 2 ^ 32 := by
    rw [List.length_map, List.length_range]
  obtain ⟨⟨h1, h2, _⟩, _⟩ := run_pdus_in_sync (drb12 .infinity) test_engine rfl rfl
    ((List.range (2 ^ 32)).map (fun i => pdu12 (i % 4096) 0)) 0 .init (in_sync_init _) hsn
  rw [hlen] at h1 h2
  exact ⟨hlen, h1, h2⟩

/-! ## Conservation of accepted SDUs -/

theorem deliver_consecutive_loop_perm (q : List (Nat × byte_buffer)) :
    ∀ (d : Nat) (out : List (Nat × byte_buffer)),
      ((deliver_consecutive_loop q d out).1 ++ (deliver_consecutive_loop q d out).2.2).Perm
        (q ++ out) := by
  induction q with
  | nil => intro d out; simp [deliver_consecutive_loop]
  | cons kv rest ih =>
    intro d out
    obtain ⟨k, sdu⟩ := kv
    unfold deliver_consecutive_loop
    split_ifs with h
    · refine (ih _ _).trans ?_
      rw [List.cons_append, ← List.append_assoc]
      exact List.perm_append_singleton _ _
    · exact List.Perm.refl _

theorem deliver_below_loop_perm (r : Nat) (q : List (Nat × byte_buffer)) :
    ∀ (out : List (Nat × byte_buffer)),
      ((deliver_below_loop r q out).1 ++ (deliver_below_loop r q out).2).Perm (q ++ out) := by
  induction q with
  | nil => intro out; simp [deliver_below_loop]
  | cons kv rest ih =>
    intro out
    obtain ⟨k, sdu⟩ := kv
    unfold deliver_below_loop
    split_ifs with h
    · refine (ih _).trans ?_
      rw [List.cons_append, ← List.append_assoc]
      exact List.perm_append_singleton _ _
    · exact List.Perm.refl _

theorem map_assign_perm (q : List (Nat × byte_buffer)) (k : Nat) (v : byte_buffer)
    (h : map_contains q k = false) : (map_assign q k v).Perm ((k, v) :: q) := by
  induction q with
  | nil => simp [map_assign]
  | cons kv rest ih =>
    obtain ⟨k', v'⟩ := kv
    simp only [map_contains, List.any_cons, Bool.or_eq_false_iff, beq_eq_false_iff_ne,
      ne_eq] at h
    unfold map_assign
    split_ifs with h1 h2
    · exact List.Perm.refl _
    · exact absurd h2.symm h.1
    · exact ((ih h.2).cons _).trans (List.Perm.swap _ _ _)

theorem deliver_all_consecutive_counts_held (e : pdcp_entity_rx) :
    (held_sdus (deliver_all_consecutive_counts e)).Perm (held_sdus e) :=
  deliver_consecutive_loop_perm e.reorder_queue e.st.rx_deliv e.upper_dn

theorem handle_t_reordering_expire_held (cfg : pdcp_rx_config) (e : pdcp_entity_rx) :
    (held_sdus (handle_t_reordering_expire cfg e)).Perm (held_sdus e) := by
  have h1 := deliver_below_loop_perm e.st.rx_reord e.reorder_queue e.upper_dn
  have h2 := deliver_consecutive_loop_perm
    (deliver_below_loop e.st.rx_reord e.reorder_queue e.upper_dn).1 e.st.rx_reord
    (deliver_below_loop e.st.rx_reord e.reorder_queue e.upper_dn).2
  unfold handle_t_reordering_expire
  simp only
  split_ifs <;> exact h2.trans h1

theorem reordering_callback_held (cfg : pdcp_rx_config) (e : pdcp_entity_rx) :
    (held_sdus (reordering_callback cfg e)).Perm (held_sdus e) := by
  unfold reordering_callback
  split_ifs
  · exact handle_t_reordering_expire_held cfg _
  · exact List.Perm.refl _

theorem store_and_deliver_held (cfg : pdcp_rx_config) (e : pdcp_entity_rx) (count : Nat)
    (sdu : byte_buffer) (h : map_contains e.reorder_queue count = false) :
    (held_sdus (store_and_deliver cfg e count sdu)).Perm ((count, sdu) :: held_sdus e) := by
  have h1 : (map_assign e.reorder_queue count sdu ++ e.upper_dn).Perm
      ((count, sdu) :: held_sdus e) := (map_assign_perm _ _ _ h).append_right _
  unfold store_and_deliver
  simp only
  split_ifs <;>
    first
    | exact h1
    | exact (deliver_all_consecutive_counts_held _).trans h1
    | exact (handle_t_reordering_expire_held cfg _).trans h1
    | exact (handle_t_reordering_expire_held cfg _).trans
        ((deliver_all_consecutive_counts_held _).trans h1)

theorem handle_pdu_held (cfg : pdcp_rx_config) (sec : security_engine) (e : pdcp_entity_rx)
    (pdu : byte_buffer) :
    (held_sdus (handle_pdu cfg sec e pdu)).Perm
      ((accepted_pdu cfg sec e pdu).toList ++ held_sdus e) := by
  unfold handle_pdu accepted_pdu
  split
  · exact List.Perm.refl _
  · simp only
    split_ifs with h1 h2 h3
    · exact List.Perm.refl _
    · exact List.Perm.refl _
    · exact List.Perm.refl _
    · exact store_and_deliver_held cfg e _ _ (by simpa using h3)

theorem run_held (cfg : pdcp_rx_config) (sec : security_engine) (evs : List rx_event) :
    ∀ e : pdcp_entity_rx,
      (held_sdus (run cfg sec e evs)).Perm (held_sdus e ++ accepted_pdus cfg sec e evs) := by
  induction evs with
  | nil => intro e; simp [run, accepted_pdus]
  | cons ev evs ih =>
    intro e
    cases ev with
    | pdu p =>
      refine (ih (handle_pdu cfg sec e p)).trans ?_
      simp only [accepted_pdus]
      rw [← List.append_assoc]
      exact ((handle_pdu_held cfg sec e p).trans List.perm_append_comm).append_right _
    | t_reordering_expiry =>
      refine (ih (reordering_callback cfg e)).trans ?_
      simp only [accepted_pdus]
      exact (reordering_callback_held cfg e).append_right _

/-- C2: along every sequence of `handle_pdu` calls and timer expiries from the
initial state, the PDUs accepted so far (those that passed the length, integrity
and discard checks), each with its RCVD_COUNT and SDU, are exactly the entries
still in the reception buffer together with the SDUs delivered upward, counted
with multiplicity: no accepted SDU is lost, none is delivered twice, none is
both buffered and delivered.  Consequently, whenever the buffer is empty the
delivered COUNTs are exactly the accepted COUNTs. -/
theorem accepted_sdus_buffered_or_delivered_once (cfg : pdcp_rx_config)
    (sec : security_engine) (evs : List rx_event) :
    (accepted_pdus cfg sec .init evs).Perm
      ((run cfg sec .init evs).reorder_queue ++ (run cfg sec .init evs).upper_dn) ∧
    ((run cfg sec .init evs).reorder_queue = [] →
      ((accepted_pdus cfg sec .init evs).map Prod.fst).Perm
        (delivered_counts (run cfg sec .init evs))) := by
  have h : (accepted_pdus cfg sec .init evs).Perm (held_sdus (run cfg sec .init evs)) := by
    have := run_held cfg sec evs .init
    simpa [held_sdus, pdcp_entity_rx.init] using this.symm
  refine ⟨h, fun hq => ?_⟩
  have h2 := h.map Prod.fst
  simpa [held_sdus, hq, delivered_counts] using h2

/-- Witness of C2: SN 0, SN 2, a duplicate of SN 2, then the expiry of
t-Reordering: the buffer is empty and COUNTs 0 and 2 were accepted and
delivered. -/
theorem accepted_sdus_buffered_or_delivered_once_witness :
    ([0, 2] : List Nat).Perm
      (delivered_counts (run (drb12 (.ms 10)) test_engine .init
        [.pdu (pdu12 0 10), .pdu (pdu12 2 12), .pdu (pdu12 2 13), .t_reordering_expiry])) := by
  have h := (accepted_sdus_buffered_or_delivered_once (drb12 (.ms 10)) test_engine
    [.pdu (pdu12 0 10), .pdu (pdu12 2 12), .pdu (pdu12 2 13), .t_reordering_expiry]).2
    (by decide)
  have ha : (accepted_pdus (drb12 (.ms 10)) test_engine .init
      [.pdu (pdu12 0 10), .pdu (pdu12 2 12), .pdu (pdu12 2 13), .t_reordering_expiry]).map
      Prod.fst = [0, 2] := by decide
  rw [ha] at h
  exact h

/-! ## Reachable states without counter wrap -/

theorem mem_keys_of_map_assign (q : List (Nat × byte_buffer)) (k : Nat) (v : byte_buffer)
    (k' : Nat) : k' ∈ keys_of (map_assign q k v) ↔ k' = k ∨ k' ∈ keys_of q := by
  induction q with
  | nil => simp [map_assign, keys_of]
  | cons kv rest ih =>
    obtain ⟨k0, v0⟩ := kv
    unfold map_assign
    split_ifs with h1 h2
    · simp [keys_of]
    · subst h2; simp [keys_of]
    · simp only [keys_of, List.map_cons, List.mem_cons] at ih ⊢
      rw [ih]
      tauto

theorem map_assign_sorted (q : List (Nat × byte_buffer)) (k : Nat) (v : byte_buffer)
    (h : (keys_of q).Pairwise (· < ·)) : (keys_of (map_assign q k v)).Pairwise (· < ·) := by
  induction q with
  | nil => simp [map_assign, keys_of]
  | cons kv rest ih =>
    obtain ⟨k0, v0⟩ := kv
    simp only [keys_of, List.map_cons, List.pairwise_cons] at h
    unfold map_assign
    split_ifs with h1 h2
    · simp only [keys_of, List.map_cons, List.pairwise_cons, List.mem_cons]
      refine ⟨?_, h⟩
      rintro a (rfl | ha)
      · exact h1
      · exact lt_trans h1 (h.1 a ha)
    · subst h2
      simpa [keys_of] using h
    · have hlt : k0 < k := by omega
      simp only [keys_of, List.map_cons, List.pairwise_cons]
      refine ⟨?_, ih h.2⟩
      intro a ha
      rcases (mem_keys_of_map_assign rest k v a).1 ha with rfl | ha
      · exact hlt
      · exact h.1 a ha

theorem pairwise_append_singleton (out : List Nat) (d : Nat) (h : out.Pairwise (· < ·))
    (hlt : ∀ c ∈ out, c < d) : (out ++ [d]).Pairwise (· < ·) := by
  rw [List.pairwise_append]
  refine ⟨h, by simp, ?_⟩
  intro a ha b hb
  simp only [List.mem_singleton] at hb
  subst hb
  exact hlt a ha

theorem deliver_consecutive_loop_inv (N : Nat) (hN : N < 2 ^ 32)
    (q : List (Nat × byte_buffer)) :
    ∀ (d : Nat) (out : List (Nat × byte_buffer)),
      (keys_of q).Pairwise (· < ·) → (∀ k ∈ keys_of q, d ≤ k ∧ k < N) → d ≤ N →
      (keys_of out).Pairwise (· < ·) → (∀ c ∈ keys_of out, c < d) →
      (keys_of (deliver_consecutive_loop q d out).1).Pairwise (· < ·) ∧
      (∀ k ∈ keys_of (deliver_consecutive_loop q d out).1,
        (deliver_consecutive_loop q d out).2.1 ≤ k ∧ k < N) ∧
      d ≤ (deliver_consecutive_loop q d out).2.1 ∧
      (deliver_consecutive_loop q d out).2.1 ≤ N ∧
      (keys_of (deliver_consecutive_loop q d out).2.2).Pairwise (· < ·) ∧
      (∀ c ∈ keys_of (deliver_consecutive_loop q d out).2.2,
        c < (deliver_consecutive_loop q d out).2.1) := by
  induction q with
  | nil =>
    intro d out _ _ hd ho hl
    simp only [deliver_consecutive_loop]
    exact ⟨by simp [keys_of], by simp [keys_of], le_refl _, hd, ho, hl⟩
  | cons kv rest ih =>
    intro d out hs hb hd ho hl
    obtain ⟨k, sdu⟩ := kv
    simp only [keys_of, List.map_cons, List.pairwise_cons, List.mem_cons, forall_eq_or_imp]
      at hs hb
    unfold deliver_consecutive_loop
    split_ifs with h
    · subst h
      have hk : k < N := hb.1.2
      have hm : (k + 1) % 2 ^ 32 = k + 1 := Nat.mod_eq_of_lt (by omega)
      rw [hm]
      have hrest : ∀ a ∈ keys_of rest, k + 1 ≤ a ∧ a < N := by
        intro a ha
        exact ⟨hs.1 a ha, (hb.2 a ha).2⟩
      have ho2 : (keys_of (out ++ [(k, sdu)])).Pairwise (· < ·) := by
        simp only [keys_of, List.map_append, List.map_cons, List.map_nil]
        exact pairwise_append_singleton _ _ ho hl
      have hl2 : ∀ c ∈ keys_of (out ++ [(k, sdu)]), c < k + 1 := by
        intro c hc
        simp only [keys_of, List.map_append, List.map_cons, List.map_nil, List.mem_append,
          List.mem_singleton] at hc
        rcases hc with hc | hc
        · exact lt_trans (hl c hc) (Nat.lt_succ_self k)
        · omega
      obtain ⟨r1, r2, r3, r4, r5, r6⟩ := ih (k + 1) (out ++ [(k, sdu)]) hs.2 hrest (by omega) ho2 hl2
      exact ⟨r1, r2, by omega, r4, r5, r6⟩
    · refine ⟨?_, ?_, le_refl _, hd, ho, hl⟩
      · simpa [keys_of] using hs
      · simpa [keys_of] using hb

theorem deliver_below_loop_inv (N R : Nat) (q : List (Nat × byte_buffer)) :
    ∀ (d : Nat) (out : List (Nat × byte_buffer)),
      (keys_of q).Pairwise (· < ·) → (∀ k ∈ keys_of q, d ≤ k ∧ k < N) → d ≤ R →
      (keys_of out).Pairwise (· < ·) → (∀ c ∈ keys_of out, c < d) →
      (keys_of (deliver_below_loop R q out).1).Pairwise (· < ·) ∧
      (∀ k ∈ keys_of (deliver_below_loop R q out).1, R ≤ k ∧ k < N) ∧
      (keys_of (deliver_below_loop R q out).2).Pairwise (· < ·) ∧
      (∀ c ∈ keys_of (deliver_below_loop R q out).2, c < R) := by
  induction q with
  | nil =>
    intro d out _ _ hd ho hl
    simp only [deliver_below_loop]
    exact ⟨by simp [keys_of], by simp [keys_of], ho, fun c hc => lt_of_lt_of_le (hl c hc) hd⟩
  | cons kv rest ih =>
    intro d out hs hb hd ho hl
    obtain ⟨k, sdu⟩ := kv
    simp only [keys_of, List.map_cons, List.pairwise_cons, List.mem_cons, forall_eq_or_imp]
      at hs hb
    unfold deliver_below_loop
    split_ifs with h
    · have hrest : ∀ a ∈ keys_of rest, k + 1 ≤ a ∧ a < N := by
        intro a ha
        exact ⟨hs.1 a ha, (hb.2 a ha).2⟩
      have hlk : ∀ c ∈ keys_of out, c < k := fun c hc => lt_of_lt_of_le (hl c hc) hb.1.1
      have ho2 : (keys_of (out ++ [(k, sdu)])).Pairwise (· < ·) := by
        simp only [keys_of, List.map_append, List.map_cons, List.map_nil]
        exact pairwise_append_singleton _ _ ho hlk
      have hl2 : ∀ c ∈ keys_of (out ++ [(k, sdu)]), c < k + 1 := by
        intro c hc
        simp only [keys_of, List.map_append, List.map_cons, List.map_nil, List.mem_append,
          List.mem_singleton] at hc
        rcases hc with hc | hc
        · exact lt_trans (hlk c hc) (Nat.lt_succ_self k)
        · omega
      exact ih (k + 1) (out ++ [(k, sdu)]) hs.2 hrest (by omega) ho2 hl2
    · refine ⟨?_, ?_, ho, fun c hc => lt_of_lt_of_le (hl c hc) hd⟩
      · simpa [keys_of] using hs
      · intro a ha
        simp only [keys_of, List.map_cons, List.mem_cons] at ha
        rcases ha with rfl | ha
        · exact ⟨by omega, hb.1.2⟩
        · have := hs.1 a ha
          exact ⟨by omega, (hb.2 a ha).2⟩

theorem rx_inv_core_congr {e e' : pdcp_entity_rx} (h : rx_inv_core e)
    (hq : e'.reorder_queue = e.reorder_queue) (hd : e'.st.rx_deliv = e.st.rx_deliv)
    (hn : e'.st.rx_next = e.st.rx_next) (hu : e'.upper_dn = e.upper_dn) : rx_inv_core e' := by
  obtain ⟨h1, h2, h3, h4, h5, h6⟩ := h
  constructor
  · rw [hq]; exact h1
  · rw [hq, hd, hn]; exact h2
  · rw [hd, hn]; exact h3
  · rw [hn]; exact h4
  · rw [hu]; exact h5
  · rw [hu, hd]; exact h6

theorem deliver_all_consecutive_counts_core (e : pdcp_entity_rx) (h : rx_inv_core e) :
    rx_inv_core (deliver_all_consecutive_counts e) := by
  obtain ⟨r1, r2, r3, r4, r5, r6⟩ := deliver_consecutive_loop_inv e.st.rx_next h.next_lt
    e.reorder_queue e.st.rx_deliv e.upper_dn h.sorted h.keys_bounds h.deliv_le h.dn_sorted h.dn_lt
  exact ⟨r1, r2, r4, h.next_lt, r5, r6⟩

theorem handle_t_reordering_expire_inv (cfg : pdcp_rx_config) (e : pdcp_entity_rx)
    (h : rx_inv cfg e) (hfin : cfg.t_reordering ≠ .infinity) :
    rx_inv cfg (handle_t_reordering_expire cfg e) := by
  have hR : e.st.rx_reord = e.st.rx_next := h.reord hfin
  obtain ⟨r1, r2, r3, r4⟩ := deliver_below_loop_inv e.st.rx_next e.st.rx_reord e.reorder_queue
    e.st.rx_deliv e.upper_dn h.core.sorted h.core.keys_bounds (by rw [hR]; exact h.core.deliv_le)
    h.core.dn_sorted h.core.dn_lt
  have h2 : rx_inv_core
      { e with
        reorder_queue := (deliver_below_loop e.st.rx_reord e.reorder_queue e.upper_dn).1
        upper_dn := (deliver_below_loop e.st.rx_reord e.reorder_queue e.upper_dn).2
        st := { e.st with rx_deliv := e.st.rx_reord } } :=
    ⟨r1, r2, le_of_eq hR, h.core.next_lt, r3, r4⟩
  have h3 := deliver_all_consecutive_counts_core _ h2
  unfold handle_t_reordering_expire
  simp only
  split_ifs with ha hb
  · exact ⟨h3, fun _ => hR, fun hc => absurd hc hfin⟩
  · exact ⟨rx_inv_core_congr h3 rfl rfl rfl rfl, fun _ => rfl, fun hc => absurd hc hfin⟩
  · exact ⟨h3, fun _ => hR, fun hc => absurd hc hfin⟩

theorem reordering_callback_inv (cfg : pdcp_rx_config) (e : pdcp_entity_rx)
    (h : rx_inv cfg e) : rx_inv cfg (reordering_callback cfg e) := by
  unfold reordering_callback
  split_ifs with ht
  · have hfin : cfg.t_reordering ≠ .infinity := by
      intro hc
      rw [h.timer hc] at ht
      exact absurd ht (by simp)
    exact handle_t_reordering_expire_inv cfg _
      ⟨rx_inv_core_congr h.core rfl rfl rfl rfl, h.reord, fun hc => absurd hc hfin⟩ hfin
  · exact h

theorem timer_handling_inv (cfg : pdcp_rx_config) (e3 : pdcp_entity_rx) (hc : rx_inv_core e3)
    (ht : cfg.t_reordering = .infinity → e3.reordering_timer_running = false) :
    rx_inv cfg
      (let e4 : pdcp_entity_rx :=
        if e3.reordering_timer_running && decide (e3.st.rx_deliv ≥ e3.st.rx_reord) then
          { e3 with reordering_timer_running := false }
        else e3
      if cfg.t_reordering ≠ pdcp_t_reordering.infinity then
        let e5 : pdcp_entity_rx := { e4 with st := { e4.st with rx_reord := e4.st.rx_next } }
        if cfg.t_reordering = pdcp_t_reordering.ms0 then handle_t_reordering_expire cfg e5
        else if !e5.reordering_timer_running && decide (e5.st.rx_deliv < e5.st.rx_next) then
          { e5 with reordering_timer_running := true, timer_runs := e5.timer_runs + 1 }
        else e5
      else e4) := by
  simp only
  by_cases hinf : cfg.t_reordering = .infinity
  · have htf := ht hinf
    simp only [hinf, ne_eq, not_true_eq_false, if_false, htf, Bool.false_and,
      Bool.false_eq_true]
    exact ⟨hc, fun hne => absurd hinf hne, fun _ => htf⟩
  · rw [if_pos hinf]
    have h4 : rx_inv_core
        (if e3.reordering_timer_running && decide (e3.st.rx_deliv ≥ e3.st.rx_reord) then
          { e3 with reordering_timer_running := false }
        else e3) := by
      split_ifs
      · exact rx_inv_core_congr hc rfl rfl rfl rfl
      · exact hc
    generalize (if e3.reordering_timer_running && decide (e3.st.rx_deliv ≥ e3.st.rx_reord) then
          { e3 with reordering_timer_running := false }
        else e3) = e4 at h4 ⊢
    have h5 : rx_inv cfg { e4 with st := { e4.st with rx_reord := e4.st.rx_next } } :=
      ⟨rx_inv_core_congr h4 rfl rfl rfl rfl, fun _ => rfl, fun hc' => absurd hc' hinf⟩
    split_ifs with h0 h1
    · exact handle_t_reordering_expire_inv cfg _ h5 hinf
    · exact ⟨rx_inv_core_congr h4 rfl rfl rfl rfl, fun _ => rfl, fun hc' => absurd hc' hinf⟩
    · exact h5

theorem store_and_deliver_inv (cfg : pdcp_rx_config) (e : pdcp_entity_rx) (count : Nat)
    (sdu : byte_buffer) (h : rx_inv cfg e) (hge : e.st.rx_deliv ≤ count)
    (hlt : count < 2 ^ 32 - 1) : rx_inv cfg (store_and_deliver cfg e count sdu) := by
  have h2 : rx_inv_core
      (if count ≥ e.st.rx_next then
        { e with
          reorder_queue := map_assign e.reorder_queue count sdu
          st := { e.st with rx_next := (count + 1) % 2 ^ 32 } }
      else { e with reorder_queue := map_assign e.reorder_queue count sdu }) ∧
      (if count ≥ e.st.rx_next then
        { e with
          reorder_queue := map_assign e.reorder_queue count sdu
          st := { e.st with rx_next := (count + 1) % 2 ^ 32 } }
      else { e with reorder_queue := map_assign e.reorder_queue count sdu }
        ).reordering_timer_running = e.reordering_timer_running := by
    have hm : (count + 1) % 2 ^ 32 = count + 1 := Nat.mod_eq_of_lt (by omega)
    have hs := map_assign_sorted e.reorder_queue count sdu h.core.sorted
    have hb := h.core.keys_bounds
    split_ifs with hn
    · refine ⟨⟨hs, ?_, ?_, ?_, h.core.dn_sorted, h.core.dn_lt⟩, rfl⟩
      · intro k hk
        simp only [hm]
        rcases (mem_keys_of_map_assign _ _ _ _).1 hk with rfl | hk
        · exact ⟨hge, Nat.lt_succ_self _⟩
        · have := hb k hk
          exact ⟨this.1, by omega⟩
      · simp only [hm]; omega
      · simp only [hm]; omega
    · refine ⟨⟨hs, ?_, h.core.deliv_le, h.core.next_lt, h.core.dn_sorted, h.core.dn_lt⟩, rfl⟩
      intro k hk
      rcases (mem_keys_of_map_assign _ _ _ _).1 hk with rfl | hk
      · exact ⟨hge, by simp only; omega⟩
      · exact hb k hk
  unfold store_and_deliver
  simp only
  generalize (if count ≥ e.st.rx_next then
        ({ e with
          reorder_queue := map_assign e.reorder_queue count sdu
          st := { e.st with rx_next := (count + 1) % 2 ^ 32 } } : pdcp_entity_rx)
      else { e with reorder_queue := map_assign e.reorder_queue count sdu }) = e2 at h2 ⊢
  obtain ⟨h2c, h2t⟩ := h2
  have h3 : rx_inv_core (if count = e2.st.rx_deliv then deliver_all_consecutive_counts e2 else e2) ∧
      (if count = e2.st.rx_deliv then deliver_all_consecutive_counts e2 else e2
        ).reordering_timer_running = e.reordering_timer_running := by
    split_ifs
    · exact ⟨deliver_all_consecutive_counts_core e2 h2c, h2t⟩
    · exact ⟨h2c, h2t⟩
  generalize (if count = e2.st.rx_deliv then deliver_all_consecutive_counts e2 else e2) = e3
    at h3 ⊢
  exact timer_handling_inv cfg e3 h3.1 (fun hc => by rw [h3.2]; exact h.timer hc)

theorem rcvd_count_lt (s : pdcp_sn_size) (d sn : Nat) : rcvd_count s d sn < 2 ^ 32 :=
  Nat.mod_lt _ (by norm_num)

theorem handle_pdu_inv (cfg : pdcp_rx_config) (sec : security_engine) (e : pdcp_entity_rx)
    (pdu : byte_buffer) (h : rx_inv cfg e)
    (hw : (accepted_pdu cfg sec e pdu).all (fun a => a.1 != 2 ^ 32 - 1) = true) :
    rx_inv cfg (handle_pdu cfg sec e pdu) := by
  unfold handle_pdu
  unfold accepted_pdu at hw
  split
  · exact h
  · rename_i f hf
    rw [hf] at hw
    simp only at hw ⊢
    split_ifs at hw ⊢ with h1 h2 h3
    · exact ⟨rx_inv_core_congr h.core rfl rfl rfl rfl, h.reord, h.timer⟩
    · exact h
    · exact h
    · have hc := (parse_pdu_count cfg sec _ pdu f hf).2
      have hlt := rcvd_count_lt cfg.sn_size e.st.rx_deliv f.rcvd_sn
      rw [← hc] at hlt
      simp only [Option.all_some, bne_iff_ne, ne_eq] at hw
      exact store_and_deliver_inv cfg e _ _ h (by omega) (by omega)

theorem rx_inv_init (cfg : pdcp_rx_config) : rx_inv cfg pdcp_entity_rx.init := by
  refine ⟨⟨?_, ?_, ?_, ?_, ?_, ?_⟩, fun _ => rfl, fun _ => rfl⟩ <;>
    simp [pdcp_entity_rx.init, keys_of]

theorem run_inv (cfg : pdcp_rx_config) (sec : security_engine) (evs : List rx_event) :
    ∀ e : pdcp_entity_rx, rx_inv cfg e → no_count_wrap cfg sec e evs = true →
      rx_inv cfg (run cfg sec e evs) := by
  induction evs with
  | nil => intro e h _; exact h
  | cons ev evs ih =>
    intro e h hw
    simp only [no_count_wrap, Bool.and_eq_true] at hw
    have hstep : rx_inv cfg (step cfg sec e ev) := by
      cases ev with
      | pdu p => exact handle_pdu_inv cfg sec e p h hw.1
      | t_reordering_expiry => exact reordering_callback_inv cfg e h
    exact ih _ hstep hw.2

/-- C1 (fails as stated): with t-Reordering of 0 ms and 12-bit SN, the PDUs
SN = 0, SN = 4095, SN = 0 are delivered as COUNT 0 and COUNT 0 again; the second
PDU is counted as COUNT 2^32 - 1, RX_NEXT wraps to 0 and the synchronous expiry
moves RX_DELIV back to 0. -/
theorem delivered_counts_repeat_after_wrap :
    delivered_counts (run (drb12 (.ms 0)) test_engine .init
      [.pdu (pdu12 0 1), .pdu (pdu12 4095 2), .pdu (pdu12 0 3)]) = [0, 0] ∧
    ¬ (delivered_counts (run (drb12 (.ms 0)) test_engine .init
      [.pdu (pdu12 0 1), .pdu (pdu12 4095 2), .pdu (pdu12 0 3)])).Pairwise (· < ·) := by
  decide

/-- C1 (amended): from the initial state, along every finite sequence of
`handle_pdu` calls and reordering-timer expiries in which no PDU is accepted
with RCVD_COUNT = 2^32 - 1, the COUNTs of the SDUs handed to `on_new_sdu` are
strictly ascending in delivery order, so no COUNT is delivered twice. -/
theorem delivered_counts_strictly_ascending (cfg : pdcp_rx_config) (sec : security_engine)
    (evs : List rx_event) (hw : no_count_wrap cfg sec .init evs = true) :
    (delivered_counts (run cfg sec .init evs)).Pairwise (· < ·) ∧
      (delivered_counts (run cfg sec .init evs)).Nodup := by
  have h := (run_inv cfg sec evs .init (rx_inv_init cfg) hw).core.dn_sorted
  exact ⟨h, h.imp (fun hab => Nat.ne_of_lt hab)⟩

/-- Witness of C1 (amended): SN 0, SN 2, expiry of t-Reordering, the late SN 1
and SN 3 are delivered as COUNTs 0, 2, 3. -/
theorem delivered_counts_strictly_ascending_witness :
    delivered_counts (run (drb12 (.ms 10)) test_engine .init
      [.pdu (pdu12 0 10), .pdu (pdu12 2 12), .t_reordering_expiry, .pdu (pdu12 1 11),
        .pdu (pdu12 3 13)]) = [0, 2, 3] ∧
    (delivered_counts (run (drb12 (.ms 10)) test_engine .init
      [.pdu (pdu12 0 10), .pdu (pdu12 2 12), .t_reordering_expiry, .pdu (pdu12 1 11),
        .pdu (pdu12 3 13)])).Pairwise (· < ·) :=
  ⟨by decide, (delivered_counts_strictly_ascending (drb12 (.ms 10)) test_engine
    [.pdu (pdu12 0 10), .pdu (pdu12 2 12), .t_reordering_expiry, .pdu (pdu12 1 11),
      .pdu (pdu12 3 13)] (by decide)).1⟩

/-- C3 (fails as stated): with 12-bit SN, after SN = 0 and SN = 4095 the second
PDU has been stored under COUNT 2^32 - 1 and RX_NEXT has wrapped to 0 while
RX_DELIV is 1. -/
theorem rx_next_wraps_below_rx_deliv :
    (run (drb12 (.ms 10)) test_engine .init
      [.pdu (pdu12 0 1), .pdu (pdu12 4095 2)]).st.rx_deliv = 1 ∧
    (run (drb12 (.ms 10)) test_engine .init
      [.pdu (pdu12 0 1), .pdu (pdu12 4095 2)]).st.rx_next = 0 ∧
    ¬ (run (drb12 (.ms 10)) test_engine .init
      [.pdu (pdu12 0 1), .pdu (pdu12 4095 2)]).st.rx_deliv ≤
      (run (drb12 (.ms 10)) test_engine .init
        [.pdu (pdu12 0 1), .pdu (pdu12 4095 2)]).st.rx_next := by
  decide

/-- C3 (amended): RX_DELIV <= RX_NEXT holds, on the stored 32-bit values, in
every state reached from the initial state by a sequence of `handle_pdu` calls
and timer expiries in which no PDU is accepted with RCVD_COUNT = 2^32 - 1, for
every SN width and every t-Reordering configuration. -/
theorem rx_deliv_le_rx_next (cfg : pdcp_rx_config) (sec : security_engine)
    (evs : List rx_event) (hw : no_count_wrap cfg sec .init evs = true) :
    (run cfg sec .init evs).st.rx_deliv ≤ (run cfg sec .init evs).st.rx_next ∧
      (run cfg sec .init evs).st.rx_next < 2 ^ 32 :=
  ⟨(run_inv cfg sec evs .init (rx_inv_init cfg) hw).core.deliv_le,
    (run_inv cfg sec evs .init (rx_inv_init cfg) hw).core.next_lt⟩

/-- Witness of C3 (amended): 18-bit SN, a gap and the expiry of t-Reordering. -/
theorem rx_deliv_le_rx_next_witness :
    (run { drb12 (.ms 10) with sn_size := .size18bits } test_engine .init
      [.pdu [0x80, 0, 0, 7], .pdu [0x80, 0, 5, 8], .t_reordering_expiry]).st.rx_deliv ≤
    (run { drb12 (.ms 10) with sn_size := .size18bits } test_engine .init
      [.pdu [0x80, 0, 0, 7], .pdu [0x80, 0, 5, 8], .t_reordering_expiry]).st.rx_next :=
  (rx_deliv_le_rx_next { drb12 (.ms 10) with sn_size := .size18bits } test_engine
    [.pdu [0x80, 0, 0, 7], .pdu [0x80, 0, 5, 8], .t_reordering_expiry] (by decide)).1

/-! ## Integrity verification -/

theorem mac_equal_iff (mac mac_exp : sec_mac) :
    mac_equal mac mac_exp = true ↔ ∀ i, i < 4 → mac.getD i 0 = mac_exp.getD i 0 := by
  simp [mac_equal, List.all_eq_true]

/-- C20: `integrity_verify` returns true for every message, COUNT and received
tag when the integrity algorithm is NIA0; for NIA1, NIA2 and NIA3 it returns
true exactly when each of the four octets of the received tag equals the
corresponding octet of the tag computed by that algorithm over the message with
the key of the bearer type (RRC integrity key on a signalling bearer, user-plane
integrity key on a data bearer), the given COUNT, the bearer id lcid - 1 and the
direction. -/
theorem integrity_verify_spec (cfg : pdcp_rx_config) (sec : security_engine)
    (buf : byte_buffer) (count : Nat) (mac : sec_mac) :
    (cfg.sec_cfg.integ_algo = .nia0 → integrity_verify cfg sec buf count mac = true) ∧
    (cfg.sec_cfg.integ_algo = .nia1 →
      (integrity_verify cfg sec buf count mac = true ↔
        ∀ i, i < 4 → mac.getD i 0 =
          (sec.security_nia1
            (if cfg.rb_type = .srb then cfg.sec_cfg.k_128_rrc_int else cfg.sec_cfg.k_128_up_int)
            count ((cfg.lcid : Int) - 1) cfg.direction buf).getD i 0)) ∧
    (cfg.sec_cfg.integ_algo = .nia2 →
      (integrity_verify cfg sec buf count mac = true ↔
        ∀ i, i < 4 → mac.getD i 0 =
          (sec.security_nia2
            (if cfg.rb_type = .srb then cfg.sec_cfg.k_128_rrc_int else cfg.sec_cfg.k_128_up_int)
            count ((cfg.lcid : Int) - 1) cfg.direction buf).getD i 0)) ∧
    (cfg.sec_cfg.integ_algo = .nia3 →
      (integrity_verify cfg sec buf count mac = true ↔
        ∀ i, i < 4 → mac.getD i 0 =
          (sec.security_nia3
            (if cfg.rb_type = .srb then cfg.sec_cfg.k_128_rrc_int else cfg.sec_cfg.k_128_up_int)
            count ((cfg.lcid : Int) - 1) cfg.direction buf).getD i 0)) := by
  refine ⟨fun h => ?_, fun h => ?_, fun h => ?_, fun h => ?_⟩
  · simp [integrity_verify, h]
  · simp only [integrity_verify, h, is_srb, beq_iff_eq, ne_eq, reduceCtorEq, not_false_eq_true,
      if_true]
    exact mac_equal_iff _ _
  · simp only [integrity_verify, h, is_srb, beq_iff_eq, ne_eq, reduceCtorEq, not_false_eq_true,
      if_true]
    exact mac_equal_iff _ _
  · simp only [integrity_verify, h, is_srb, beq_iff_eq, ne_eq, reduceCtorEq, not_false_eq_true,
      if_true]
    exact mac_equal_iff _ _

/-- Witness of C20: on a signalling bearer with NIA1 the tag DE AD BE EF is
accepted and the tag DE AD BE 00 is not; with NIA0 any tag is accepted. -/
theorem integrity_verify_spec_witness :
    integrity_verify (bearer12 .srb (.ms 10) true false .nia0 .nea0) test_engine
      [0, 0, 0xaa] 0 [1, 2, 3, 4] = true ∧
    integrity_verify (bearer12 .srb (.ms 10) true false .nia1 .nea0) test_engine
      [0, 0, 0xaa] 0 [0xde, 0xad, 0xbe, 0xef] = true ∧
    ¬ integrity_verify (bearer12 .srb (.ms 10) true false .nia1 .nea0) test_engine
      [0, 0, 0xaa] 0 [0xde, 0xad, 0xbe, 0x00] = true :=
  ⟨(integrity_verify_spec (bearer12 .srb (.ms 10) true false .nia0 .nea0) test_engine
      [0, 0, 0xaa] 0 [1, 2, 3, 4]).1 rfl,
   ((integrity_verify_spec (bearer12 .srb (.ms 10) true false .nia1 .nea0) test_engine
      [0, 0, 0xaa] 0 [0xde, 0xad, 0xbe, 0xef]).2.1 rfl).2 (by decide),
   fun h => absurd (((integrity_verify_spec (bearer12 .srb (.ms 10) true false .nia1 .nea0)
      test_engine [0, 0, 0xaa] 0 [0xde, 0xad, 0xbe, 0x00]).2.1 rfl).1 h 3 (by decide))
      (by decide)⟩

/-! ## Window discrimination -/

theorem read_data_pdu_header_size18bits (b0 b1 b2 b3 : Nat) (rest : byte_buffer) :
    read_data_pdu_header .size18bits (b0 :: b1 :: b2 :: b3 :: rest) =
      some (b0 % 4 * 65536 + b1 % 256 * 256 + b2 % 256) := by
  have h0 : b0 &&& 0x03 = b0 % 4 := Nat.and_pow_two_sub_one_eq_mod b0 2
  have h1 : b1 &&& 0xff = b1 % 256 := Nat.and_pow_two_sub_one_eq_mod b1 8
  have h2 : b2 &&& 0xff = b2 % 256 := Nat.and_pow_two_sub_one_eq_mod b2 8
  have l2 : b2 % 256 < 2 ^ 8 := Nat.mod_lt _ (by norm_num)
  have l1 : b1 % 256 * 2 ^ 8 < 2 ^ 16 := by
    have : b1 % 256 < 256 := Nat.mod_lt _ (by norm_num)
    norm_num
    omega
  have e1 : (b0 % 4) * 2 ^ 16 ||| (b1 % 256) * 2 ^ 8 = 2 ^ 8 * (b0 % 4 * 2 ^ 8 + b1 % 256) := by
    rw [Nat.mul_comm (b0 % 4) (2 ^ 16), ← Nat.mul_add_lt_is_or l1 (b0 % 4)]
    ring
  simp only [read_data_pdu_header, hdr_len_bytes, List.length_cons]
  rw [if_neg (by omega), h0, h1, h2, Nat.shiftLeft_eq, Nat.shiftLeft_eq, e1,
    ← Nat.mul_add_lt_is_or l2]
  congr 1
  ring

theorem read_data_pdu_header_lt (s : pdcp_sn_size) (buf : byte_buffer) (sn : Nat)
    (h : read_data_pdu_header s buf = some sn) : sn < 2 ^ sn_bits s := by
  cases s with
  | size12bits =>
    match buf with
    | [] | [_] | [_, _] => simp [read_data_pdu_header, hdr_len_bytes] at h
    | b0 :: b1 :: b2 :: rest =>
      rw [read_data_pdu_header_size12bits] at h
      simp only [Option.some.injEq] at h
      simp only [sn_bits]
      omega
  | size18bits =>
    match buf with
    | [] | [_] | [_, _] | [_, _, _] => simp [read_data_pdu_header, hdr_len_bytes] at h
    | b0 :: b1 :: b2 :: b3 :: rest =>
      rw [read_data_pdu_header_size18bits] at h
      simp only [Option.some.injEq] at h
      simp only [sn_bits]
      omega

theorem rcvd_hfn_cases (s : pdcp_sn_size) (d sn : Nat) (hd : d < 2 ^ 32) :
    ((sn : Int) < (SN s d : Int) - (window_size s : Int) → rcvd_hfn s d sn = HFN s d + 1) ∧
    (sn ≥ SN s d + window_size s →
      rcvd_hfn s d sn = (HFN s d + 2 ^ 32 - 1) % 2 ^ 32 ∧
      (0 < HFN s d → rcvd_hfn s d sn = HFN s d - 1)) ∧
    (¬ (sn : Int) < (SN s d : Int) - (window_size s : Int) → ¬ sn ≥ SN s d + window_size s →
      rcvd_hfn s d sn = HFN s d) := by
  cases s <;>
  · simp only [rcvd_hfn, HFN, SN, window_size, sn_bits]
    norm_num
    refine ⟨fun h => ?_, fun h => ?_, fun h1 h2 => ?_⟩
    · rw [if_pos h]; omega
    · rw [if_neg (by omega), if_pos (by omega)]; omega
    · rw [if_neg (by omega), if_neg (by omega)]

theorem COUNT_fields (s : pdcp_sn_size) (hfn sn : Nat) (hsn : sn < 2 ^ sn_bits s) :
    COUNT s hfn sn < 2 ^ 32 ∧ SN s (COUNT s hfn sn) = sn ∧
      HFN s (COUNT s hfn sn) = hfn % 2 ^ (32 - sn_bits s) := by
  cases s <;>
  · simp only [COUNT, HFN, SN, sn_bits] at *
    norm_num at *
    omega

theorem rcvd_hfn_lt_iff (s : pdcp_sn_size) (d sn : Nat) (hd : d < 2 ^ 32)
    (hsn : sn < 2 ^ sn_bits s) :
    rcvd_hfn s d sn < 2 ^ (32 - sn_bits s) ↔
      (hfn_underflow s d sn = false ∧ hfn_overflow s d sn = false) := by
  cases s <;>
  · simp only [rcvd_hfn, hfn_underflow, hfn_overflow, HFN, SN, window_size, sn_bits] at *
    norm_num at *
    split_ifs <;> omega

theorem COUNT_exact (s : pdcp_sn_size) (hfn sn : Nat) (hsn : sn < 2 ^ sn_bits s)
    (hh : hfn < 2 ^ (32 - sn_bits s)) :
    COUNT s hfn sn = hfn * 2 ^ sn_bits s + sn ∧ HFN s (COUNT s hfn sn) = hfn := by
  cases s <;>
  · simp only [COUNT, HFN, sn_bits] at *
    norm_num at *
    omega

/-- C15 (fails as stated): with 12-bit SN (window 2048), at RX_DELIV = 0 the
PDU SN = 4095 takes the HFN(RX_DELIV) - 1 branch with HFN(RX_DELIV) = 0: the
computed RCVD_HFN is 2^32 - 1, not the integer HFN(RX_DELIV) - 1, and the high
20 bits of RCVD_COUNT = 2^32 - 1 hold 2^20 - 1, not RCVD_HFN.  At
RX_DELIV = 2^32 - 1 the PDU SN = 10 takes the HFN(RX_DELIV) + 1 branch:
RCVD_HFN = 2^20 does not fit the high 20 bits, RCVD_COUNT is 10 and its high
bits hold 0. -/
theorem window_discrimination_hfn_wraps :
    (4095 ≥ SN .size12bits 0 + window_size .size12bits ∧
      HFN .size12bits 0 = 0 ∧
      rcvd_hfn .size12bits 0 4095 = 4294967295 ∧
      (rcvd_hfn .size12bits 0 4095 : Int) ≠ (HFN .size12bits 0 : Int) - 1 ∧
      parse_pdu (drb12 (.ms 10)) test_engine 0 (pdu12 4095 2) =
        some { rcvd_sn := 4095, rcvd_count := 4294967295, sdu := pdu12 4095 2,
               mac := [0, 0, 0, 0] } ∧
      HFN .size12bits 4294967295 = 1048575 ∧
      HFN .size12bits 4294967295 ≠ rcvd_hfn .size12bits 0 4095) ∧
    ((10 : Int) < (SN .size12bits 4294967295 : Int) - (window_size .size12bits : Int) ∧
      rcvd_hfn .size12bits 4294967295 10 = HFN .size12bits 4294967295 + 1 ∧
      rcvd_hfn .size12bits 4294967295 10 = 1048576 ∧
      parse_pdu (drb12 (.ms 10)) test_engine 4294967295 (pdu12 10 2) =
        some { rcvd_sn := 10, rcvd_count := 10, sdu := pdu12 10 2, mac := [0, 0, 0, 0] } ∧
      HFN .size12bits 10 = 0 ∧
      HFN .size12bits 10 ≠ rcvd_hfn .size12bits 4294967295 10) := by
  decide

/-- C15 (amended): for every 32-bit RX_DELIV and every PDU whose header carries
the SN `sn` (always below 2^SN_width), with window = 2^(SN_width-1),
`handle_pdu` computes RCVD_HFN = HFN(RX_DELIV) + 1 if SN < SN(RX_DELIV) - window
(compared as signed integers), RCVD_HFN = HFN(RX_DELIV) - 1 in unsigned 32-bit
arithmetic if SN >= SN(RX_DELIV) + window (HFN(RX_DELIV) - 1 when
HFN(RX_DELIV) > 0, 2^32 - 1 when HFN(RX_DELIV) = 0), and RCVD_HFN = HFN(RX_DELIV)
otherwise.  RCVD_COUNT is the 32-bit value (RCVD_HFN * 2^SN_width + SN) mod 2^32:
its low SN_width bits are SN and its high 32 - SN_width bits are RCVD_HFN mod
2^(32 - SN_width).  RCVD_HFN fits the high bits, so that they hold RCVD_HFN
itself and RCVD_COUNT = RCVD_HFN * 2^SN_width + SN, exactly when the computation
neither underflows (the - 1 branch at HFN(RX_DELIV) = 0) nor overflows (the + 1
branch at the largest HFN). -/
theorem handle_pdu_window_discrimination (cfg : pdcp_rx_config) (sec : security_engine)
    (e : pdcp_entity_rx) (pdu : byte_buffer) (sn : Nat) (hd : e.st.rx_deliv < 2 ^ 32)
    (hhdr : read_data_pdu_header cfg.sn_size pdu = some sn) :
    sn < 2 ^ sn_bits cfg.sn_size ∧
    window_size cfg.sn_size = 2 ^ (sn_bits cfg.sn_size - 1) ∧
    ((sn : Int) < (SN cfg.sn_size e.st.rx_deliv : Int) - (window_size cfg.sn_size : Int) →
      rcvd_hfn cfg.sn_size e.st.rx_deliv sn = HFN cfg.sn_size e.st.rx_deliv + 1) ∧
    (sn ≥ SN cfg.sn_size e.st.rx_deliv + window_size cfg.sn_size →
      rcvd_hfn cfg.sn_size e.st.rx_deliv sn =
        (HFN cfg.sn_size e.st.rx_deliv + 2 ^ 32 - 1) % 2 ^ 32 ∧
      (0 < HFN cfg.sn_size e.st.rx_deliv →
        rcvd_hfn cfg.sn_size e.st.rx_deliv sn = HFN cfg.sn_size e.st.rx_deliv - 1) ∧
      (HFN cfg.sn_size e.st.rx_deliv = 0 →
        rcvd_hfn cfg.sn_size e.st.rx_deliv sn = 2 ^ 32 - 1)) ∧
    (¬ (sn : Int) < (SN cfg.sn_size e.st.rx_deliv : Int) - (window_size cfg.sn_size : Int) →
      ¬ sn ≥ SN cfg.sn_size e.st.rx_deliv + window_size cfg.sn_size →
      rcvd_hfn cfg.sn_size e.st.rx_deliv sn = HFN cfg.sn_size e.st.rx_deliv) ∧
    (rcvd_hfn cfg.sn_size e.st.rx_deliv sn < 2 ^ (32 - sn_bits cfg.sn_size) ↔
      (hfn_underflow cfg.sn_size e.st.rx_deliv sn = false ∧
        hfn_overflow cfg.sn_size e.st.rx_deliv sn = false)) ∧
    ∃ f, parse_pdu cfg sec e.st.rx_deliv pdu = some f ∧ f.rcvd_sn = sn ∧
      f.rcvd_count = COUNT cfg.sn_size (rcvd_hfn cfg.sn_size e.st.rx_deliv sn) sn ∧
      f.rcvd_count =
        (rcvd_hfn cfg.sn_size e.st.rx_deliv sn * 2 ^ sn_bits cfg.sn_size + sn) % 2 ^ 32 ∧
      f.rcvd_count < 2 ^ 32 ∧
      SN cfg.sn_size f.rcvd_count = sn ∧
      HFN cfg.sn_size f.rcvd_count =
        rcvd_hfn cfg.sn_size e.st.rx_deliv sn % 2 ^ (32 - sn_bits cfg.sn_size) ∧
      (rcvd_hfn cfg.sn_size e.st.rx_deliv sn < 2 ^ (32 - sn_bits cfg.sn_size) →
        f.rcvd_count = rcvd_hfn cfg.sn_size e.st.rx_deliv sn * 2 ^ sn_bits cfg.sn_size + sn ∧
        HFN cfg.sn_size f.rcvd_count = rcvd_hfn cfg.sn_size e.st.rx_deliv sn) := by
  have hsn := read_data_pdu_header_lt cfg.sn_size pdu sn hhdr
  have hlen : hdr_len_bytes cfg.sn_size < pdu.length := by
    by_contra hc
    rw [read_data_pdu_header_of_short cfg.sn_size pdu (by omega)] at hhdr
    exact absurd hhdr (by simp)
  obtain ⟨f, hf⟩ := parse_pdu_of_long cfg sec e.st.rx_deliv pdu hlen
  obtain ⟨h1, h2⟩ := parse_pdu_count cfg sec e.st.rx_deliv pdu f hf
  rw [hhdr] at h1
  simp only [Option.some.injEq] at h1
  rw [← h1] at h2
  obtain ⟨c1, c2, c3⟩ := rcvd_hfn_cases cfg.sn_size e.st.rx_deliv sn hd
  obtain ⟨k1, k2, k3⟩ := COUNT_fields cfg.sn_size (rcvd_hfn cfg.sn_size e.st.rx_deliv sn) sn hsn
  refine ⟨hsn, rfl, c1, fun hb => ⟨(c2 hb).1, (c2 hb).2, fun h0 => ?_⟩, c3,
    rcvd_hfn_lt_iff cfg.sn_size e.st.rx_deliv sn hd hsn,
    f, hf, h1.symm, ?_, ?_, ?_, ?_, ?_, fun hh => ?_⟩
  · rw [(c2 hb).1, h0]; norm_num
  · rw [h2]; rfl
  · rw [h2]; rfl
  · rw [h2]; exact k1
  · rw [h2]; exact k2
  · rw [h2]; exact k3
  · rw [h2]
    exact COUNT_exact cfg.sn_size _ sn hsn hh

/-- Witness of C15 (amended): 12-bit SN, RX_DELIV = 4000 and SN = 10 (next
HFN); the PDU is counted as COUNT 4106 = [HFN 1, SN 10]. -/
theorem handle_pdu_window_discrimination_witness :
    rcvd_hfn .size12bits 4000 10 = HFN .size12bits 4000 + 1 ∧
    ∃ f, parse_pdu (drb12 (.ms 10)) test_engine 4000 (pdu12 10 7) = some f ∧ f.rcvd_sn = 10 ∧
      f.rcvd_count = COUNT .size12bits (rcvd_hfn .size12bits 4000 10) 10 ∧
      f.rcvd_count = (rcvd_hfn .size12bits 4000 10 * 2 ^ 12 + 10) % 2 ^ 32 ∧
      f.rcvd_count < 2 ^ 32 ∧ SN .size12bits f.rcvd_count = 10 ∧
      HFN .size12bits f.rcvd_count = rcvd_hfn .size12bits 4000 10 % 2 ^ (32 - 12) ∧
      (rcvd_hfn .size12bits 4000 10 < 2 ^ (32 - 12) →
        f.rcvd_count = rcvd_hfn .size12bits 4000 10 * 2 ^ 12 + 10 ∧
        HFN .size12bits f.rcvd_count = rcvd_hfn .size12bits 4000 10) :=
  ⟨(handle_pdu_window_discrimination (drb12 (.ms 10)) test_engine
      { pdcp_entity_rx.init with st := { rx_next := 4000, rx_deliv := 4000, rx_reord := 4000 } }
      (pdu12 10 7) 10 (by decide) (by decide)).2.2.1 (by decide),
   (handle_pdu_window_discrimination (drb12 (.ms 10)) test_engine
      { pdcp_entity_rx.init with st := { rx_next := 4000, rx_deliv := 4000, rx_reord := 4000 } }
      (pdu12 10 7) 10 (by decide) (by decide)).2.2.2.2.2.2⟩

/-! ## Starts of the reordering timer -/

theorem handle_t_reordering_expire_timer (cfg : pdcp_rx_config) (e : pdcp_entity_rx) :
    (handle_t_reordering_expire cfg e).timer_runs = e.timer_runs ∨
      ((handle_t_reordering_expire cfg e).timer_runs = e.timer_runs + 1 ∧
        (handle_t_reordering_expire cfg e).st.rx_reord =
          (handle_t_reordering_expire cfg e).st.rx_next ∧
        (handle_t_reordering_expire cfg e).reordering_timer_running = true) := by
  unfold handle_t_reordering_expire
  simp only
  split_ifs
  · exact Or.inl rfl
  · exact Or.inr ⟨rfl, rfl, rfl⟩
  · exact Or.inl rfl

theorem store_and_deliver_timer (cfg : pdcp_rx_config) (e : pdcp_entity_rx) (count : Nat)
    (sdu : byte_buffer) :
    (store_and_deliver cfg e count sdu).timer_runs = e.timer_runs ∨
      ((store_and_deliver cfg e count sdu).timer_runs = e.timer_runs + 1 ∧
        (store_and_deliver cfg e count sdu).st.rx_reord =
          (store_and_deliver cfg e count sdu).st.rx_next ∧
        (store_and_deliver cfg e count sdu).reordering_timer_running = true) := by
  unfold store_and_deliver
  simp only
  split_ifs <;>
    first
    | exact Or.inl rfl
    | exact Or.inr ⟨rfl, rfl, rfl⟩
    | exact handle_t_reordering_expire_timer cfg _

theorem handle_pdu_timer (cfg : pdcp_rx_config) (sec : security_engine) (e : pdcp_entity_rx)
    (pdu : byte_buffer) :
    (handle_pdu cfg sec e pdu).timer_runs = e.timer_runs ∨
      ((handle_pdu cfg sec e pdu).timer_runs = e.timer_runs + 1 ∧
        (handle_pdu cfg sec e pdu).st.rx_reord = (handle_pdu cfg sec e pdu).st.rx_next ∧
        (handle_pdu cfg sec e pdu).reordering_timer_running = true) := by
  unfold handle_pdu
  split
  · exact Or.inl rfl
  · simp only
    split_ifs
    · exact Or.inl rfl
    · exact Or.inl rfl
    · exact Or.inl rfl
    · exact store_and_deliver_timer cfg e _ _

/-- C13: whenever `handle_pdu` or the expiry handler calls
`reordering_timer.run()` (the count of such calls changes across the
operation), it does so exactly once, and in the state it leaves RX_REORD
equals RX_NEXT and the timer is running; this holds for every pre-state and
every PDU. -/
theorem timer_start_sets_rx_reord_to_rx_next (cfg : pdcp_rx_config) (sec : security_engine)
    (e : pdcp_entity_rx) (pdu : byte_buffer) :
    ((handle_pdu cfg sec e pdu).timer_runs ≠ e.timer_runs →
      (handle_pdu cfg sec e pdu).timer_runs = e.timer_runs + 1 ∧
      (handle_pdu cfg sec e pdu).st.rx_reord = (handle_pdu cfg sec e pdu).st.rx_next ∧
      (handle_pdu cfg sec e pdu).reordering_timer_running = true) ∧
    ((handle_t_reordering_expire cfg e).timer_runs ≠ e.timer_runs →
      (handle_t_reordering_expire cfg e).timer_runs = e.timer_runs + 1 ∧
      (handle_t_reordering_expire cfg e).st.rx_reord =
        (handle_t_reordering_expire cfg e).st.rx_next ∧
      (handle_t_reordering_expire cfg e).reordering_timer_running = true) ∧
    ((reordering_callback cfg e).timer_runs ≠ e.timer_runs →
      (reordering_callback cfg e).timer_runs = e.timer_runs + 1 ∧
      (reordering_callback cfg e).st.rx_reord = (reordering_callback cfg e).st.rx_next ∧
      (reordering_callback cfg e).reordering_timer_running = true) := by
  refine ⟨fun h => ?_, fun h => ?_, fun h => ?_⟩
  · exact (handle_pdu_timer cfg sec e pdu).resolve_left h
  · exact (handle_t_reordering_expire_timer cfg e).resolve_left h
  · unfold reordering_callback at h ⊢
    split_ifs at h ⊢ with ht
    · exact (handle_t_reordering_expire_timer cfg _).resolve_left h
    · exact absurd rfl h

/-- Witness of C13: after SN 0, the PDU SN 2 starts the timer and leaves
RX_REORD = RX_NEXT = 3. -/
theorem timer_start_sets_rx_reord_to_rx_next_witness :
    (handle_pdu (drb12 (.ms 10)) test_engine
      (handle_pdu (drb12 (.ms 10)) test_engine .init (pdu12 0 10)) (pdu12 2 12)).st.rx_reord =
    (handle_pdu (drb12 (.ms 10)) test_engine
      (handle_pdu (drb12 (.ms 10)) test_engine .init (pdu12 0 10)) (pdu12 2 12)).st.rx_next :=
  ((timer_start_sets_rx_reord_to_rx_next (drb12 (.ms 10)) test_engine
    (handle_pdu (drb12 (.ms 10)) test_engine .init (pdu12 0 10)) (pdu12 2 12)).1
    (by decide)).2.1

/-! ## A gap closed by the expiry of t-Reordering -/

theorem rcvd_count_size12bits_zero : rcvd_count .size12bits 0 0 = 0 := by decide

theorem rcvd_count_size12bits_after_first (k : Nat) (h2 : 2 ≤ k) (hk : k ≤ 2048) :
    rcvd_count .size12bits 1 k = k := by
  simp only [rcvd_count, rcvd_hfn, COUNT, HFN, SN, window_size, sn_bits]
  norm_num
  rw [if_neg (by omega), if_neg (by omega)]
  omega

/-- C11: with 12-bit SN and a finite non-zero t-Reordering, from the initial
state, for every k with 2 <= k <= 2048, a PDU with SN 0 followed by a PDU with
SN k (both passing the integrity check, if enabled) delivers only COUNT 0
immediately and leaves COUNT k buffered with the timer running and
RX_REORD = k + 1; the expiry of the timer then delivers COUNT k, sets
RX_DELIV = k + 1, leaves the buffer empty and does not restart the timer. -/
theorem gap_then_timer_expiry (cfg : pdcp_rx_config) (sec : security_engine)
    (dur k : Nat) (p0 pk : byte_buffer) (f0 fk : rx_pdu_fields)
    (hsn : cfg.sn_size = .size12bits) (ht : cfg.t_reordering = .ms dur) (hdur : dur ≠ 0)
    (h2 : 2 ≤ k) (hk : k ≤ 2048)
    (hp0 : parse_pdu cfg sec 0 p0 = some f0) (hs0 : f0.rcvd_sn = 0)
    (hi0 : cfg.integrity_enabled = false ∨
      integrity_verify cfg sec f0.sdu f0.rcvd_count f0.mac = true)
    (hpk : parse_pdu cfg sec 1 pk = some fk) (hsk : fk.rcvd_sn = k)
    (hik : cfg.integrity_enabled = false ∨
      integrity_verify cfg sec fk.sdu fk.rcvd_count fk.mac = true) :
    run cfg sec .init [.pdu p0] =
      { st := { rx_next := 1, rx_deliv := 1, rx_reord := 1 }
        reorder_queue := []
        reordering_timer_running := false
        upper_dn := [(0, discard_data_header cfg.sn_size f0.sdu)]
        upper_cn := 0
        timer_runs := 0 } ∧
    run cfg sec .init [.pdu p0, .pdu pk] =
      { st := { rx_next := k + 1, rx_deliv := 1, rx_reord := k + 1 }
        reorder_queue := [(k, discard_data_header cfg.sn_size fk.sdu)]
        reordering_timer_running := true
        upper_dn := [(0, discard_data_header cfg.sn_size f0.sdu)]
        upper_cn := 0
        timer_runs := 1 } ∧
    run cfg sec .init [.pdu p0, .pdu pk, .t_reordering_expiry] =
      { st := { rx_next := k + 1, rx_deliv := k + 1, rx_reord := k + 1 }
        reorder_queue := []
        reordering_timer_running := false
        upper_dn := [(0, discard_data_header cfg.sn_size f0.sdu),
          (k, discard_data_header cfg.sn_size fk.sdu)]
        upper_cn := 0
        timer_runs := 1 } := by
  have hc0 : f0.rcvd_count = 0 := by
    rw [(parse_pdu_count cfg sec 0 p0 f0 hp0).2, hs0, hsn]
    exact rcvd_count_size12bits_zero
  have hck : fk.rcvd_count = k := by
    rw [(parse_pdu_count cfg sec 1 pk fk hpk).2, hsk, hsn]
    exact rcvd_count_size12bits_after_first k h2 hk
  have hv0 : (cfg.integrity_enabled &&
      !integrity_verify cfg sec f0.sdu f0.rcvd_count f0.mac) = false := by
    rcases hi0 with h | h <;> simp [h]
  have hvk : (cfg.integrity_enabled &&
      !integrity_verify cfg sec fk.sdu fk.rcvd_count fk.mac) = false := by
    rcases hik with h | h <;> simp [h]
  have hm : (k + 1) % 4294967296 = k + 1 := by omega
  have e1 : handle_pdu cfg sec .init p0 =
      { st := { rx_next := 1, rx_deliv := 1, rx_reord := 1 }
        reorder_queue := []
        reordering_timer_running := false
        upper_dn := [(0, discard_data_header cfg.sn_size f0.sdu)]
        upper_cn := 0
        timer_runs := 0 } := by
    have hp : parse_pdu cfg sec pdcp_entity_rx.init.st.rx_deliv p0 = some f0 := hp0
    simp only [handle_pdu, hp, hv0]
    simp [hc0, pdcp_entity_rx.init, map_contains, store_and_deliver, map_assign,
      deliver_all_consecutive_counts, deliver_consecutive_loop, ht, pdcp_t_reordering.ms0, hdur]
  have e2 : handle_pdu cfg sec
      { st := { rx_next := 1, rx_deliv := 1, rx_reord := 1 }
        reorder_queue := []
        reordering_timer_running := false
        upper_dn := [(0, discard_data_header cfg.sn_size f0.sdu)]
        upper_cn := 0
        timer_runs := 0 } pk =
      { st := { rx_next := k + 1, rx_deliv := 1, rx_reord := k + 1 }
        reorder_queue := [(k, discard_data_header cfg.sn_size fk.sdu)]
        reordering_timer_running := true
        upper_dn := [(0, discard_data_header cfg.sn_size f0.sdu)]
        upper_cn := 0
        timer_runs := 1 } := by
    simp only [handle_pdu, hpk, hvk]
    have hk1 : ¬ k < 1 := by omega
    have hk2 : ¬ k = 1 := by omega
    have hk3 : 1 ≤ k := by omega
    have hk4 : 1 < k + 1 := by omega
    simp [hck, map_contains, store_and_deliver, map_assign, ht, pdcp_t_reordering.ms0, hdur,
      hm, hk1, hk2, hk3, hk4]
  have e3 : reordering_callback cfg
      { st := { rx_next := k + 1, rx_deliv := 1, rx_reord := k + 1 }
        reorder_queue := [(k, discard_data_header cfg.sn_size fk.sdu)]
        reordering_timer_running := true
        upper_dn := [(0, discard_data_header cfg.sn_size f0.sdu)]
        upper_cn := 0
        timer_runs := 1 } =
      { st := { rx_next := k + 1, rx_deliv := k + 1, rx_reord := k + 1 }
        reorder_queue := []
        reordering_timer_running := false
        upper_dn := [(0, discard_data_header cfg.sn_size f0.sdu),
          (k, discard_data_header cfg.sn_size fk.sdu)]
        upper_cn := 0
        timer_runs := 1 } := by
    simp [reordering_callback, handle_t_reordering_expire, deliver_below_loop,
      deliver_all_consecutive_counts, deliver_consecutive_loop]
  refine ⟨?_, ?_, ?_⟩
  · simp only [run, List.foldl, step]
    exact e1
  · simp only [run, List.foldl, step]
    rw [e1, e2]
  · simp only [run, List.foldl, step]
    rw [e1, e2, e3]

/-- Witness of C11: k = 2; the expiry delivers COUNT 2 and RX_DELIV becomes
3. -/
theorem gap_then_timer_expiry_witness :
    run (drb12 (.ms 10)) test_engine .init
        [.pdu (pdu12 0 10), .pdu (pdu12 2 12), .t_reordering_expiry] =
      { st := { rx_next := 3, rx_deliv := 3, rx_reord := 3 }
        reorder_queue := []
        reordering_timer_running := false
        upper_dn := [(0, [10]), (2, [12])]
        upper_cn := 0
        timer_runs := 1 } :=
  (gap_then_timer_expiry (drb12 (.ms 10)) test_engine 10 2 (pdu12 0 10) (pdu12 2 12)
    { rcvd_sn := 0, rcvd_count := 0, sdu := [0x80, 0, 10], mac := [0, 0, 0, 0] }
    { rcvd_sn := 2, rcvd_count := 2, sdu := [0x80, 2, 12], mac := [0, 0, 0, 0] }
    rfl rfl (by decide) (by decide) (by decide) (by decide) rfl (Or.inl rfl) (by decide) rfl
    (Or.inl rfl)).2.2

/-! ## Accepted PDUs -/

theorem handle_pdu_of_accepted (cfg : pdcp_rx_config) (sec : security_engine)
    (e : pdcp_entity_rx) (pdu : byte_buffer) (c : Nat) (sdu : byte_buffer)
    (h : accepted_pdu cfg sec e pdu = some (c, sdu)) :
    handle_pdu cfg sec e pdu = store_and_deliver cfg e c sdu ∧ e.st.rx_deliv ≤ c ∧
      c < 2 ^ 32 ∧ map_contains e.reorder_queue c = false := by
  unfold accepted_pdu at h
  unfold handle_pdu
  split at h
  · exact absurd h (by simp)
  · rename_i f hf
    simp only at h ⊢
    split_ifs at h ⊢ with h1 h2 h3
    simp only [Option.some.injEq, Prod.mk.injEq] at h
    obtain ⟨hc, hs⟩ := h
    have hlt := rcvd_count_lt cfg.sn_size e.st.rx_deliv f.rcvd_sn
    rw [← (parse_pdu_count cfg sec _ pdu f hf).2, hc] at hlt
    subst hc hs
    exact ⟨rfl, by omega, hlt, by simpa using h3⟩

theorem handle_pdu_of_not_accepted (cfg : pdcp_rx_config) (sec : security_engine)
    (e : pdcp_entity_rx) (pdu : byte_buffer) (h : accepted_pdu cfg sec e pdu = none) :
    handle_pdu cfg sec e pdu = e ∨
      handle_pdu cfg sec e pdu = { e with upper_cn := e.upper_cn + 1 } := by
  unfold accepted_pdu at h
  unfold handle_pdu
  split at h
  · exact Or.inl rfl
  · rename_i f hf
    simp only at h ⊢
    split_ifs at h ⊢ with h1 h2 h3
    · exact Or.inr rfl
    · exact Or.inl rfl
    · exact Or.inl rfl

/-! ## Buffer keys are never below RX_DELIV -/

theorem deliver_consecutive_loop_keys (q : List (Nat × byte_buffer)) :
    ∀ (d : Nat) (out : List (Nat × byte_buffer)),
      (keys_of q).Pairwise (· < ·) → (∀ k ∈ keys_of q, d ≤ k) →
      (keys_of (deliver_consecutive_loop q d out).1).Pairwise (· < ·) ∧
      (∀ k ∈ keys_of (deliver_consecutive_loop q d out).1,
        (deliver_consecutive_loop q d out).2.1 ≤ k) := by
  induction q with
  | nil => intro d out _ _; simp [deliver_consecutive_loop, keys_of]
  | cons kv rest ih =>
    intro d out hs hb
    obtain ⟨k, sdu⟩ := kv
    simp only [keys_of, List.map_cons, List.pairwise_cons, List.mem_cons, forall_eq_or_imp]
      at hs hb
    unfold deliver_consecutive_loop
    split_ifs with h
    · refine ih _ _ hs.2 (fun a ha => ?_)
      have h1 := hs.1 a ha
      have h2 : (d + 1) % 2 ^ 32 ≤ d + 1 := Nat.mod_le _ _
      omega
    · refine ⟨?_, ?_⟩
      · simpa [keys_of] using hs
      · simpa [keys_of] using hb

theorem deliver_below_loop_keys (r : Nat) (q : List (Nat × byte_buffer)) :
    ∀ (out : List (Nat × byte_buffer)), (keys_of q).Pairwise (· < ·) →
      (keys_of (deliver_below_loop r q out).1).Pairwise (· < ·) ∧
      (∀ k ∈ keys_of (deliver_below_loop r q out).1, r ≤ k) := by
  induction q with
  | nil => intro out _; simp [deliver_below_loop, keys_of]
  | cons kv rest ih =>
    intro out hs
    obtain ⟨k, sdu⟩ := kv
    simp only [keys_of, List.map_cons, List.pairwise_cons] at hs
    unfold deliver_below_loop
    split_ifs with h
    · exact ih _ hs.2
    · refine ⟨?_, ?_⟩
      · simpa [keys_of] using hs
      · intro a ha
        simp only [keys_of, List.map_cons, List.mem_cons] at ha
        rcases ha with rfl | ha
        · omega
        · have := hs.1 a ha
          omega

theorem rx_keys_inv_congr {e e' : pdcp_entity_rx} (h : rx_keys_inv e)
    (hq : e'.reorder_queue = e.reorder_queue) (hd : e'.st.rx_deliv = e.st.rx_deliv) :
    rx_keys_inv e' := by
  obtain ⟨h1, h2⟩ := h
  constructor
  · rw [hq]; exact h1
  · rw [hq, hd]; exact h2

theorem deliver_all_consecutive_counts_keys (e : pdcp_entity_rx) (h : rx_keys_inv e) :
    rx_keys_inv (deliver_all_consecutive_counts e) := by
  obtain ⟨r1, r2⟩ := deliver_consecutive_loop_keys e.reorder_queue e.st.rx_deliv e.upper_dn
    h.sorted h.keys_ge
  exact ⟨r1, r2⟩

theorem handle_t_reordering_expire_keys (cfg : pdcp_rx_config) (e : pdcp_entity_rx)
    (h : rx_keys_inv e) : rx_keys_inv (handle_t_reordering_expire cfg e) := by
  obtain ⟨r1, r2⟩ := deliver_below_loop_keys e.st.rx_reord e.reorder_queue e.upper_dn h.sorted
  have h2 : rx_keys_inv
      { e with
        reorder_queue := (deliver_below_loop e.st.rx_reord e.reorder_queue e.upper_dn).1
        upper_dn := (deliver_below_loop e.st.rx_reord e.reorder_queue e.upper_dn).2
        st := { e.st with rx_deliv := e.st.rx_reord } } := ⟨r1, r2⟩
  have h3 := deliver_all_consecutive_counts_keys _ h2
  unfold handle_t_reordering_expire
  simp only
  split_ifs
  · exact h3
  · exact rx_keys_inv_congr h3 rfl rfl
  · exact h3

theorem reordering_callback_keys (cfg : pdcp_rx_config) (e : pdcp_entity_rx)
    (h : rx_keys_inv e) : rx_keys_inv (reordering_callback cfg e) := by
  unfold reordering_callback
  split_ifs
  · exact handle_t_reordering_expire_keys cfg _ (rx_keys_inv_congr h rfl rfl)
  · exact h

theorem store_and_deliver_keys (cfg : pdcp_rx_config) (e : pdcp_entity_rx) (count : Nat)
    (sdu : byte_buffer) (h : rx_keys_inv e) (hge : e.st.rx_deliv ≤ count) :
    rx_keys_inv (store_and_deliver cfg e count sdu) := by
  have h1 : rx_keys_inv { e with reorder_queue := map_assign e.reorder_queue count sdu } := by
    refine ⟨map_assign_sorted _ _ _ h.sorted, fun k hk => ?_⟩
    rcases (mem_keys_of_map_assign _ _ _ _).1 hk with rfl | hk
    · exact hge
    · exact h.keys_ge k hk
  unfold store_and_deliver
  simp only
  split_ifs <;>
    first
    | exact h1
    | exact rx_keys_inv_congr h1 rfl rfl
    | exact deliver_all_consecutive_counts_keys _ h1
    | exact deliver_all_consecutive_counts_keys _ (rx_keys_inv_congr h1 rfl rfl)
    | exact rx_keys_inv_congr (deliver_all_consecutive_counts_keys _ h1) rfl rfl
    | exact rx_keys_inv_congr
        (deliver_all_consecutive_counts_keys _ (rx_keys_inv_congr h1 rfl rfl)) rfl rfl
    | exact handle_t_reordering_expire_keys cfg _ (rx_keys_inv_congr h1 rfl rfl)
    | exact handle_t_reordering_expire_keys cfg _
        (rx_keys_inv_congr (deliver_all_consecutive_counts_keys _ h1) rfl rfl)

theorem handle_pdu_keys (cfg : pdcp_rx_config) (sec : security_engine) (e : pdcp_entity_rx)
    (pdu : byte_buffer) (h : rx_keys_inv e) : rx_keys_inv (handle_pdu cfg sec e pdu) := by
  cases ha : accepted_pdu cfg sec e pdu with
  | none =>
    rcases handle_pdu_of_not_accepted cfg sec e pdu ha with h1 | h1
    · rw [h1]; exact h
    · rw [h1]; exact rx_keys_inv_congr h rfl rfl
  | some a =>
    obtain ⟨c, sdu⟩ := a
    obtain ⟨h1, h2, _, _⟩ := handle_pdu_of_accepted cfg sec e pdu c sdu ha
    rw [h1]
    exact store_and_deliver_keys cfg e c sdu h h2

theorem run_keys (cfg : pdcp_rx_config) (sec : security_engine) (evs : List rx_event) :
    ∀ e : pdcp_entity_rx, rx_keys_inv e → rx_keys_inv (run cfg sec e evs) := by
  induction evs with
  | nil => intro e h; exact h
  | cons ev evs ih =>
    intro e h
    have hstep : rx_keys_inv (step cfg sec e ev) := by
      cases ev with
      | pdu p => exact handle_pdu_keys cfg sec e p h
      | t_reordering_expiry => exact reordering_callback_keys cfg e h
    exact ih _ hstep

/-- C14: in every state reachable from the initial state by `handle_pdu` calls
and timer expiries, every key of the reception buffer is a COUNT greater than
or equal to RX_DELIV, and the buffer is in strictly ascending key order. -/
theorem buffer_keys_ge_rx_deliv (cfg : pdcp_rx_config) (sec : security_engine)
    (evs : List rx_event) :
    (∀ k ∈ queue_keys (run cfg sec .init evs), (run cfg sec .init evs).st.rx_deliv ≤ k) ∧
      (queue_keys (run cfg sec .init evs)).Pairwise (· < ·) := by
  have h := run_keys cfg sec evs .init ⟨by simp [pdcp_entity_rx.init, keys_of],
    by simp [pdcp_entity_rx.init, keys_of]⟩
  exact ⟨h.keys_ge, h.sorted⟩

/-- Witness of C14: after SN 0, SN 3 and SN 2 the buffer holds COUNTs 2 and 3
and RX_DELIV is 1. -/
theorem buffer_keys_ge_rx_deliv_witness :
    queue_keys (run (drb12 (.ms 10)) test_engine .init
      [.pdu (pdu12 0 10), .pdu (pdu12 3 13), .pdu (pdu12 2 12)]) = [2, 3] ∧
    (run (drb12 (.ms 10)) test_engine .init
      [.pdu (pdu12 0 10), .pdu (pdu12 3 13), .pdu (pdu12 2 12)]).st.rx_deliv ≤ 2 :=
  ⟨by decide, (buffer_keys_ge_rx_deliv (drb12 (.ms 10)) test_engine
    [.pdu (pdu12 0 10), .pdu (pdu12 3 13), .pdu (pdu12 2 12)]).1 2 (by decide)⟩

/-! ## t-Reordering of 0 ms -/

theorem store_and_deliver_ms0 (cfg : pdcp_rx_config) (e : pdcp_entity_rx) (c : Nat)
    (sdu : byte_buffer) (h0 : cfg.t_reordering = pdcp_t_reordering.ms0) :
    ∃ e5, store_and_deliver cfg e c sdu = handle_t_reordering_expire cfg e5 := by
  unfold store_and_deliver
  simp only
  rw [if_pos (by rw [h0]; simp [pdcp_t_reordering.ms0]), if_pos h0]
  exact ⟨_, rfl⟩

theorem store_and_deliver_idle_ms0 (cfg : pdcp_rx_config) (e : pdcp_entity_rx) (c : Nat)
    (sdu : byte_buffer) (h0 : cfg.t_reordering = pdcp_t_reordering.ms0) (hi : rx_idle e)
    (hge : e.st.rx_deliv ≤ c) (hlt : c < 2 ^ 32 - 1) :
    store_and_deliver cfg e c sdu =
      { e with
        st := { rx_next := c + 1, rx_deliv := c + 1, rx_reord := c + 1 }
        reorder_queue := []
        upper_dn := e.upper_dn ++ [(c, sdu)] } := by
  obtain ⟨⟨nx, dl, ro⟩, q, t, dn, cn, tr⟩ := e
  obtain ⟨h1, h2, h3⟩ := hi
  simp only at h1 h2 h3 hge
  subst h1 h2 h3
  have hm : (c + 1) % 4294967296 = c + 1 := by omega
  have hinf : ¬ pdcp_t_reordering.ms0 = pdcp_t_reordering.infinity := by
    simp [pdcp_t_reordering.ms0]
  by_cases hc : c = dl
  · subst hc
    simp [store_and_deliver, map_assign, deliver_all_consecutive_counts,
      deliver_consecutive_loop, handle_t_reordering_expire, deliver_below_loop, h0, hinf, hm]
  · have hc1 : dl < c + 1 := by omega
    have hc2 : dl ≤ c := hge
    simp [store_and_deliver, map_assign, deliver_all_consecutive_counts,
      deliver_consecutive_loop, handle_t_reordering_expire, deliver_below_loop, h0, hinf, hm,
      hc, hc1, hc2]

theorem rx_idle_init : rx_idle pdcp_entity_rx.init := ⟨rfl, rfl, rfl⟩

theorem step_idle_ms0 (cfg : pdcp_rx_config) (sec : security_engine) (e : pdcp_entity_rx)
    (ev : rx_event) (h0 : cfg.t_reordering = pdcp_t_reordering.ms0) (hi : rx_idle e)
    (hw : no_count_wrap cfg sec e [ev] = true) : rx_idle (step cfg sec e ev) := by
  cases ev with
  | t_reordering_expiry =>
    simp only [step, reordering_callback, hi.2.2, Bool.false_eq_true, if_false]
    exact hi
  | pdu p =>
    simp only [step]
    cases ha : accepted_pdu cfg sec e p with
    | none =>
      rcases handle_pdu_of_not_accepted cfg sec e p ha with h1 | h1
      · rw [h1]; exact hi
      · rw [h1]; exact hi
    | some a =>
      obtain ⟨c, sdu⟩ := a
      obtain ⟨h1, h2, h3, _⟩ := handle_pdu_of_accepted cfg sec e p c sdu ha
      simp only [no_count_wrap, ha, Option.all_some, bne_iff_ne, ne_eq, Bool.and_true,
        decide_eq_true_eq] at hw
      rw [h1, store_and_deliver_idle_ms0 cfg e c sdu h0 hi h2 (by omega)]
      exact ⟨rfl, rfl, hi.2.2⟩

theorem run_idle_ms0 (cfg : pdcp_rx_config) (sec : security_engine)
    (h0 : cfg.t_reordering = pdcp_t_reordering.ms0) (evs : List rx_event) :
    ∀ e : pdcp_entity_rx, rx_idle e → no_count_wrap cfg sec e evs = true →
      rx_idle (run cfg sec e evs) := by
  induction evs with
  | nil => intro e h _; exact h
  | cons ev evs ih =>
    intro e h hw
    simp only [no_count_wrap, Bool.and_eq_true] at hw
    refine ih _ (step_idle_ms0 cfg sec e ev h0 h ?_) hw.2
    simp only [no_count_wrap, Bool.and_true]
    exact hw.1

/-- C12 (fails as stated): with t-Reordering of 0 ms and 12-bit SN, the single
PDU SN = 4095 received in the initial state is accepted with RCVD_COUNT =
2^32 - 1 but not delivered: it stays in the buffer and RX_DELIV = RX_NEXT = 0,
not RCVD_COUNT + 1. -/
theorem zero_t_reordering_wrap_not_delivered :
    accepted_pdu (drb12 (.ms 0)) test_engine .init (pdu12 4095 2) = some (4294967295, [2]) ∧
    handle_pdu (drb12 (.ms 0)) test_engine .init (pdu12 4095 2) =
      { pdcp_entity_rx.init with reorder_queue := [(4294967295, [2])] } := by
  decide

/-- C12 (amended): with t-Reordering of 0 ms, along every sequence of events
from the initial state in which no PDU is accepted with RCVD_COUNT = 2^32 - 1,
the buffer is empty and RX_DELIV = RX_NEXT after every event, and every PDU
accepted with RCVD_COUNT other than 2^32 - 1 is delivered within its own
`handle_pdu` call, after which the buffer is empty and
RX_DELIV = RX_NEXT = RCVD_COUNT + 1, whatever lower COUNTs are missing. -/
theorem zero_t_reordering_delivers_synchronously (cfg : pdcp_rx_config)
    (sec : security_engine) (evs : List rx_event) (p : byte_buffer)
    (h0 : cfg.t_reordering = pdcp_t_reordering.ms0)
    (hw : no_count_wrap cfg sec .init evs = true) :
    (run cfg sec .init evs).reorder_queue = [] ∧
    (run cfg sec .init evs).st.rx_deliv = (run cfg sec .init evs).st.rx_next ∧
    ∀ c sdu, accepted_pdu cfg sec (run cfg sec .init evs) p = some (c, sdu) → c ≠ 2 ^ 32 - 1 →
      (handle_pdu cfg sec (run cfg sec .init evs) p).upper_dn =
        (run cfg sec .init evs).upper_dn ++ [(c, sdu)] ∧
      (handle_pdu cfg sec (run cfg sec .init evs) p).reorder_queue = [] ∧
      (handle_pdu cfg sec (run cfg sec .init evs) p).st.rx_deliv = c + 1 ∧
      (handle_pdu cfg sec (run cfg sec .init evs) p).st.rx_next = c + 1 := by
  have hi := run_idle_ms0 cfg sec h0 evs .init rx_idle_init hw
  refine ⟨hi.1, hi.2.1, fun c sdu ha hc => ?_⟩
  obtain ⟨h1, h2, h3, _⟩ := handle_pdu_of_accepted cfg sec _ p c sdu ha
  rw [h1, store_and_deliver_idle_ms0 cfg _ c sdu h0 hi h2 (by omega)]
  exact ⟨rfl, rfl, rfl, rfl⟩

/-- Witness of C12 (amended): submitting only SN = 1 gives exactly one delivery
and RX_DELIV = 2. -/
theorem zero_t_reordering_delivers_synchronously_witness :
    (handle_pdu (drb12 (.ms 0)) test_engine (run (drb12 (.ms 0)) test_engine .init [])
      (pdu12 1 11)).upper_dn = (run (drb12 (.ms 0)) test_engine .init []).upper_dn ++ [(1, [11])] ∧
    (handle_pdu (drb12 (.ms 0)) test_engine (run (drb12 (.ms 0)) test_engine .init [])
      (pdu12 1 11)).reorder_queue = [] ∧
    (handle_pdu (drb12 (.ms 0)) test_engine (run (drb12 (.ms 0)) test_engine .init [])
      (pdu12 1 11)).st.rx_deliv = 1 + 1 ∧
    (handle_pdu (drb12 (.ms 0)) test_engine (run (drb12 (.ms 0)) test_engine .init [])
      (pdu12 1 11)).st.rx_next = 1 + 1 :=
  (zero_t_reordering_delivers_synchronously (drb12 (.ms 0)) test_engine [] (pdu12 1 11) rfl
    rfl).2.2 1 [11] (by decide) (by decide)

/-- C19 (fails as stated): with t-Reordering of 0 ms and 12-bit SN, after the
PDUs SN = 4095 and SN = 4094 the synchronous expiry run of the second PDU ends
with RX_DELIV = 0 below RX_NEXT = 2^32 - 1, which is the condition of the
internal-fault branch. -/
theorem zero_t_reordering_fault_reached :
    (run (drb12 (.ms 0)) test_engine .init
      [.pdu (pdu12 4095 1), .pdu (pdu12 4094 2)]).st.rx_deliv = 0 ∧
    (run (drb12 (.ms 0)) test_engine .init
      [.pdu (pdu12 4095 1), .pdu (pdu12 4094 2)]).st.rx_next = 4294967295 ∧
    ¬ (run (drb12 (.ms 0)) test_engine .init
      [.pdu (pdu12 4095 1), .pdu (pdu12 4094 2)]).st.rx_deliv ≥
      (run (drb12 (.ms 0)) test_engine .init
        [.pdu (pdu12 4095 1), .pdu (pdu12 4094 2)]).st.rx_next := by
  decide

/-- C19 (amended): with t-Reordering of 0 ms, along every sequence of events
from the initial state in which no PDU is accepted with RCVD_COUNT = 2^32 - 1,
RX_DELIV >= RX_NEXT holds after every event, and for every further PDU accepted
with RCVD_COUNT other than 2^32 - 1 the state `handle_pdu` returns is the state
in which the synchronous expiry handler ends, with RX_DELIV >= RX_NEXT: the
internal-fault branch is not taken. -/
theorem zero_t_reordering_no_fault (cfg : pdcp_rx_config) (sec : security_engine)
    (evs : List rx_event) (p : byte_buffer)
    (h0 : cfg.t_reordering = pdcp_t_reordering.ms0)
    (hw : no_count_wrap cfg sec .init evs = true) :
    (run cfg sec .init evs).st.rx_deliv ≥ (run cfg sec .init evs).st.rx_next ∧
    ∀ c sdu, accepted_pdu cfg sec (run cfg sec .init evs) p = some (c, sdu) → c ≠ 2 ^ 32 - 1 →
      ∃ e5, handle_pdu cfg sec (run cfg sec .init evs) p = handle_t_reordering_expire cfg e5 ∧
        (handle_t_reordering_expire cfg e5).st.rx_deliv ≥
          (handle_t_reordering_expire cfg e5).st.rx_next := by
  have hi := run_idle_ms0 cfg sec h0 evs .init rx_idle_init hw
  refine ⟨le_of_eq hi.2.1.symm, fun c sdu ha hc => ?_⟩
  obtain ⟨h1, h2, h3, _⟩ := handle_pdu_of_accepted cfg sec _ p c sdu ha
  obtain ⟨e5, he5⟩ := store_and_deliver_ms0 cfg (run cfg sec .init evs) c sdu h0
  refine ⟨e5, h1.trans he5, ?_⟩
  rw [← he5, store_and_deliver_idle_ms0 cfg _ c sdu h0 hi h2 (by omega)]

/-- Witness of C19 (amended): SN 1, then SN 0 (stale), then SN 3. -/
theorem zero_t_reordering_no_fault_witness :
    (run (drb12 (.ms 0)) test_engine .init
      [.pdu (pdu12 1 11), .pdu (pdu12 0 10), .pdu (pdu12 3 13)]).st.rx_deliv ≥
    (run (drb12 (.ms 0)) test_engine .init
      [.pdu (pdu12 1 11), .pdu (pdu12 0 10), .pdu (pdu12 3 13)]).st.rx_next :=
  (zero_t_reordering_no_fault (drb12 (.ms 0)) test_engine
    [.pdu (pdu12 1 11), .pdu (pdu12 0 10), .pdu (pdu12 3 13)] [] rfl (by decide)).1

/-! ## Store and RX_NEXT update -/

theorem handle_t_reordering_expire_rx_next (cfg : pdcp_rx_config) (e : pdcp_entity_rx) :
    (handle_t_reordering_expire cfg e).st.rx_next = e.st.rx_next := by
  unfold handle_t_reordering_expire
  simp only
  split_ifs <;> rfl

theorem store_and_deliver_rx_next (cfg : pdcp_rx_config) (e : pdcp_entity_rx) (c : Nat)
    (sdu : byte_buffer) :
    (store_and_deliver cfg e c sdu).st.rx_next =
      if c ≥ e.st.rx_next then (c + 1) % 2 ^ 32 else e.st.rx_next := by
  unfold store_and_deliver
  simp only
  split_ifs <;>
    first
    | rfl
    | (rw [handle_t_reordering_expire_rx_next]; try rfl)

/-- C16 (fails as stated): with 12-bit SN, after SN = 0 (RX_NEXT = 1) the PDU
SN = 4095 passes all checks with RCVD_COUNT = 2^32 - 1 and `handle_pdu` leaves
RX_NEXT = 0, which is neither max(1, 2^32) nor max(1, 0). -/
theorem rx_next_not_max_after_wrap :
    (run (drb12 (.ms 10)) test_engine .init [.pdu (pdu12 0 1)]).st.rx_next = 1 ∧
    accepted_pdu (drb12 (.ms 10)) test_engine
      (run (drb12 (.ms 10)) test_engine .init [.pdu (pdu12 0 1)]) (pdu12 4095 2) =
        some (4294967295, [2]) ∧
    (handle_pdu (drb12 (.ms 10)) test_engine
      (run (drb12 (.ms 10)) test_engine .init [.pdu (pdu12 0 1)]) (pdu12 4095 2)).st.rx_next
        = 0 ∧
    max 1 (4294967295 + 1) ≠ 0 ∧ max 1 ((4294967295 + 1) % 2 ^ 32) ≠ 0 := by
  decide

/-- C16 (amended): for every state and every PDU that passes the length,
integrity and discard checks, `handle_pdu` stores the SDU in the reception
buffer under RCVD_COUNT (before the drain, so that afterwards it is either
buffered or delivered) and the resulting RX_NEXT is RCVD_COUNT + 1 modulo 2^32
if RCVD_COUNT >= old RX_NEXT and the old RX_NEXT otherwise; when RCVD_COUNT is
not 2^32 - 1 this is max(old RX_NEXT, RCVD_COUNT + 1). -/
theorem handle_pdu_store_and_rx_next (cfg : pdcp_rx_config) (sec : security_engine)
    (e : pdcp_entity_rx) (pdu : byte_buffer) (c : Nat) (sdu : byte_buffer)
    (ha : accepted_pdu cfg sec e pdu = some (c, sdu)) :
    handle_pdu cfg sec e pdu = store_and_deliver cfg e c sdu ∧
    (c, sdu) ∈ map_assign e.reorder_queue c sdu ∧
    (held_sdus (handle_pdu cfg sec e pdu)).Perm ((c, sdu) :: held_sdus e) ∧
    (handle_pdu cfg sec e pdu).st.rx_next =
      (if c ≥ e.st.rx_next then (c + 1) % 2 ^ 32 else e.st.rx_next) ∧
    (c ≠ 2 ^ 32 - 1 → (handle_pdu cfg sec e pdu).st.rx_next = max e.st.rx_next (c + 1)) := by
  obtain ⟨h1, h2, h3, h4⟩ := handle_pdu_of_accepted cfg sec e pdu c sdu ha
  have hmem : (c, sdu) ∈ map_assign e.reorder_queue c sdu :=
    (map_assign_perm e.reorder_queue c sdu h4).symm.subset (List.mem_cons_self _ _)
  have hnext := store_and_deliver_rx_next cfg e c sdu
  refine ⟨h1, hmem, ?_, ?_, fun hc => ?_⟩
  · rw [h1]; exact store_and_deliver_held cfg e c sdu h4
  · rw [h1]; exact hnext
  · rw [h1, hnext]
    have hm : (c + 1) % 2 ^ 32 = c + 1 := Nat.mod_eq_of_lt (by omega)
    split_ifs with hge
    · rw [hm]; omega
    · omega

/-- Witness of C16 (amended): after SN 0, the PDU SN 5 is stored under COUNT 5
and RX_NEXT becomes max(1, 6) = 6. -/
theorem handle_pdu_store_and_rx_next_witness :
    (handle_pdu (drb12 (.ms 10)) test_engine
      (run (drb12 (.ms 10)) test_engine .init [.pdu (pdu12 0 10)]) (pdu12 5 15)).st.rx_next =
      max (run (drb12 (.ms 10)) test_engine .init [.pdu (pdu12 0 10)]).st.rx_next (5 + 1) :=
  (handle_pdu_store_and_rx_next (drb12 (.ms 10)) test_engine
    (run (drb12 (.ms 10)) test_engine .init [.pdu (pdu12 0 10)]) (pdu12 5 15) 5 [15]
    (by decide)).2.2.2.2 (by decide)

/-! ## The consecutive drain -/

theorem deliver_consecutive_loop_run (q : List (Nat × byte_buffer)) :
    ∀ (d : Nat) (out : List (Nat × byte_buffer)),
      (keys_of q).Pairwise (· < ·) → (∀ k ∈ keys_of q, d ≤ k ∧ k < 2 ^ 32) → d < 2 ^ 32 →
      ∃ m, keys_of (q.take m) = List.range' d m ∧ d + m ∉ keys_of q ∧
        deliver_consecutive_loop q d out = (q.drop m, (d + m) % 2 ^ 32, out ++ q.take m) := by
  induction q with
  | nil =>
    intro d out _ _ hd
    have hmod : d % 4294967296 = d := by omega
    refine ⟨0, by simp [keys_of], by simp [keys_of], ?_⟩
    simp [deliver_consecutive_loop, hmod]
  | cons kv rest ih =>
    intro d out hs hb hd
    obtain ⟨k, sdu⟩ := kv
    simp only [keys_of, List.map_cons, List.pairwise_cons, List.mem_cons, forall_eq_or_imp]
      at hs hb
    by_cases hkd : k = d
    · subst hkd
      by_cases hw : k + 1 < 2 ^ 32
      · have hm : (k + 1) % 2 ^ 32 = k + 1 := Nat.mod_eq_of_lt hw
        have hrest : ∀ a ∈ keys_of rest, k + 1 ≤ a ∧ a < 2 ^ 32 :=
          fun a ha => ⟨hs.1 a ha, (hb.2 a ha).2⟩
        obtain ⟨m, h1, h2, h3⟩ := ih (k + 1) (out ++ [(k, sdu)]) hs.2 hrest hw
        refine ⟨m + 1, ?_, ?_, ?_⟩
        · simp only [keys_of, List.take_succ_cons, List.map_cons] at h1 ⊢
          rw [h1, List.range'_succ]
        · simp only [keys_of, List.map_cons, List.mem_cons, not_or]
          refine ⟨by omega, ?_⟩
          have : k + (m + 1) = k + 1 + m := by omega
          rw [this]
          exact h2
        · unfold deliver_consecutive_loop
          rw [if_pos rfl, hm, h3]
          have : k + (m + 1) = k + 1 + m := by omega
          simp [this]
      · have hnil : rest = [] := by
          cases rest with
          | nil => rfl
          | cons kv' rest' =>
            have h1 := hs.1 kv'.1 (by simp [keys_of])
            have h2 := (hb.2 kv'.1 (by simp [keys_of])).2
            omega
        subst hnil
        refine ⟨1, by simp [keys_of], ?_, ?_⟩
        · simp only [keys_of, List.map_cons, List.map_nil, List.mem_singleton]
          omega
        · simp [deliver_consecutive_loop]
    · refine ⟨0, by simp [keys_of], ?_, ?_⟩
      · simp only [keys_of, List.map_cons, List.mem_cons, not_or, Nat.add_zero]
        refine ⟨fun h => hkd h.symm, fun hmem => ?_⟩
        have := hs.1 d hmem
        omega
      · unfold deliver_consecutive_loop
        have hmod : d % 4294967296 = d := by omega
        rw [if_neg hkd]
        simp [hmod]

/-- C17 (fails as stated): in the state with RX_DELIV = 2^32 - 1 and the single
buffered COUNT 2^32 - 1 (the state in which `handle_pdu` calls the drain after
SN 4094, the expiry of t-Reordering and SN 4095 on a 12-bit bearer) the run of
consecutive keys has length 1 and the drain delivers it, but RX_DELIV becomes 0,
not RX_DELIV + 1 = 2^32. -/
theorem consecutive_drain_wraps_rx_deliv :
    deliver_all_consecutive_counts
        { pdcp_entity_rx.init with
          st := { rx_next := 0, rx_deliv := 4294967295, rx_reord := 4294967295 }
          reorder_queue := [(4294967295, [7])] } =
      { pdcp_entity_rx.init with
        st := { rx_next := 0, rx_deliv := 0, rx_reord := 4294967295 }
        reorder_queue := []
        upper_dn := [(4294967295, [7])] } ∧
    (0 : Nat) ≠ 4294967295 + 1 := by
  decide

/-- C17 (amended): for every state whose buffer (32-bit keys in ascending
order) has all keys >= RX_DELIV, `deliver_all_consecutive_counts` delivers
exactly the SDUs keyed RX_DELIV, RX_DELIV + 1, ..., RX_DELIV + m - 1 in that
order, where m is the length of the longest run of consecutive keys present
starting at RX_DELIV (m = 0 if RX_DELIV is not a key); it removes exactly those
entries, sets RX_DELIV to RX_DELIV + m modulo 2^32 (RX_DELIV + m itself unless
that is 2^32), and leaves RX_NEXT, RX_REORD, the timer and all other entries
unchanged. -/
theorem consecutive_drain_spec (e : pdcp_entity_rx)
    (hs : (queue_keys e).Pairwise (· < ·))
    (hb : ∀ k ∈ queue_keys e, e.st.rx_deliv ≤ k ∧ k < 2 ^ 32)
    (hd : e.st.rx_deliv < 2 ^ 32) :
    ∃ m, (∀ i, i < m → e.st.rx_deliv + i ∈ queue_keys e) ∧
      e.st.rx_deliv + m ∉ queue_keys e ∧
      (e.reorder_queue.take m).map Prod.fst = List.range' e.st.rx_deliv m ∧
      deliver_all_consecutive_counts e =
        { e with
          reorder_queue := e.reorder_queue.drop m
          upper_dn := e.upper_dn ++ e.reorder_queue.take m
          st := { e.st with rx_deliv := (e.st.rx_deliv + m) % 2 ^ 32 } } ∧
      (e.st.rx_deliv + m < 2 ^ 32 →
        (deliver_all_consecutive_counts e).st.rx_deliv = e.st.rx_deliv + m) := by
  obtain ⟨m, h1, h2, h3⟩ :=
    deliver_consecutive_loop_run e.reorder_queue e.st.rx_deliv e.upper_dn hs hb hd
  have heq : deliver_all_consecutive_counts e =
      { e with
        reorder_queue := e.reorder_queue.drop m
        upper_dn := e.upper_dn ++ e.reorder_queue.take m
        st := { e.st with rx_deliv := (e.st.rx_deliv + m) % 2 ^ 32 } } := by
    simp only [deliver_all_consecutive_counts, h3]
  refine ⟨m, fun i hi => ?_, h2, h1, heq, fun hlt => ?_⟩
  · have hmem : e.st.rx_deliv + i ∈ keys_of (e.reorder_queue.take m) := by
      rw [h1, List.mem_range'_1]
      omega
    simp only [keys_of, queue_keys, List.mem_map] at hmem ⊢
    obtain ⟨kv, hkv, hk⟩ := hmem
    exact ⟨kv, List.mem_of_mem_take hkv, hk⟩
  · rw [heq]
    exact Nat.mod_eq_of_lt hlt

/-- Witness of C17 (amended): RX_DELIV = 5 and buffered COUNTs 5, 6, 8: the
drain delivers 5 and 6, leaves 8 and sets RX_DELIV = 7. -/
theorem consecutive_drain_spec_witness :
    ∃ m, (∀ i, i < m → 5 + i ∈ [5, 6, 8]) ∧ 5 + m ∉ [5, 6, 8] ∧
      (([(5, [1]), (6, [2]), (8, [3])] : List (Nat × byte_buffer)).take m).map Prod.fst =
        List.range' 5 m ∧
      deliver_all_consecutive_counts
          { pdcp_entity_rx.init with
            st := { rx_next := 9, rx_deliv := 5, rx_reord := 9 }
            reorder_queue := [(5, [1]), (6, [2]), (8, [3])] } =
        { pdcp_entity_rx.init with
          reorder_queue := ([(5, [1]), (6, [2]), (8, [3])] : List (Nat × byte_buffer)).drop m
          upper_dn := [] ++ ([(5, [1]), (6, [2]), (8, [3])] : List (Nat × byte_buffer)).take m
          st := { rx_next := 9, rx_deliv := (5 + m) % 2 ^ 32, rx_reord := 9 } } ∧
      (5 + m < 2 ^ 32 →
        (deliver_all_consecutive_counts
          { pdcp_entity_rx.init with
            st := { rx_next := 9, rx_deliv := 5, rx_reord := 9 }
            reorder_queue := [(5, [1]), (6, [2]), (8, [3])] }).st.rx_deliv = 5 + m) :=
  consecutive_drain_spec
    { pdcp_entity_rx.init with
      st := { rx_next := 9, rx_deliv := 5, rx_reord := 9 }
      reorder_queue := [(5, [1]), (6, [2]), (8, [3])] }
    (by decide) (by decide) (by decide)

/-! ## The expiry handler -/

theorem deliver_below_loop_eq_filter (r : Nat) (q : List (Nat × byte_buffer)) :
    ∀ (out : List (Nat × byte_buffer)), (keys_of q).Pairwise (· < ·) →
      deliver_below_loop r q out =
        (q.filter (fun kv => decide (r ≤ kv.1)), out ++ q.filter (fun kv => decide (kv.1 < r))) := by
  induction q with
  | nil => intro out _; simp [deliver_below_loop]
  | cons kv rest ih =>
    intro out hs
    obtain ⟨k, sdu⟩ := kv
    simp only [keys_of, List.map_cons, List.pairwise_cons] at hs
    unfold deliver_below_loop
    split_ifs with h
    · rw [ih _ hs.2]
      have h1 : ¬ r ≤ k := by omega
      simp [h, h1]
    · have h1 : r ≤ k := by omega
      have hall : ∀ kv ∈ rest, r ≤ kv.1 := by
        intro kv hkv
        have := hs.1 kv.1 (List.mem_map_of_mem Prod.fst hkv)
        omega
      have hf1 : rest.filter (fun kv => decide (r ≤ kv.1)) = rest :=
        List.filter_eq_self.2 (fun kv hkv => by simpa using hall kv hkv)
      have hf2 : rest.filter (fun kv => decide (kv.1 < r)) = [] :=
        List.filter_eq_nil_iff.2 (fun kv hkv => by
          have := hall kv hkv
          simp only [decide_eq_true_eq]
          omega)
      simp [h, h1, hf1, hf2]

/-- C18: for every state (the buffer being in ascending key order),
`handle_t_reordering_expire` delivers, in ascending key order, every buffered
entry with key < RX_REORD and removes it, then sets RX_DELIV = RX_REORD and
performs the consecutive drain on the remaining entries (all those with key >=
RX_REORD); afterwards, if RX_DELIV < RX_NEXT and the configured duration is not
zero it sets RX_REORD = RX_NEXT and restarts the timer, and if the duration is
zero, or RX_DELIV >= RX_NEXT, it leaves RX_REORD and the timer as they are;
RX_NEXT is never modified. -/
theorem handle_t_reordering_expire_spec (cfg : pdcp_rx_config) (e : pdcp_entity_rx)
    (hs : (queue_keys e).Pairwise (· < ·)) :
    ∃ e3,
      e3 = deliver_all_consecutive_counts
        { e with
          reorder_queue := e.reorder_queue.filter (fun kv => decide (e.st.rx_reord ≤ kv.1))
          upper_dn := e.upper_dn ++ e.reorder_queue.filter (fun kv => decide (kv.1 < e.st.rx_reord))
          st := { e.st with rx_deliv := e.st.rx_reord } } ∧
      ((e.reorder_queue.filter (fun kv => decide (kv.1 < e.st.rx_reord))).map Prod.fst).Pairwise
        (· < ·) ∧
      e3.st.rx_next = e.st.rx_next ∧ e3.st.rx_reord = e.st.rx_reord ∧
      e3.reordering_timer_running = e.reordering_timer_running ∧
      e3.timer_runs = e.timer_runs ∧
      (e3.st.rx_deliv < e3.st.rx_next → cfg.t_reordering ≠ pdcp_t_reordering.ms0 →
        handle_t_reordering_expire cfg e =
          { e3 with
            st := { e3.st with rx_reord := e3.st.rx_next }
            reordering_timer_running := true
            timer_runs := e3.timer_runs + 1 }) ∧
      (e3.st.rx_deliv < e3.st.rx_next → cfg.t_reordering = pdcp_t_reordering.ms0 →
        handle_t_reordering_expire cfg e = e3) ∧
      (¬ e3.st.rx_deliv < e3.st.rx_next → handle_t_reordering_expire cfg e = e3) ∧
      (handle_t_reordering_expire cfg e).st.rx_next = e.st.rx_next := by
  have hf := deliver_below_loop_eq_filter e.st.rx_reord e.reorder_queue e.upper_dn hs
  have hsub : ((e.reorder_queue.filter (fun kv => decide (kv.1 < e.st.rx_reord))).map
      Prod.fst).Pairwise (· < ·) :=
    hs.sublist ((List.filter_sublist _).map Prod.fst)
  have hexp : handle_t_reordering_expire cfg e =
      (let e3 := deliver_all_consecutive_counts
        { e with
          reorder_queue := e.reorder_queue.filter (fun kv => decide (e.st.rx_reord ≤ kv.1))
          upper_dn := e.upper_dn ++ e.reorder_queue.filter (fun kv => decide (kv.1 < e.st.rx_reord))
          st := { e.st with rx_deliv := e.st.rx_reord } }
      if e3.st.rx_deliv < e3.st.rx_next then
        if cfg.t_reordering = pdcp_t_reordering.ms0 then e3
        else
          { e3 with
            st := { e3.st with rx_reord := e3.st.rx_next }
            reordering_timer_running := true
            timer_runs := e3.timer_runs + 1 }
      else e3) := by
    simp only [handle_t_reordering_expire, hf]
  refine ⟨_, rfl, hsub, rfl, rfl, rfl, rfl, fun h1 h2 => ?_, fun h1 h2 => ?_, fun h1 => ?_, ?_⟩
  · rw [hexp]; simp only [h1, h2, if_true, if_false]
  · rw [hexp]; simp only [h1, h2, if_true]
  · rw [hexp]; simp only [h1, if_false]
  · exact handle_t_reordering_expire_rx_next cfg e

/-- Witness of C18: RX_REORD = 4 with COUNTs 2, 3, 4 and 6 buffered and
RX_NEXT = 7: the expiry delivers 2 and 3, then 4 by the drain, leaves 6, sets
RX_DELIV = 5, RX_REORD = 7 and restarts the timer. -/
theorem handle_t_reordering_expire_spec_witness :
    handle_t_reordering_expire (drb12 (.ms 10))
        { pdcp_entity_rx.init with
          st := { rx_next := 7, rx_deliv := 1, rx_reord := 4 }
          reorder_queue := [(2, [12]), (3, [13]), (4, [14]), (6, [16])] } =
      { pdcp_entity_rx.init with
        st := { rx_next := 7, rx_deliv := 5, rx_reord := 7 }
        reorder_queue := [(6, [16])]
        upper_dn := [(2, [12]), (3, [13]), (4, [14])]
        reordering_timer_running := true
        timer_runs := 1 } := by
  obtain ⟨e3, he3, _, _, _, _, _, h, _⟩ := handle_t_reordering_expire_spec (drb12 (.ms 10))
    { pdcp_entity_rx.init with
      st := { rx_next := 7, rx_deliv := 1, rx_reord := 4 }
      reorder_queue := [(2, [12]), (3, [13]), (4, [14]), (6, [16])] } (by decide)
  have hv : e3 = { pdcp_entity_rx.init with
      st := { rx_next := 7, rx_deliv := 5, rx_reord := 4 }
      reorder_queue := [(6, [16])]
      upper_dn := [(2, [12]), (3, [13]), (4, [14])] } := by
    rw [he3]; decide
  subst hv
  exact h (by decide) (by decide)

/-! ## Integrity failure on a stale or duplicate PDU -/

/-- C29: with integrity enabled, a PDU longer than the header whose RCVD_COUNT
is stale (below RX_DELIV) or already buffered and whose tag verification fails
is not dropped silently: `handle_pdu` notifies the integrity failure exactly
once and leaves RX_NEXT, RX_DELIV, RX_REORD, the buffer, the timer and the
delivered SDUs unchanged, because the verification comes before the discard
checks. -/
theorem handle_pdu_integrity_failure_before_discard (cfg : pdcp_rx_config)
    (sec : security_engine) (e : pdcp_entity_rx) (pdu : byte_buffer)
    (hlen : hdr_len_bytes cfg.sn_size < pdu.length)
    (hen : cfg.integrity_enabled = true) :
    ∃ f, parse_pdu cfg sec e.st.rx_deliv pdu = some f ∧
      ((f.rcvd_count < e.st.rx_deliv ∨ f.rcvd_count ∈ queue_keys e) →
        integrity_verify cfg sec f.sdu f.rcvd_count f.mac = false →
        handle_pdu cfg sec e pdu = { e with upper_cn := e.upper_cn + 1 } ∧
        (handle_pdu cfg sec e pdu).upper_cn = e.upper_cn + 1 ∧
        accepted_pdu cfg sec e pdu = none) := by
  obtain ⟨f, hf⟩ := parse_pdu_of_long cfg sec e.st.rx_deliv pdu hlen
  refine ⟨f, hf, fun _ hv => ?_⟩
  have h1 : handle_pdu cfg sec e pdu = { e with upper_cn := e.upper_cn + 1 } := by
    simp [handle_pdu, hf, hen, hv]
  refine ⟨h1, by rw [h1], ?_⟩
  simp [accepted_pdu, hf, hen, hv]

/-- Witness of C29: a data bearer with integrity enabled (NIA2, computed tag
DE AD BE EF) has delivered COUNT 0; the same SN arrives again with the tag
00 00 00 00 and is reported. -/
theorem handle_pdu_integrity_failure_before_discard_witness :
    handle_pdu (bearer12 .drb (.ms 10) true false .nia2 .nea0) test_engine
        { pdcp_entity_rx.init with st := { rx_next := 1, rx_deliv := 1, rx_reord := 1 } }
        [0x80, 0x00, 0xaa, 0, 0, 0, 0] =
      { pdcp_entity_rx.init with
        st := { rx_next := 1, rx_deliv := 1, rx_reord := 1 }
        upper_cn := 1 } := by
  obtain ⟨f, hf, h⟩ := handle_pdu_integrity_failure_before_discard
    (bearer12 .drb (.ms 10) true false .nia2 .nea0) test_engine
    { pdcp_entity_rx.init with st := { rx_next := 1, rx_deliv := 1, rx_reord := 1 } }
    [0x80, 0x00, 0xaa, 0, 0, 0, 0] (by decide) rfl
  have hp : parse_pdu (bearer12 .drb (.ms 10) true false .nia2 .nea0) test_engine 1
      [0x80, 0x00, 0xaa, 0, 0, 0, 0] =
      some { rcvd_sn := 0, rcvd_count := 0, sdu := [0x80, 0x00, 0xaa], mac := [0, 0, 0, 0] } := by
    decide
  rw [hp] at hf
  cases hf
  exact (h (Or.inl (by decide)) (by decide)).1

/-! ## Expiry with RX_REORD = RX_NEXT -/

theorem deliver_below_loop_all (r : Nat) (q : List (Nat × byte_buffer)) :
    ∀ (out : List (Nat × byte_buffer)), (∀ k ∈ keys_of q, k < r) →
      deliver_below_loop r q out = ([], out ++ q) := by
  induction q with
  | nil => intro out _; simp [deliver_below_loop]
  | cons kv rest ih =>
    intro out h
    obtain ⟨k, sdu⟩ := kv
    simp only [keys_of, List.map_cons, List.mem_cons, forall_eq_or_imp] at h
    unfold deliver_below_loop
    rw [if_pos h.1, ih _ h.2]
    simp

theorem handle_t_reordering_expire_all (cfg : pdcp_rx_config) (e : pdcp_entity_rx)
    (hr : e.st.rx_reord = e.st.rx_next) (hk : ∀ k ∈ queue_keys e, k < e.st.rx_next) :
    handle_t_reordering_expire cfg e =
      { e with
        reorder_queue := []
        upper_dn := e.upper_dn ++ e.reorder_queue
        st := { e.st with rx_deliv := e.st.rx_next } } := by
  have hl := deliver_below_loop_all e.st.rx_reord e.reorder_queue e.upper_dn
    (by rw [hr]; exact hk)
  rw [hr] at hl
  simp [handle_t_reordering_expire, hl, deliver_all_consecutive_counts,
    deliver_consecutive_loop, hr]

/-- C25: in every state with RX_REORD = RX_NEXT and every buffer key below
RX_NEXT, `handle_t_reordering_expire` delivers every buffered SDU in buffer
order, leaves the buffer empty with RX_DELIV = RX_NEXT, and neither restarts the
timer nor reaches the zero-duration fault branch: RX_REORD, the timer and the
number of `run()` calls are unchanged and RX_DELIV < RX_NEXT is false
afterwards. -/
theorem handle_t_reordering_expire_drains_all (cfg : pdcp_rx_config) (e : pdcp_entity_rx)
    (hr : e.st.rx_reord = e.st.rx_next) (hk : ∀ k ∈ queue_keys e, k < e.st.rx_next) :
    handle_t_reordering_expire cfg e =
      { e with
        reorder_queue := []
        upper_dn := e.upper_dn ++ e.reorder_queue
        st := { e.st with rx_deliv := e.st.rx_next } } ∧
    (handle_t_reordering_expire cfg e).reorder_queue = [] ∧
    (handle_t_reordering_expire cfg e).st.rx_deliv = (handle_t_reordering_expire cfg e).st.rx_next ∧
    ¬ (handle_t_reordering_expire cfg e).st.rx_deliv < (handle_t_reordering_expire cfg e).st.rx_next ∧
    (handle_t_reordering_expire cfg e).timer_runs = e.timer_runs ∧
    (handle_t_reordering_expire cfg e).reordering_timer_running = e.reordering_timer_running ∧
    (handle_t_reordering_expire cfg e).st.rx_reord = e.st.rx_reord := by
  have h := handle_t_reordering_expire_all cfg e hr hk
  rw [h]
  exact ⟨rfl, rfl, rfl, lt_irrefl _, rfl, rfl, rfl⟩

/-- Witness of C25: RX_REORD = RX_NEXT = 7 with COUNTs 2, 3 and 6 buffered. -/
theorem handle_t_reordering_expire_drains_all_witness :
    handle_t_reordering_expire (drb12 (.ms 10))
        { pdcp_entity_rx.init with
          st := { rx_next := 7, rx_deliv := 1, rx_reord := 7 }
          reorder_queue := [(2, [12]), (3, [13]), (6, [16])] } =
      { pdcp_entity_rx.init with
        st := { rx_next := 7, rx_deliv := 7, rx_reord := 7 }
        reorder_queue := []
        upper_dn := [(2, [12]), (3, [13]), (6, [16])] } :=
  (handle_t_reordering_expire_drains_all (drb12 (.ms 10))
    { pdcp_entity_rx.init with
      st := { rx_next := 7, rx_deliv := 1, rx_reord := 7 }
      reorder_queue := [(2, [12]), (3, [13]), (6, [16])] } rfl (by decide)).1

/-! ## RX_REORD follows RX_NEXT -/

theorem handle_t_reordering_expire_rx_reord (cfg : pdcp_rx_config) (e : pdcp_entity_rx)
    (hr : e.st.rx_reord = e.st.rx_next) :
    (handle_t_reordering_expire cfg e).st.rx_reord =
      (handle_t_reordering_expire cfg e).st.rx_next := by
  unfold handle_t_reordering_expire
  simp only
  split_ifs
  · exact hr
  · rfl
  · exact hr

theorem store_and_deliver_rx_reord (cfg : pdcp_rx_config) (e : pdcp_entity_rx) (c : Nat)
    (sdu : byte_buffer) (hfin : cfg.t_reordering ≠ .infinity) :
    (store_and_deliver cfg e c sdu).st.rx_reord = (store_and_deliver cfg e c sdu).st.rx_next := by
  unfold store_and_deliver
  simp only
  rw [if_pos hfin]
  split_ifs <;>
    first
    | rfl
    | exact handle_t_reordering_expire_rx_reord cfg _ rfl

theorem step_rx_reord (cfg : pdcp_rx_config) (sec : security_engine) (e : pdcp_entity_rx)
    (ev : rx_event) (hfin : cfg.t_reordering ≠ .infinity)
    (hr : e.st.rx_reord = e.st.rx_next) :
    (step cfg sec e ev).st.rx_reord = (step cfg sec e ev).st.rx_next := by
  cases ev with
  | t_reordering_expiry =>
    simp only [step, reordering_callback]
    split_ifs
    · exact handle_t_reordering_expire_rx_reord cfg _ hr
    · exact hr
  | pdu p =>
    simp only [step]
    cases ha : accepted_pdu cfg sec e p with
    | none =>
      rcases handle_pdu_of_not_accepted cfg sec e p ha with h1 | h1 <;> rw [h1] <;> exact hr
    | some a =>
      obtain ⟨c, sdu⟩ := a
      rw [(handle_pdu_of_accepted cfg sec e p c sdu ha).1]
      exact store_and_deliver_rx_reord cfg e c sdu hfin

theorem run_rx_reord (cfg : pdcp_rx_config) (sec : security_engine)
    (hfin : cfg.t_reordering ≠ .infinity) (evs : List rx_event) :
    ∀ e : pdcp_entity_rx, e.st.rx_reord = e.st.rx_next →
      (run cfg sec e evs).st.rx_reord = (run cfg sec e evs).st.rx_next := by
  induction evs with
  | nil => intro e h; exact h
  | cons ev evs ih => intro e h; exact ih _ (step_rx_reord cfg sec e ev hfin h)

/-- C24: with a finite t-Reordering (zero or non-zero), RX_REORD = RX_NEXT
holds in every state reached from the initial state after each completed
`handle_pdu` call or timer expiry, and every accepted PDU leaves
RX_REORD = RX_NEXT whatever the state it meets, also while the timer is already
running. -/
theorem rx_reord_eq_rx_next (cfg : pdcp_rx_config) (sec : security_engine)
    (evs : List rx_event) (hfin : cfg.t_reordering ≠ .infinity) :
    (run cfg sec .init evs).st.rx_reord = (run cfg sec .init evs).st.rx_next ∧
    ∀ (e : pdcp_entity_rx) (p : byte_buffer) (c : Nat) (sdu : byte_buffer),
      accepted_pdu cfg sec e p = some (c, sdu) →
      (handle_pdu cfg sec e p).st.rx_reord = (handle_pdu cfg sec e p).st.rx_next := by
  refine ⟨run_rx_reord cfg sec hfin evs .init rfl, fun e p c sdu ha => ?_⟩
  rw [(handle_pdu_of_accepted cfg sec e p c sdu ha).1]
  exact store_and_deliver_rx_reord cfg e c sdu hfin

/-- Witness of C24: SN 0, SN 2 (timer starts, RX_REORD = 3), then SN 5 while
the timer runs: RX_REORD = RX_NEXT = 6. -/
theorem rx_reord_eq_rx_next_witness :
    (run (drb12 (.ms 10)) test_engine .init
      [.pdu (pdu12 0 10), .pdu (pdu12 2 12), .pdu (pdu12 5 15)]).st.rx_reord = 6 ∧
    (run (drb12 (.ms 10)) test_engine .init
      [.pdu (pdu12 0 10), .pdu (pdu12 2 12), .pdu (pdu12 5 15)]).st.rx_reord =
    (run (drb12 (.ms 10)) test_engine .init
      [.pdu (pdu12 0 10), .pdu (pdu12 2 12), .pdu (pdu12 5 15)]).st.rx_next :=
  ⟨by decide, (rx_reord_eq_rx_next (drb12 (.ms 10)) test_engine
    [.pdu (pdu12 0 10), .pdu (pdu12 2 12), .pdu (pdu12 5 15)] (by decide)).1⟩

/-! ## Header parsing -/

theorem and_255_of_lt (b : Nat) (h : b < 256) : b &&& 0xff = b := by
  have : b &&& 0xff = b % 256 := Nat.and_pow_two_sub_one_eq_mod b 8
  rw [this]
  exact Nat.mod_eq_of_lt h

/-- C21: for every PDU longer than the header `read_data_pdu_header` succeeds;
for 12-bit SN it returns ((octet0 AND 0x0F) << 8) OR octet1 and for 18-bit SN
((octet0 AND 0x03) << 16) OR (octet1 << 8) OR octet2 (octets being values below
256); the result is below 2^SN_width and depends neither on the remaining high
bits of octet 0 nor on any later octet; for every PDU of length at most the
header length it fails. -/
theorem read_data_pdu_header_spec :
    (∀ (s : pdcp_sn_size) (buf : byte_buffer), hdr_len_bytes s < buf.length →
      ∃ sn, read_data_pdu_header s buf = some sn ∧ sn < 2 ^ sn_bits s) ∧
    (∀ (b0 b1 b2 : Nat) (rest : byte_buffer), b1 < 256 →
      read_data_pdu_header .size12bits (b0 :: b1 :: b2 :: rest) =
        some (((b0 &&& 0x0f) <<< 8) ||| b1)) ∧
    (∀ (b0 b1 b2 b3 : Nat) (rest : byte_buffer), b1 < 256 → b2 < 256 →
      read_data_pdu_header .size18bits (b0 :: b1 :: b2 :: b3 :: rest) =
        some ((((b0 &&& 0x03) <<< 16) ||| (b1 <<< 8)) ||| b2)) ∧
    (∀ (b0 c0 b1 b2 c2 : Nat) (rest rest' : byte_buffer), b0 &&& 0x0f = c0 &&& 0x0f →
      read_data_pdu_header .size12bits (b0 :: b1 :: b2 :: rest) =
        read_data_pdu_header .size12bits (c0 :: b1 :: c2 :: rest')) ∧
    (∀ (b0 c0 b1 b2 b3 c3 : Nat) (rest rest' : byte_buffer), b0 &&& 0x03 = c0 &&& 0x03 →
      read_data_pdu_header .size18bits (b0 :: b1 :: b2 :: b3 :: rest) =
        read_data_pdu_header .size18bits (c0 :: b1 :: b2 :: c3 :: rest')) ∧
    (∀ (s : pdcp_sn_size) (buf : byte_buffer), buf.length ≤ hdr_len_bytes s →
      read_data_pdu_header s buf = none) := by
  refine ⟨fun s buf h => ?_, fun b0 b1 b2 rest h1 => ?_, fun b0 b1 b2 b3 rest h1 h2 => ?_,
    fun b0 c0 b1 b2 c2 rest rest' h => ?_, fun b0 c0 b1 b2 b3 c3 rest rest' h => ?_,
    fun s buf h => read_data_pdu_header_of_short s buf h⟩
  · obtain ⟨sn, hsn⟩ := read_data_pdu_header_of_long s buf h
    exact ⟨sn, hsn, read_data_pdu_header_lt s buf sn hsn⟩
  · simp [read_data_pdu_header, hdr_len_bytes, and_255_of_lt b1 h1]
  · simp [read_data_pdu_header, hdr_len_bytes, and_255_of_lt b1 h1, and_255_of_lt b2 h2]
  · simp [read_data_pdu_header, hdr_len_bytes, h]
  · simp [read_data_pdu_header, hdr_len_bytes, h]

/-- Witness of C21: the 12-bit header 8A BC carries SN 0xABC whatever the high
bits of octet 0; a two-octet PDU is rejected. -/
theorem read_data_pdu_header_spec_witness :
    read_data_pdu_header .size12bits [0x8a, 0xbc, 0x01] = some 0xabc ∧
    read_data_pdu_header .size12bits [0x8a, 0xbc, 0x01] =
      read_data_pdu_header .size12bits [0x0a, 0xbc, 0xff, 0x02] ∧
    read_data_pdu_header .size18bits [0x82, 0x34, 0x56, 0x01] = some 0x23456 ∧
    read_data_pdu_header .size12bits [0x8a, 0xbc] = none :=
  ⟨(read_data_pdu_header_spec.2.1 0x8a 0xbc 0x01 [] (by decide)).trans (by decide),
   read_data_pdu_header_spec.2.2.2.1 0x8a 0x0a 0xbc 0x01 0xff [] [0x02] (by decide),
   (read_data_pdu_header_spec.2.2.1 0x82 0x34 0x56 0x01 [] (by decide) (by decide)).trans
     (by decide),
   read_data_pdu_header_spec.2.2.2.2.2 .size12bits [0x8a, 0xbc] (by decide)⟩

/-! ## Window bounds of RCVD_COUNT -/

theorem rcvd_count_window (s : pdcp_sn_size) (d sn : Nat) (hd : d < 2 ^ 32)
    (hsn : sn < 2 ^ sn_bits s)
    (hu : ¬ (sn ≥ SN s d + window_size s ∧ HFN s d = 0))
    (ho : ¬ ((sn : Int) < (SN s d : Int) - (window_size s : Int) ∧
      HFN s d = 2 ^ (32 - sn_bits s) - 1)) :
    (d : Int) - (window_size s : Int) ≤ (rcvd_count s d sn : Int) ∧
      rcvd_count s d sn < d + window_size s := by
  cases s <;>
  · simp only [rcvd_count, rcvd_hfn, COUNT, HFN, SN, window_size, sn_bits] at *
    norm_num at *
    split_ifs <;> omega

theorem no_wrap_of_window_inside (s : pdcp_sn_size) (d sn : Nat) (hsn : sn < 2 ^ sn_bits s)
    (hlo : window_size s ≤ d) (hhi : d + window_size s ≤ 2 ^ 32) :
    ¬ (sn ≥ SN s d + window_size s ∧ HFN s d = 0) ∧
    ¬ ((sn : Int) < (SN s d : Int) - (window_size s : Int) ∧
      HFN s d = 2 ^ (32 - sn_bits s) - 1) := by
  cases s <;>
  · simp only [HFN, SN, window_size, sn_bits] at *
    norm_num at *
    omega

/-- C23 (fails as stated): with 12-bit SN (window 2048) and RX_DELIV = 0, the
PDU SN = 4095 gets RCVD_COUNT = 2^32 - 1, which is not below RX_DELIV + window,
and it is accepted. -/
theorem rcvd_count_outside_window :
    rcvd_count .size12bits 0 4095 = 4294967295 ∧
    ¬ rcvd_count .size12bits 0 4095 < 0 + window_size .size12bits ∧
    accepted_pdu (drb12 (.ms 10)) test_engine .init (pdu12 4095 2) =
      some (4294967295, [2]) := by
  decide

/-- C23 (amended): for every 32-bit RX_DELIV and every received SN below
2^SN_width for which the RCVD_HFN computation neither underflows (the
HFN(RX_DELIV) - 1 branch taken with HFN(RX_DELIV) = 0) nor overflows (the
HFN(RX_DELIV) + 1 branch taken with the largest HFN), which is the case for
every SN when window <= RX_DELIV <= 2^32 - window, the RCVD_COUNT computed by
`handle_pdu` satisfies RX_DELIV - window <= RCVD_COUNT < RX_DELIV + window as
integers, with window = 2^(SN_width-1); in particular such a PDU is never
accepted with a COUNT at or beyond RX_DELIV + window. -/
theorem handle_pdu_rcvd_count_in_window (cfg : pdcp_rx_config) (sec : security_engine)
    (e : pdcp_entity_rx) (pdu : byte_buffer) (f : rx_pdu_fields)
    (hd : e.st.rx_deliv < 2 ^ 32)
    (hf : parse_pdu cfg sec e.st.rx_deliv pdu = some f) :
    f.rcvd_sn < 2 ^ sn_bits cfg.sn_size ∧
    window_size cfg.sn_size = 2 ^ (sn_bits cfg.sn_size - 1) ∧
    (¬ (f.rcvd_sn ≥ SN cfg.sn_size e.st.rx_deliv + window_size cfg.sn_size ∧
        HFN cfg.sn_size e.st.rx_deliv = 0) →
      ¬ ((f.rcvd_sn : Int) <
          (SN cfg.sn_size e.st.rx_deliv : Int) - (window_size cfg.sn_size : Int) ∧
        HFN cfg.sn_size e.st.rx_deliv = 2 ^ (32 - sn_bits cfg.sn_size) - 1) →
      ((e.st.rx_deliv : Int) - (window_size cfg.sn_size : Int) ≤ (f.rcvd_count : Int) ∧
        f.rcvd_count < e.st.rx_deliv + window_size cfg.sn_size) ∧
      ∀ c sdu, accepted_pdu cfg sec e pdu = some (c, sdu) →
        e.st.rx_deliv ≤ c ∧ c < e.st.rx_deliv + window_size cfg.sn_size) ∧
    (window_size cfg.sn_size ≤ e.st.rx_deliv →
      e.st.rx_deliv + window_size cfg.sn_size ≤ 2 ^ 32 →
      (e.st.rx_deliv : Int) - (window_size cfg.sn_size : Int) ≤ (f.rcvd_count : Int) ∧
        f.rcvd_count < e.st.rx_deliv + window_size cfg.sn_size) := by
  obtain ⟨h1, h2⟩ := parse_pdu_count cfg sec e.st.rx_deliv pdu f hf
  have hsn := read_data_pdu_header_lt cfg.sn_size pdu f.rcvd_sn h1
  refine ⟨hsn, rfl, fun hu ho => ?_, fun hlo hhi => ?_⟩
  · have hw := rcvd_count_window cfg.sn_size e.st.rx_deliv f.rcvd_sn hd hsn hu ho
    rw [← h2] at hw
    refine ⟨hw, fun c sdu ha => ?_⟩
    have hacc := handle_pdu_of_accepted cfg sec e pdu c sdu ha
    have hc : c = f.rcvd_count := by
      simp only [accepted_pdu, hf] at ha
      split_ifs at ha
      simp only [Option.some.injEq, Prod.mk.injEq] at ha
      exact ha.1.symm
    rw [hc]
    rw [hc] at hacc
    exact ⟨hacc.2.1, hw.2⟩
  · obtain ⟨hu, ho⟩ := no_wrap_of_window_inside cfg.sn_size e.st.rx_deliv f.rcvd_sn hsn hlo hhi
    have hw := rcvd_count_window cfg.sn_size e.st.rx_deliv f.rcvd_sn hd hsn hu ho
    rw [← h2] at hw
    exact hw

/-- Witness of C23 (amended): 12-bit SN, RX_DELIV = 4000 and SN = 10: RCVD_COUNT
is 4106, inside [1952, 6048). -/
theorem handle_pdu_rcvd_count_in_window_witness :
    ((4000 : Nat) : Int) - (window_size .size12bits : Int) ≤ ((4106 : Nat) : Int) ∧
      4106 < 4000 + window_size .size12bits :=
  (handle_pdu_rcvd_count_in_window (drb12 (.ms 10)) test_engine
    { pdcp_entity_rx.init with st := { rx_next := 4000, rx_deliv := 4000, rx_reord := 4000 } }
    (pdu12 10 7)
    { rcvd_sn := 10, rcvd_count := 4106, sdu := [0x80, 10, 7], mac := [0, 0, 0, 0] }
    (by decide) (by decide)).2.2.2 (by decide) (by decide)

/-! ## Tag and header stripping -/

/-- C22 (fails as stated): on a signalling bearer (tag extraction applies) with
12-bit SN, integrity and ciphering disabled, the three-octet PDU 00 00 AA is
longer than the header, but no tag is extracted from it (the buffer is not
longer than four octets): the tag stays 00 00 00 00 and the delivered payload
is AA, the PDU with only the header removed. -/
theorem short_pdu_tag_not_extracted :
    hdr_len_bytes (bearer12 .srb (.ms 10) false false .nia0 .nea0).sn_size <
      ([0x00, 0x00, 0xaa] : byte_buffer).length ∧
    is_srb (bearer12 .srb (.ms 10) false false .nia0 .nea0) = true ∧
    parse_pdu (bearer12 .srb (.ms 10) false false .nia0 .nea0) test_engine 0
        [0x00, 0x00, 0xaa] =
      some { rcvd_sn := 0, rcvd_count := 0, sdu := [0x00, 0x00, 0xaa], mac := [0, 0, 0, 0] } ∧
    (handle_pdu (bearer12 .srb (.ms 10) false false .nia0 .nea0) test_engine .init
      [0x00, 0x00, 0xaa]).upper_dn = [(0, [0xaa])] := by
  decide

/-- C22 (amended): let D be the PDU after deciphering (the PDU itself when
ciphering is disabled).  Where tag extraction applies (any signalling bearer, or
a data bearer with integrity enabled) and D holds at least the header and four
more octets, the extracted tag is the final four octets of D and the SDU stored
for delivery is D with exactly the header octets removed from the head and
exactly those four octets removed from the tail; where extraction applies and D
has at most four octets, nothing is extracted (the tag stays 00 00 00 00) and
only the header is removed; on a data bearer with integrity disabled the SDU is
D with only the header octets removed.  The SDU delivered for an accepted PDU is
this stored SDU. -/
theorem tag_and_header_stripping (cfg : pdcp_rx_config) (sec : security_engine)
    (e : pdcp_entity_rx) (pdu : byte_buffer) (f : rx_pdu_fields)
    (hf : parse_pdu cfg sec e.st.rx_deliv pdu = some f) :
    hdr_len_bytes cfg.sn_size < pdu.length ∧
    (cfg.ciphering_enabled = false → decipher_pdu cfg sec pdu f.rcvd_count = pdu) ∧
    ((is_srb cfg = true ∨ (is_drb cfg = true ∧ cfg.integrity_enabled = true)) →
      hdr_len_bytes cfg.sn_size + 4 ≤ (decipher_pdu cfg sec pdu f.rcvd_count).length →
      f.mac = (decipher_pdu cfg sec pdu f.rcvd_count).drop
        ((decipher_pdu cfg sec pdu f.rcvd_count).length - 4) ∧
      f.mac.length = 4 ∧
      decipher_pdu cfg sec pdu f.rcvd_count =
        (decipher_pdu cfg sec pdu f.rcvd_count).take (hdr_len_bytes cfg.sn_size) ++
          discard_data_header cfg.sn_size f.sdu ++ f.mac) ∧
    ((is_srb cfg = true ∨ (is_drb cfg = true ∧ cfg.integrity_enabled = true)) →
      (decipher_pdu cfg sec pdu f.rcvd_count).length ≤ 4 →
      f.mac = [0, 0, 0, 0] ∧
      discard_data_header cfg.sn_size f.sdu =
        (decipher_pdu cfg sec pdu f.rcvd_count).drop (hdr_len_bytes cfg.sn_size)) ∧
    (is_drb cfg = true → cfg.integrity_enabled = false →
      discard_data_header cfg.sn_size f.sdu =
        (decipher_pdu cfg sec pdu f.rcvd_count).drop (hdr_len_bytes cfg.sn_size)) ∧
    (∀ c sdu, accepted_pdu cfg sec e pdu = some (c, sdu) →
      sdu = discard_data_header cfg.sn_size f.sdu ∧
      (held_sdus (handle_pdu cfg sec e pdu)).Perm
        ((c, discard_data_header cfg.sn_size f.sdu) :: held_sdus e)) := by
  have hsm := parse_pdu_sdu_mac cfg sec e.st.rx_deliv pdu f hf
  have hlen : hdr_len_bytes cfg.sn_size < pdu.length := by
    by_contra hc
    rw [parse_pdu_of_short cfg sec e.st.rx_deliv pdu (by omega)] at hf
    exact absurd hf (by simp)
  have hhdr : 2 ≤ hdr_len_bytes cfg.sn_size ∧ hdr_len_bytes cfg.sn_size ≤ 3 := by
    cases cfg.sn_size <;> simp [hdr_len_bytes]
  refine ⟨hlen, fun hc => by simp [decipher_pdu, hc], fun hx hl => ?_, fun hx hl => ?_,
    fun h1 h2 => ?_, fun c sdu ha => ?_⟩
  · have hcond : (is_srb cfg || (is_drb cfg && cfg.integrity_enabled)) = true := by
      rcases hx with h | ⟨h1, h2⟩ <;> simp [*]
    rw [if_pos hcond, extract_mac_of_long _ _ (by simp only [sec_mac_len]; omega)] at hsm
    simp only [Prod.mk.injEq, sec_mac_len] at hsm
    obtain ⟨hs, hm⟩ := hsm
    refine ⟨hm, ?_, ?_⟩
    · rw [hm, List.length_drop]; omega
    · rw [hs, hm, discard_data_header]
      generalize decipher_pdu cfg sec pdu f.rcvd_count = D at hl ⊢
      have h1 : List.take (hdr_len_bytes cfg.sn_size) D =
          List.take (hdr_len_bytes cfg.sn_size) (List.take (D.length - 4) D) := by
        rw [List.take_take]
        congr 1
        omega
      rw [h1, List.take_append_drop, List.take_append_drop]
  · have hcond : (is_srb cfg || (is_drb cfg && cfg.integrity_enabled)) = true := by
      rcases hx with h | ⟨h1, h2⟩ <;> simp [*]
    rw [if_pos hcond, extract_mac_of_short _ _ (by simp only [sec_mac_len]; omega)] at hsm
    simp only [Prod.mk.injEq] at hsm
    exact ⟨hsm.2, by rw [hsm.1]; rfl⟩
  · have h3 : is_srb cfg = false := by
      simp only [is_drb, is_srb] at h1 ⊢
      cases hrt : cfg.rb_type <;> simp_all
    simp only [h1, h2, h3, Bool.and_false, Bool.or_false, Bool.false_eq_true, if_false,
      Prod.mk.injEq] at hsm
    rw [hsm.1]; rfl
  · obtain ⟨hh, _, _, hq⟩ := handle_pdu_of_accepted cfg sec e pdu c sdu ha
    have hs : sdu = discard_data_header cfg.sn_size f.sdu := by
      simp only [accepted_pdu, hf] at ha
      split_ifs at ha
      simp only [Option.some.injEq, Prod.mk.injEq] at ha
      exact ha.2.symm
    refine ⟨hs, ?_⟩
    rw [hh, ← hs]
    exact store_and_deliver_held cfg e c sdu hq

/-- Witness of C22 (amended): a signalling PDU 00 00 AA BB 01 02 03 04 with
integrity disabled: the tag is 01 02 03 04 and the stored SDU is AA BB. -/
theorem tag_and_header_stripping_witness :
    ([1, 2, 3, 4] : sec_mac) =
      (decipher_pdu (bearer12 .srb (.ms 10) false false .nia0 .nea0) test_engine
        [0x00, 0x00, 0xaa, 0xbb, 1, 2, 3, 4] 0).drop
        ((decipher_pdu (bearer12 .srb (.ms 10) false false .nia0 .nea0) test_engine
          [0x00, 0x00, 0xaa, 0xbb, 1, 2, 3, 4] 0).length - 4) ∧
    ([1, 2, 3, 4] : sec_mac).length = 4 ∧
    decipher_pdu (bearer12 .srb (.ms 10) false false .nia0 .nea0) test_engine
        [0x00, 0x00, 0xaa, 0xbb, 1, 2, 3, 4] 0 =
      (decipher_pdu (bearer12 .srb (.ms 10) false false .nia0 .nea0) test_engine
        [0x00, 0x00, 0xaa, 0xbb, 1, 2, 3, 4] 0).take 2 ++
        discard_data_header .size12bits [0x00, 0x00, 0xaa, 0xbb] ++ [1, 2, 3, 4] :=
  (tag_and_header_stripping (bearer12 .srb (.ms 10) false false .nia0 .nea0) test_engine .init
    [0x00, 0x00, 0xaa, 0xbb, 1, 2, 3, 4]
    { rcvd_sn := 0, rcvd_count := 0, sdu := [0x00, 0x00, 0xaa, 0xbb], mac := [1, 2, 3, 4] }
    (by decide)).2.2.1 (Or.inl rfl) (by decide)

/-! ## Tight invariant without counter wrap -/

theorem store_and_deliver_eq (cfg : pdcp_rx_config) (e : pdcp_entity_rx) (c : Nat)
    (sdu : byte_buffer) :
    store_and_deliver cfg e c sdu = handle_reordering_timer cfg (store_and_drain e c sdu) := rfl

theorem accepted_pdu_parse (cfg : pdcp_rx_config) (sec : security_engine) (e : pdcp_entity_rx)
    (pdu : byte_buffer) (c : Nat) (sdu : byte_buffer)
    (ha : accepted_pdu cfg sec e pdu = some (c, sdu)) :
    ∃ f, parse_pdu cfg sec e.st.rx_deliv pdu = some f ∧ f.rcvd_count = c ∧
      discard_data_header cfg.sn_size f.sdu = sdu := by
  unfold accepted_pdu at ha
  split at ha
  · exact absurd ha (by simp)
  · rename_i f hf
    split_ifs at ha
    simp only [Option.some.injEq, Prod.mk.injEq] at ha
    exact ⟨f, hf, ha.1, ha.2⟩

theorem no_count_wrap_of_no_hfn_wrap (cfg : pdcp_rx_config) (sec : security_engine)
    (evs : List rx_event) :
    ∀ e : pdcp_entity_rx, no_hfn_wrap cfg sec e evs = true → no_count_wrap cfg sec e evs = true := by
  induction evs with
  | nil => intro e _; rfl
  | cons ev evs ih =>
    intro e h
    simp only [no_hfn_wrap, Bool.and_eq_true] at h
    simp only [no_count_wrap, Bool.and_eq_true]
    refine ⟨?_, ih _ h.2⟩
    cases ev with
    | t_reordering_expiry => rfl
    | pdu p =>
      show (accepted_pdu cfg sec e p).all (fun a => a.1 != 2 ^ 32 - 1) = true
      have h1 : (parse_pdu cfg sec e.st.rx_deliv p).all (fun f =>
          !hfn_underflow cfg.sn_size e.st.rx_deliv f.rcvd_sn &&
          !hfn_overflow cfg.sn_size e.st.rx_deliv f.rcvd_sn &&
          f.rcvd_count != 2 ^ 32 - 1) = true := h.1
      cases ha : accepted_pdu cfg sec e p with
      | none => rfl
      | some a =>
        obtain ⟨c, sdu⟩ := a
        obtain ⟨f, hf, hc, _⟩ := accepted_pdu_parse cfg sec e p c sdu ha
        simp only [hf, Option.all_some, Bool.and_eq_true] at h1
        simp only [Option.all_some]
        rw [← hc]
        exact h1.2

theorem deliver_consecutive_loop_gt (q : List (Nat × byte_buffer)) :
    ∀ (d : Nat) (out : List (Nat × byte_buffer)),
      (keys_of q).Pairwise (· < ·) → (∀ k ∈ keys_of q, d ≤ k) →
      ∀ k ∈ keys_of (deliver_consecutive_loop q d out).1,
        (deliver_consecutive_loop q d out).2.1 < k := by
  induction q with
  | nil => intro d out _ _; simp [deliver_consecutive_loop, keys_of]
  | cons kv rest ih =>
    intro d out hs hb
    obtain ⟨k0, sdu⟩ := kv
    simp only [keys_of, List.map_cons, List.pairwise_cons, List.mem_cons, forall_eq_or_imp]
      at hs hb
    unfold deliver_consecutive_loop
    split_ifs with h
    · refine ih _ _ hs.2 (fun a ha => ?_)
      have h1 := hs.1 a ha
      have h2 : (d + 1) % 2 ^ 32 ≤ d + 1 := Nat.mod_le _ _
      omega
    · intro k hk
      show d < k
      simp only [keys_of, List.map_cons, List.mem_cons] at hk
      rcases hk with rfl | hk
      · have := hb.1; omega
      · have h1 := hs.1 k hk
        have := hb.1
        omega

theorem deliver_consecutive_loop_mono (N : Nat) (hN : N < 2 ^ 32)
    (q : List (Nat × byte_buffer)) :
    ∀ (d : Nat) (out : List (Nat × byte_buffer)), (∀ k ∈ keys_of q, k < N) →
      d ≤ (deliver_consecutive_loop q d out).2.1 := by
  induction q with
  | nil => intro d out _; exact le_refl _
  | cons kv rest ih =>
    intro d out hb
    obtain ⟨k0, sdu⟩ := kv
    simp only [keys_of, List.map_cons, List.mem_cons, forall_eq_or_imp] at hb
    unfold deliver_consecutive_loop
    split_ifs with h
    · subst h
      have hm : (k0 + 1) % 2 ^ 32 = k0 + 1 := Nat.mod_eq_of_lt (by omega)
      rw [hm]
      have := ih (k0 + 1) (out ++ [(k0, sdu)]) hb.2
      omega
    · exact le_refl _

theorem deliver_consecutive_loop_mem (N : Nat) (hN : N < 2 ^ 32)
    (q : List (Nat × byte_buffer)) :
    ∀ (d : Nat) (out : List (Nat × byte_buffer)),
      (keys_of q).Pairwise (· < ·) → (∀ k ∈ keys_of q, d ≤ k ∧ k < N) → d ≤ N →
      ∀ x ∈ keys_of q, (deliver_consecutive_loop q d out).2.1 ≤ x →
        x ∈ keys_of (deliver_consecutive_loop q d out).1 := by
  induction q with
  | nil => intro d out _ _ _ x hx; simp [keys_of] at hx
  | cons kv rest ih =>
    intro d out hs hb hd x hx hle
    obtain ⟨k0, sdu⟩ := kv
    simp only [keys_of, List.map_cons, List.pairwise_cons, List.mem_cons, forall_eq_or_imp]
      at hs hb hx
    unfold deliver_consecutive_loop at hle ⊢
    split_ifs at hle ⊢ with h
    · subst h
      have hm : (k0 + 1) % 2 ^ 32 = k0 + 1 := Nat.mod_eq_of_lt (by omega)
      rw [hm] at hle ⊢
      have hrest : ∀ a ∈ keys_of rest, k0 + 1 ≤ a ∧ a < N :=
        fun a ha => ⟨hs.1 a ha, (hb.2 a ha).2⟩
      have hmono := deliver_consecutive_loop_mono N hN rest (k0 + 1) (out ++ [(k0, sdu)])
        (fun a ha => (hrest a ha).2)
      rcases hx with rfl | hx
      · omega
      · exact ih _ _ hs.2 hrest (by omega) x hx hle
    · simp only [keys_of, List.map_cons, List.mem_cons]
      exact hx

theorem store_and_drain_eq (e : pdcp_entity_rx) (c : Nat) (sdu : byte_buffer)
    (hlt : c < 2 ^ 32 - 1) :
    store_and_drain e c sdu =
      if c = e.st.rx_deliv then
        deliver_all_consecutive_counts
          { e with
            reorder_queue := map_assign e.reorder_queue c sdu
            st := { e.st with rx_next := if c ≥ e.st.rx_next then c + 1 else e.st.rx_next } }
      else
        { e with
          reorder_queue := map_assign e.reorder_queue c sdu
          st := { e.st with rx_next := if c ≥ e.st.rx_next then c + 1 else e.st.rx_next } } := by
  have hm : (c + 1) % 2 ^ 32 = c + 1 := Nat.mod_eq_of_lt (by omega)
  unfold store_and_drain
  by_cases hn : c ≥ e.st.rx_next
  · simp only [hn, if_true, hm]
  · simp only [hn, if_false]

theorem store_and_drain_facts (e : pdcp_entity_rx) (c : Nat) (sdu : byte_buffer)
    (h : rx_inv_core e) (ht : rx_tight_core e) (hge : e.st.rx_deliv ≤ c)
    (hlt : c < 2 ^ 32 - 1) :
    rx_inv_core (store_and_drain e c sdu) ∧ rx_tight_core (store_and_drain e c sdu) ∧
      (store_and_drain e c sdu).st.rx_reord = e.st.rx_reord ∧
      (store_and_drain e c sdu).reordering_timer_running = e.reordering_timer_running ∧
      e.st.rx_next ≤ (store_and_drain e c sdu).st.rx_next := by
  rw [store_and_drain_eq e c sdu hlt]
  have hs := map_assign_sorted e.reorder_queue c sdu h.sorted
  have hmem := mem_keys_of_map_assign e.reorder_queue c sdu
  have hn2 : e.st.rx_next ≤ (if c ≥ e.st.rx_next then c + 1 else e.st.rx_next) := by
    split_ifs <;> omega
  have hc2 : c < (if c ≥ e.st.rx_next then c + 1 else e.st.rx_next) := by
    split_ifs <;> omega
  have hlt2 : (if c ≥ e.st.rx_next then c + 1 else e.st.rx_next) < 2 ^ 32 := by
    have := h.next_lt
    split_ifs <;> omega
  have hb2 : ∀ k ∈ keys_of (map_assign e.reorder_queue c sdu),
      e.st.rx_deliv ≤ k ∧ k < (if c ≥ e.st.rx_next then c + 1 else e.st.rx_next) := by
    intro k hk
    rcases (hmem k).1 hk with rfl | hk
    · exact ⟨hge, hc2⟩
    · have := h.keys_bounds k hk
      exact ⟨this.1, by omega⟩
  have htop2 : (if c ≥ e.st.rx_next then c + 1 else e.st.rx_next) - 1 ∈
      keys_of (map_assign e.reorder_queue c sdu) := by
    split_ifs with hn
    · exact (hmem _).2 (Or.inl (by omega))
    · exact (hmem _).2 (Or.inr (ht.2 (by omega)))
  have hdn : e.st.rx_deliv ≤ (if c ≥ e.st.rx_next then c + 1 else e.st.rx_next) := by
    have := h.deliv_le
    omega
  generalize (if c ≥ e.st.rx_next then c + 1 else e.st.rx_next) = n2 at *
  have core2 : rx_inv_core
      { e with
        reorder_queue := map_assign e.reorder_queue c sdu
        st := { e.st with rx_next := n2 } } :=
    ⟨hs, hb2, hdn, hlt2, h.dn_sorted, h.dn_lt⟩
  split_ifs with hcd
  · refine ⟨deliver_all_consecutive_counts_core _ core2, ⟨?_, ?_⟩, rfl, rfl, hn2⟩
    · exact deliver_consecutive_loop_gt _ _ _ hs (fun k hk => (hb2 k hk).1)
    · intro hlt3
      have hlt4 : (deliver_consecutive_loop (map_assign e.reorder_queue c sdu) e.st.rx_deliv
          e.upper_dn).2.1 < n2 := hlt3
      show n2 - 1 ∈ keys_of (deliver_consecutive_loop (map_assign e.reorder_queue c sdu)
        e.st.rx_deliv e.upper_dn).1
      exact deliver_consecutive_loop_mem n2 hlt2 _ _ _ hs hb2 hdn (n2 - 1) htop2 (by omega)
  · refine ⟨core2, ⟨fun k hk => ?_, fun _ => htop2⟩, rfl, rfl, hn2⟩
    show e.st.rx_deliv < k
    rcases (hmem k).1 hk with rfl | hk
    · omega
    · exact ht.1 k hk

theorem handle_reordering_timer_tight (cfg : pdcp_rx_config) (e3 : pdcp_entity_rx)
    (hc : rx_inv_core e3) (ht : rx_tight_core e3)
    (hD : cfg.t_reordering ≠ .infinity → e3.st.rx_reord ≤ e3.st.rx_next) :
    rx_tight_core (handle_reordering_timer cfg e3) ∧
      ((∃ d, cfg.t_reordering = .ms d ∧ d ≠ 0) →
        ((handle_reordering_timer cfg e3).reordering_timer_running = true ↔
          (handle_reordering_timer cfg e3).st.rx_deliv <
            (handle_reordering_timer cfg e3).st.rx_next)) := by
  cases htr : cfg.t_reordering with
  | infinity =>
    have hres : handle_reordering_timer cfg e3 =
        if e3.reordering_timer_running && decide (e3.st.rx_deliv ≥ e3.st.rx_reord) then
          { e3 with reordering_timer_running := false }
        else e3 := by
      simp [handle_reordering_timer, htr]
    rw [hres]
    refine ⟨?_, fun ⟨d, hd, _⟩ => absurd hd (by simp)⟩
    split_ifs
    · exact ht
    · exact ht
  | ms d =>
    have hfin : cfg.t_reordering ≠ .infinity := by rw [htr]; simp
    have hD' := hD hfin
    by_cases hd0 : d = 0
    · subst hd0
      have h0 : cfg.t_reordering = pdcp_t_reordering.ms0 := htr
      have hres : ∃ e5 : pdcp_entity_rx, e5.reorder_queue = e3.reorder_queue ∧
          e5.st.rx_next = e3.st.rx_next ∧ e5.st.rx_reord = e5.st.rx_next ∧
          handle_reordering_timer cfg e3 = handle_t_reordering_expire cfg e5 := by
        unfold handle_reordering_timer
        simp only
        rw [if_pos hfin, if_pos h0]
        refine ⟨_, ?_, ?_, rfl, rfl⟩
        · split_ifs <;> rfl
        · split_ifs <;> rfl
      obtain ⟨e5, hq, hn, hr, heq⟩ := hres
      have hall := handle_t_reordering_expire_all cfg e5 hr (by
        intro k hk
        rw [hn]
        have : k ∈ keys_of e3.reorder_queue := by rw [← hq]; exact hk
        exact (hc.keys_bounds k this).2)
      rw [heq, hall]
      refine ⟨⟨fun k hk => absurd hk (by simp [keys_of]), fun hlt => absurd hlt (lt_irrefl _)⟩,
        fun ⟨d, hd, hne⟩ => ?_⟩
      simp only [pdcp_t_reordering.ms.injEq] at hd
      exact absurd hd.symm hne
    · have hn0 : cfg.t_reordering ≠ pdcp_t_reordering.ms0 := by
        rw [htr]; simp [pdcp_t_reordering.ms0, hd0]
      obtain ⟨⟨nx, dl, ro⟩, q, t, dn, cn, tr⟩ := e3
      simp only at hD'
      have hres : handle_reordering_timer cfg
          { st := { rx_next := nx, rx_deliv := dl, rx_reord := ro }, reorder_queue := q,
            reordering_timer_running := t, upper_dn := dn, upper_cn := cn, timer_runs := tr } =
          { st := { rx_next := nx, rx_deliv := dl, rx_reord := nx }, reorder_queue := q,
            reordering_timer_running := decide (dl < nx), upper_dn := dn, upper_cn := cn,
            timer_runs := if (t && decide (dl ≥ ro)) || !t then
              (if dl < nx then tr + 1 else tr) else tr } := by
        unfold handle_reordering_timer
        simp only
        rw [if_pos hfin, if_neg hn0]
        cases t <;> by_cases h1 : dl ≥ ro <;> by_cases h2 : dl < nx <;>
          (simp [h1, h2]; try omega)
      rw [hres]
      refine ⟨ht, fun _ => ?_⟩
      simp

theorem store_and_deliver_tight (cfg : pdcp_rx_config) (e : pdcp_entity_rx) (c : Nat)
    (sdu : byte_buffer) (h : rx_tight cfg e) (hge : e.st.rx_deliv ≤ c)
    (hlt : c < 2 ^ 32 - 1) : rx_tight cfg (store_and_deliver cfg e c sdu) := by
  obtain ⟨f1, f2, f3, f4, f5⟩ := store_and_drain_facts e c sdu h.inv.core h.tight hge hlt
  have hD : cfg.t_reordering ≠ .infinity →
      (store_and_drain e c sdu).st.rx_reord ≤ (store_and_drain e c sdu).st.rx_next := by
    intro hfin
    rw [f3, h.inv.reord hfin]
    exact f5
  obtain ⟨g1, g2⟩ := handle_reordering_timer_tight cfg _ f1 f2 hD
  refine ⟨store_and_deliver_inv cfg e c sdu h.inv hge hlt, ?_, ?_⟩
  · rw [store_and_deliver_eq]; exact g1
  · rw [store_and_deliver_eq]; exact g2

theorem rx_tight_congr {cfg : pdcp_rx_config} {e e' : pdcp_entity_rx} (h : rx_tight cfg e)
    (hq : e'.reorder_queue = e.reorder_queue) (hst : e'.st = e.st)
    (ht : e'.reordering_timer_running = e.reordering_timer_running)
    (hu : e'.upper_dn = e.upper_dn) : rx_tight cfg e' := by
  obtain ⟨⟨h1, h2, h3⟩, ⟨h4, h5⟩, h6⟩ := h
  refine ⟨⟨rx_inv_core_congr h1 hq (by rw [hst]) (by rw [hst]) hu, ?_, ?_⟩, ⟨?_, ?_⟩, ?_⟩
  · rw [hst]; exact h2
  · rw [ht]; exact h3
  · rw [hq, hst]; exact h4
  · rw [hq, hst]; exact h5
  · rw [ht, hst]; exact h6

theorem reordering_callback_tight (cfg : pdcp_rx_config) (e : pdcp_entity_rx)
    (h : rx_tight cfg e) : rx_tight cfg (reordering_callback cfg e) := by
  have hinv := reordering_callback_inv cfg e h.inv
  unfold reordering_callback at hinv ⊢
  split_ifs at hinv ⊢ with ht
  · have hfin : cfg.t_reordering ≠ .infinity := by
      intro hc
      rw [h.inv.timer hc] at ht
      exact absurd ht (by simp)
    have hall := handle_t_reordering_expire_all cfg { e with reordering_timer_running := false }
      (h.inv.reord hfin) (fun k hk => (h.inv.core.keys_bounds k hk).2)
    rw [hall] at hinv ⊢
    refine ⟨hinv, ⟨fun k hk => absurd hk (by simp [keys_of]),
      fun hlt => absurd hlt (lt_irrefl _)⟩, fun _ => ?_⟩
    simp
  · exact h

theorem step_tight (cfg : pdcp_rx_config) (sec : security_engine) (e : pdcp_entity_rx)
    (ev : rx_event) (h : rx_tight cfg e) (hw : no_count_wrap cfg sec e [ev] = true) :
    rx_tight cfg (step cfg sec e ev) := by
  cases ev with
  | t_reordering_expiry => exact reordering_callback_tight cfg e h
  | pdu p =>
    simp only [step]
    cases ha : accepted_pdu cfg sec e p with
    | none =>
      rcases handle_pdu_of_not_accepted cfg sec e p ha with h1 | h1
      · rw [h1]; exact h
      · rw [h1]; exact rx_tight_congr h rfl rfl rfl rfl
    | some a =>
      obtain ⟨c, sdu⟩ := a
      obtain ⟨h1, h2, h3, _⟩ := handle_pdu_of_accepted cfg sec e p c sdu ha
      simp only [no_count_wrap, ha, Option.all_some, bne_iff_ne, ne_eq, Bool.and_true,
        decide_eq_true_eq] at hw
      rw [h1]
      exact store_and_deliver_tight cfg e c sdu h h2 (by omega)

theorem run_tight (cfg : pdcp_rx_config) (sec : security_engine) (evs : List rx_event) :
    ∀ e : pdcp_entity_rx, rx_tight cfg e → no_count_wrap cfg sec e evs = true →
      rx_tight cfg (run cfg sec e evs) := by
  induction evs with
  | nil => intro e h _; exact h
  | cons ev evs ih =>
    intro e h hw
    simp only [no_count_wrap, Bool.and_eq_true] at hw
    refine ih _ (step_tight cfg sec e ev h ?_) hw.2
    simp only [no_count_wrap, Bool.and_true]
    exact hw.1

theorem rx_tight_init (cfg : pdcp_rx_config) : rx_tight cfg pdcp_entity_rx.init := by
  refine ⟨rx_inv_init cfg, ⟨?_, ?_⟩, fun _ => ?_⟩ <;> simp [pdcp_entity_rx.init, keys_of]

/-- C26: with a finite non-zero t-Reordering, along every sequence of
`handle_pdu` calls and timer expiries from the initial state in which no
RCVD_HFN computation under- or overflows and no RCVD_COUNT is 2^32 - 1, after
each completed operation the reordering timer is running if and only if
RX_DELIV < RX_NEXT. -/
theorem timer_running_iff_rx_deliv_lt_rx_next (cfg : pdcp_rx_config) (sec : security_engine)
    (evs : List rx_event) (d : Nat) (hd : cfg.t_reordering = .ms d) (hd0 : d ≠ 0)
    (hw : no_hfn_wrap cfg sec .init evs = true) :
    (run cfg sec .init evs).reordering_timer_running = true ↔
      (run cfg sec .init evs).st.rx_deliv < (run cfg sec .init evs).st.rx_next :=
  (run_tight cfg sec evs .init (rx_tight_init cfg)
    (no_count_wrap_of_no_hfn_wrap cfg sec evs .init hw)).timer_iff ⟨d, hd, hd0⟩

/-- Witness of C26: after SN 0 and SN 2 the timer runs and RX_DELIV = 1 <
RX_NEXT = 3. -/
theorem timer_running_iff_rx_deliv_lt_rx_next_witness :
    (run (drb12 (.ms 10)) test_engine .init
      [.pdu (pdu12 0 10), .pdu (pdu12 2 12)]).reordering_timer_running = true :=
  (timer_running_iff_rx_deliv_lt_rx_next (drb12 (.ms 10)) test_engine
    [.pdu (pdu12 0 10), .pdu (pdu12 2 12)] 10 rfl (by decide) (by decide)).2 (by decide)

/-- C27: along every sequence of `handle_pdu` calls and timer expiries from the
initial state in which no RCVD_HFN computation under- or overflows and no
RCVD_COUNT is 2^32 - 1, after each completed operation every buffer key k
satisfies RX_DELIV < k < RX_NEXT, the buffer is empty if and only if
RX_DELIV = RX_NEXT, and the entry with key RX_NEXT - 1 is buffered whenever
RX_DELIV < RX_NEXT. -/
theorem buffer_keys_between_rx_deliv_and_rx_next (cfg : pdcp_rx_config)
    (sec : security_engine) (evs : List rx_event)
    (hw : no_hfn_wrap cfg sec .init evs = true) :
    (∀ k ∈ queue_keys (run cfg sec .init evs),
      (run cfg sec .init evs).st.rx_deliv < k ∧ k < (run cfg sec .init evs).st.rx_next) ∧
    ((run cfg sec .init evs).reorder_queue = [] ↔
      (run cfg sec .init evs).st.rx_deliv = (run cfg sec .init evs).st.rx_next) ∧
    ((run cfg sec .init evs).st.rx_deliv < (run cfg sec .init evs).st.rx_next →
      (run cfg sec .init evs).st.rx_next - 1 ∈ queue_keys (run cfg sec .init evs)) := by
  have h := run_tight cfg sec evs .init (rx_tight_init cfg)
    (no_count_wrap_of_no_hfn_wrap cfg sec evs .init hw)
  have hk : ∀ k ∈ queue_keys (run cfg sec .init evs),
      (run cfg sec .init evs).st.rx_deliv < k ∧ k < (run cfg sec .init evs).st.rx_next :=
    fun k hk => ⟨h.tight.1 k hk, (h.inv.core.keys_bounds k hk).2⟩
  refine ⟨hk, ⟨fun hq => ?_, fun heq => ?_⟩, h.tight.2⟩
  · by_contra hne
    have hlt : (run cfg sec .init evs).st.rx_deliv < (run cfg sec .init evs).st.rx_next :=
      lt_of_le_of_ne h.inv.core.deliv_le hne
    have := h.tight.2 hlt
    rw [keys_of, hq] at this
    simp at this
  · cases hq : (run cfg sec .init evs).reorder_queue with
    | nil => rfl
    | cons kv rest =>
      have := hk kv.1 (by simp [queue_keys, hq])
      omega

/-- Witness of C27: after SN 0, SN 3 and SN 2 the buffer holds COUNTs 2 and 3
between RX_DELIV = 1 and RX_NEXT = 4. -/
theorem buffer_keys_between_rx_deliv_and_rx_next_witness :
    (run (drb12 (.ms 10)) test_engine .init
      [.pdu (pdu12 0 10), .pdu (pdu12 3 13), .pdu (pdu12 2 12)]).st.rx_deliv < 2 ∧
    2 < (run (drb12 (.ms 10)) test_engine .init
      [.pdu (pdu12 0 10), .pdu (pdu12 3 13), .pdu (pdu12 2 12)]).st.rx_next :=
  (buffer_keys_between_rx_deliv_and_rx_next (drb12 (.ms 10)) test_engine
    [.pdu (pdu12 0 10), .pdu (pdu12 3 13), .pdu (pdu12 2 12)] (by decide)).1 2 (by decide)

/-! ## Infinite t-Reordering -/

theorem deliver_consecutive_loop_gap_free (q : List (Nat × byte_buffer)) :
    ∀ (d : Nat) (out : List (Nat × byte_buffer)), d = out.length % 2 ^ 32 →
      keys_of out = (List.range out.length).map (fun j => j % 2 ^ 32) →
      (deliver_consecutive_loop q d out).2.1 =
        (deliver_consecutive_loop q d out).2.2.length % 2 ^ 32 ∧
      keys_of (deliver_consecutive_loop q d out).2.2 =
        (List.range (deliver_consecutive_loop q d out).2.2.length).map
          (fun j => j % 2 ^ 32) := by
  induction q with
  | nil => intro d out hd hk; exact ⟨hd, hk⟩
  | cons kv rest ih =>
    intro d out hd hk
    obtain ⟨k, sdu⟩ := kv
    unfold deliver_consecutive_loop
    split_ifs with h
    · refine ih _ _ ?_ ?_
      · rw [List.length_append, List.length_singleton, hd]
        omega
      · rw [List.length_append, List.length_singleton, List.range_succ, List.map_append]
        simp only [keys_of, List.map_append, List.map_cons, List.map_nil] at hk ⊢
        rw [hk, h, hd]
    · exact ⟨hd, hk⟩

theorem deliver_all_consecutive_counts_gap_free (e : pdcp_entity_rx) (h : rx_gap_free e) :
    rx_gap_free (deliver_all_consecutive_counts e) := by
  obtain ⟨r1, r2⟩ := deliver_consecutive_loop_gap_free e.reorder_queue e.st.rx_deliv e.upper_dn
    h.deliv h.counts
  exact ⟨h.timer, h.runs, h.reord, r1, r2⟩

theorem rx_gap_free_congr {e e' : pdcp_entity_rx} (h : rx_gap_free e)
    (ht : e'.reordering_timer_running = e.reordering_timer_running)
    (hr : e'.timer_runs = e.timer_runs) (ho : e'.st.rx_reord = e.st.rx_reord)
    (hd : e'.st.rx_deliv = e.st.rx_deliv) (hu : e'.upper_dn = e.upper_dn) :
    rx_gap_free e' := by
  obtain ⟨h1, h2, h3, h4, h5⟩ := h
  refine ⟨by rw [ht]; exact h1, by rw [hr]; exact h2, by rw [ho]; exact h3,
    by rw [hd, hu]; exact h4, by rw [hu]; exact h5⟩

theorem store_and_deliver_gap_free (cfg : pdcp_rx_config) (e : pdcp_entity_rx) (c : Nat)
    (sdu : byte_buffer) (hinf : cfg.t_reordering = .infinity) (h : rx_gap_free e) :
    rx_gap_free (store_and_deliver cfg e c sdu) := by
  have h1 : rx_gap_free (store_and_drain e c sdu) := by
    unfold store_and_drain
    simp only
    split_ifs
    · exact deliver_all_consecutive_counts_gap_free _ (rx_gap_free_congr h rfl rfl rfl rfl rfl)
    · exact rx_gap_free_congr h rfl rfl rfl rfl rfl
    · exact deliver_all_consecutive_counts_gap_free _ (rx_gap_free_congr h rfl rfl rfl rfl rfl)
    · exact rx_gap_free_congr h rfl rfl rfl rfl rfl
  rw [store_and_deliver_eq]
  unfold handle_reordering_timer
  simp only [hinf, ne_eq, not_true_eq_false, if_false]
  split_ifs
  · exact rx_gap_free_congr h1 h1.timer.symm rfl rfl rfl rfl
  · exact h1

theorem step_gap_free (cfg : pdcp_rx_config) (sec : security_engine) (e : pdcp_entity_rx)
    (ev : rx_event) (hinf : cfg.t_reordering = .infinity) (h : rx_gap_free e) :
    rx_gap_free (step cfg sec e ev) := by
  cases ev with
  | t_reordering_expiry =>
    simp only [step, reordering_callback, h.timer, Bool.false_eq_true, if_false]
    exact h
  | pdu p =>
    simp only [step]
    cases ha : accepted_pdu cfg sec e p with
    | none =>
      rcases handle_pdu_of_not_accepted cfg sec e p ha with h1 | h1
      · rw [h1]; exact h
      · rw [h1]; exact rx_gap_free_congr h rfl rfl rfl rfl rfl
    | some a =>
      obtain ⟨c, sdu⟩ := a
      rw [(handle_pdu_of_accepted cfg sec e p c sdu ha).1]
      exact store_and_deliver_gap_free cfg e c sdu hinf h

theorem run_gap_free (cfg : pdcp_rx_config) (sec : security_engine)
    (hinf : cfg.t_reordering = .infinity) (evs : List rx_event) :
    ∀ e : pdcp_entity_rx, rx_gap_free e → rx_gap_free (run cfg sec e evs) := by
  induction evs with
  | nil => intro e h; exact h
  | cons ev evs ih => intro e h; exact ih _ (step_gap_free cfg sec e ev hinf h)

theorem rx_gap_free_init : rx_gap_free pdcp_entity_rx.init :=
  ⟨rfl, rfl, rfl, rfl, rfl⟩

/-- C28 (fails as stated): with an infinite t-Reordering, after 2^32 PDUs
received in order (SN = i mod 4096 for the i-th PDU) 2^32 SDUs have been
delivered but RX_DELIV is 0, not the number of SDUs delivered. -/
theorem gap_free_rx_deliv_wraps :
    (run (drb12 .infinity) test_engine .init
      (((List.range (2 ^ 32)).map (fun i => pdu12 (i % 4096) 0)).map .pdu)).upper_dn.length =
        2 ^ 32 ∧
    (run (drb12 .infinity) test_engine .init
      (((List.range (2 ^ 32)).map (fun i => pdu12 (i % 4096) 0)).map .pdu)).st.rx_deliv = 0 := by
  have hsn : ∀ i (h : i < ((List.range (2 ^ 32)).map (fun i => pdu12 (i % 4096) 0)).length),
      read_data_pdu_header (drb12 .infinity).sn_size
          ((List.range (2 ^ 32)).map (fun i => pdu12 (i % 4096) 0))[i] =
        some ((0 + i) % 2 ^ sn_bits (drb12 .infinity).sn_size) := by
    intro i h
    rw [List.getElem_map, List.getElem_range, Nat.zero_add]
    exact read_data_pdu_header_pdu12 _ _ (Nat.mod_lt _ (by norm_num))
  have hlen : ((List.range (2 ^ 32)).map (fun i => pdu12 (i % 4096) 0)).length = 2 ^ 32 := by
    rw [List.length_map, List.length_range]
  obtain ⟨⟨h1, _⟩, h2⟩ := run_pdus_in_sync (drb12 .infinity) test_engine rfl rfl
    ((List.range (2 ^ 32)).map (fun i => pdu12 (i % 4096) 0)) 0 .init (in_sync_init _) hsn
  rw [hlen] at h1
  refine ⟨?_, h1⟩
  rw [h2, List.length_append, List.length_map, List.enumFrom_length, hlen]
  rfl

/-- C28 (amended): with an infinite t-Reordering, for every sequence of events
from the initial state, no timer is ever started, RX_REORD stays 0, and
deliveries are gap-free modulo 2^32: the j-th SDU delivered (counting from 0)
has COUNT j mod 2^32 and RX_DELIV equals the number of SDUs delivered so far
mod 2^32; as long as fewer than 2^32 SDUs have been delivered the j-th has
COUNT j, RX_DELIV is their number, and a COUNT that has not been delivered
blocks the delivery of every higher COUNT. -/
theorem infinite_t_reordering_gap_free (cfg : pdcp_rx_config) (sec : security_engine)
    (evs : List rx_event) (hinf : cfg.t_reordering = .infinity) :
    (run cfg sec .init evs).timer_runs = 0 ∧
    (run cfg sec .init evs).reordering_timer_running = false ∧
    (run cfg sec .init evs).st.rx_reord = 0 ∧
    delivered_counts (run cfg sec .init evs) =
      (List.range (run cfg sec .init evs).upper_dn.length).map (fun j => j % 2 ^ 32) ∧
    (run cfg sec .init evs).st.rx_deliv = (run cfg sec .init evs).upper_dn.length % 2 ^ 32 ∧
    ((run cfg sec .init evs).upper_dn.length < 2 ^ 32 →
      delivered_counts (run cfg sec .init evs) =
        List.range (run cfg sec .init evs).upper_dn.length ∧
      (run cfg sec .init evs).st.rx_deliv = (run cfg sec .init evs).upper_dn.length ∧
      ∀ c, c ∉ delivered_counts (run cfg sec .init evs) →
        ∀ c' ∈ delivered_counts (run cfg sec .init evs), c' < c) := by
  have h := run_gap_free cfg sec hinf evs .init rx_gap_free_init
  refine ⟨h.runs, h.timer, h.reord, h.counts, h.deliv, fun hlt => ?_⟩
  have hr : delivered_counts (run cfg sec .init evs) =
      List.range (run cfg sec .init evs).upper_dn.length := by
    have hc : delivered_counts (run cfg sec .init evs) =
        (List.range (run cfg sec .init evs).upper_dn.length).map (fun j => j % 2 ^ 32) :=
      h.counts
    rw [hc]
    conv_rhs => rw [← List.map_id (List.range (run cfg sec .init evs).upper_dn.length)]
    apply List.map_congr_left
    intro j hj
    rw [List.mem_range] at hj
    exact Nat.mod_eq_of_lt (by omega)
  refine ⟨hr, by rw [h.deliv]; exact Nat.mod_eq_of_lt hlt, fun c hc c' hc' => ?_⟩
  rw [hr, List.mem_range] at hc hc'
  omega

/-- Witness of C28 (amended): SN 0, SN 2, SN 3 with an infinite t-Reordering:
only COUNT 0 is delivered, RX_DELIV = 1, and the missing COUNT 1 blocks COUNTs
2 and 3. -/
theorem infinite_t_reordering_gap_free_witness :
    delivered_counts (run (drb12 .infinity) test_engine .init
      [.pdu (pdu12 0 10), .pdu (pdu12 2 12), .pdu (pdu12 3 13)]) =
      List.range (run (drb12 .infinity) test_engine .init
        [.pdu (pdu12 0 10), .pdu (pdu12 2 12), .pdu (pdu12 3 13)]).upper_dn.length ∧
    (run (drb12 .infinity) test_engine .init
      [.pdu (pdu12 0 10), .pdu (pdu12 2 12), .pdu (pdu12 3 13)]).st.rx_deliv =
      (run (drb12 .infinity) test_engine .init
        [.pdu (pdu12 0 10), .pdu (pdu12 2 12), .pdu (pdu12 3 13)]).upper_dn.length ∧
    ∀ c, c ∉ delivered_counts (run (drb12 .infinity) test_engine .init
        [.pdu (pdu12 0 10), .pdu (pdu12 2 12), .pdu (pdu12 3 13)]) →
      ∀ c' ∈ delivered_counts (run (drb12 .infinity) test_engine .init
        [.pdu (pdu12 0 10), .pdu (pdu12 2 12), .pdu (pdu12 3 13)]), c' < c :=
  (infinite_t_reordering_gap_free (drb12 .infinity) test_engine
    [.pdu (pdu12 0 10), .pdu (pdu12 2 12), .pdu (pdu12 3 13)] rfl).2.2.2.2.2 (by decide)

end srsgnb

namespace srsran.srs_du

/-! ## GBR packet loss rates -/

/-- C30 (the code departs from the claim): for a DRB item whose GBR information
carries only the uplink maximum packet loss rate 7, `make_drb_config_request`
stores 7 in `max_packet_loss_rate_dl` and leaves `max_packet_loss_rate_ul`
empty; with both rates present (downlink 3, uplink 7) the downlink field holds
the uplink value 7 and the uplink field is again empty.  The same holds for the
two other overloads, which share the template. -/
theorem make_drb_config_request_uplink_loss_rate_misplaced :
    (make_drb_config_request (gbr_item none (some 7))).gbr_flow_info.map
      (fun g => (g.max_packet_loss_rate_dl, g.max_packet_loss_rate_ul)) = some (some 7, none) ∧
    (make_drb_config_request (gbr_item (some 3) (some 7))).gbr_flow_info.map
      (fun g => (g.max_packet_loss_rate_dl, g.max_packet_loss_rate_ul)) = some (some 7, none) ∧
    (make_drb_config_request_setup_mod (gbr_item none (some 7))).gbr_flow_info.map
      (fun g => (g.max_packet_loss_rate_dl, g.max_packet_loss_rate_ul)) = some (some 7, none) ∧
    (make_drb_config_request_modified (gbr_item none (some 7))).gbr_flow_info.map
      (fun g => (g.max_packet_loss_rate_dl, g.max_packet_loss_rate_ul)) = some (some 7, none) := by
  decide

end srsran.srs_du
